import Mathlib

/-! # sound2score: MIDI and WAVE container codecs and note timeline translator

A shallow embedding of `src/audiotranscriber/midi.c`, `src/audiotranscriber/midiwriter.c`,
`src/audiorecorder/wav.c` and `src/common/endianness.c`, with `get_modal_tempo` of
`src/audiotranscriber/noteextractor.c` and `startswith` of `src/audiorecorder/stringutils.c`.

Conventions of the embedding.

* Machine integers are natural numbers; wrap-around is written out with `% 2 ^ w` at the places
  where the C code converts or can overflow.
* A function that returns an `int` status and mutates a structure through a pointer becomes a
  function returning the pair `(status, new structure)`.
* `Option` is used for behaviour that C leaves undefined (an out-of-range conversion of a
  `double` to an integer, a read or write outside a buffer) and for a loop that has used up
  its iteration budget: `none` means that no result is defined.
* `double` values are exact rationals: floating-point rounding of the product
  `ticks_per_sec * seconds` is not modelled.
* Memory allocation, `creat`, `write`, `fwrite` and `close` are taken to succeed, pointers
  passed by the callers are non-null, and diagnostic output on `stderr` is left out.
* The value of the macro `IS_BIG_ENDIAN` and the byte order of the host are two parameters:
  the macro is 1 only where `__BYTE_ORDER` or `REG_DWORD` is defined and has the big-endian
  value, so it can be 0 on a host that stores the most significant byte first.
* The list `events` of a track holds the bytes of the event buffer before the cursor; the
  bytes of the allocation from the cursor on are a parameter `fill` of the functions that
  read them.
-/

namespace Sound2Score

/-! ## Constants of `midi.h` -/

def MIDI_BPM_DEFAULT : Nat := 120
def MIDI_PPQ_DEFAULT : Nat := 96
def MIDIEVENTS_BUFSIZE : Nat := 16384
def MIDIEVENTS_BUFINCR : Nat := 4096
/-- The macro `(sizeof(int32_t) + 1)`. -/
def VARINT32_MAXSIZE : Nat := 4 + 1
def MIDI_PITCH_MAX : Nat := 127
def MIDI_VELOCITY_MAX : Nat := 127
def MIDI_CHANNEL_MAX : Nat := 15
def MIDIEVENT_NOTEOFF : Nat := 0x80
def MIDIEVENT_NOTEON : Nat := 0x90
def MIDIEVENT_META : Nat := 0xff
def META_1_ENDTRACK : Nat := 0x2f
def META_2_ENDTRACK : Nat := 0x00
def META_1_TEMPO : Nat := 0x51
def META_2_TEMPO : Nat := 0x03

/-! ## Data model (`midi.h`, `note.h`) -/

/-- The struct `miditrack` of `midi.h`. The pointer pair `events`/`eventsp` is represented by
the list of bytes written so far, so the cursor offset `eventsp - events` is `events.length`;
bytes of the allocation past the cursor are indeterminate and are not represented.
`events_size` is the size of the allocation. -/
structure miditrack_t where
  chunkid : List Nat
  chunksize : Nat
  events : List Nat
  events_size : Nat
  deriving DecidableEq, Repr

/-- The struct `midiheader` of `midi.h`. -/
structure midiheader_t where
  chunkid : List Nat
  chunksize : Nat
  format : Nat
  ntracks : Nat
  time_div : Nat
  deriving DecidableEq, Repr

/-- The struct `midifile` of `midi.h`. -/
structure midifile_t where
  header : midiheader_t
  tracks : List miditrack_t
  deriving DecidableEq, Repr

/-- The struct `note` of `note.h`; the two `double` fields are exact rationals. -/
structure note_t where
  pitch : Nat
  velocity : Nat
  tempo : Nat
  start_sec : ℚ
  stop_sec : ℚ

/-! ## `enc_varint32` (`midi.c`) -/

/-- The `while ((val >>= 7) > 0)` loop of `enc_varint32`. The first argument bounds the number
of iterations; `pos` is an `unsigned int`, so `pos--` wraps modulo `2 ^ 32`, and a store
`buf[pos]` outside the `VARINT32_MAXSIZE` bytes of `buf` is undefined. -/
def enc_varint32_loop : Nat → Nat → Nat → List Nat → Option (Nat × List Nat)
  | 0, _, _, _ => none
  | fuel + 1, val, pos, buf =>
    let val1 := val >>> 7
    if val1 > 0 then
      let val2 := val1 - 1
      let pos1 := (pos + 2 ^ 32 - 1) % 2 ^ 32
      if pos1 < VARINT32_MAXSIZE then
        enc_varint32_loop fuel val2 pos1 (buf.set pos1 ((1 <<< 7) ||| (val2 &&& ((1 <<< 7) - 1))))
      else none
    else some (pos, buf)

/-- The function `enc_varint32(val, dst)` for a non-null `dst`: the returned pair is `nbytes`
and the `nbytes` bytes copied to `dst`. -/
def enc_varint32 (val : Nat) : Option (Nat × List Nat) :=
  let pos := VARINT32_MAXSIZE - 1
  let buf := (List.replicate VARINT32_MAXSIZE 0).set pos (val &&& ((1 <<< 7) - 1))
  match enc_varint32_loop 32 val pos buf with
  | none => none
  | some (pos1, buf1) =>
    let nbytes := VARINT32_MAXSIZE - pos1
    some (nbytes, (buf1.drop pos1).take nbytes)

/-- The bytes `enc_varint32` copies to `dst`, without the count; empty where the result is not
defined. -/
def varint_bytes (val : Nat) : List Nat :=
  match enc_varint32 val with
  | none => []
  | some (_, bytes) => bytes

/-! ## The standard variable-length quantity, from the specification -/

/-- The standard SMF variable-length quantity of `v` as the specification words it: the
base-128 digits of `v`, most significant first, without a leading zero digit (the single digit
`0` for `v = 0`), bit 7 set on every byte except the last. -/
def smf_vlq (v : Nat) : List Nat :=
  let digits := if v = 0 then [0] else (Nat.digits 128 v).reverse
  digits.dropLast.map (fun d => d + 128) ++ digits.drop (digits.length - 1)

/-- The decode rule of the specification: read bytes while the continuation bit is set,
accumulating the low 7 bits of each byte most-significant first, and stop at the first byte
whose continuation bit is clear. `acc` is the value accumulated so far; `none` when the bytes
end before a terminating byte. -/
def spec_decode_varint (acc : Nat) : List Nat → Option Nat
  | [] => none
  | b :: bs =>
    if b &&& 0x80 ≠ 0 then spec_decode_varint (acc * 128 + (b &&& 0x7f)) bs
    else some (acc * 128 + (b &&& 0x7f))

/-! ## Track buffer management (`midi.c`) -/

/-- The function `miditrack_buffer_remaining` for a track with an allocated buffer: the
`size_t` difference `events_size - (eventsp - events)`, which wraps modulo `2 ^ 64` when the
cursor is past the allocation. -/
def miditrack_buffer_remaining (track : miditrack_t) : Nat :=
  (track.events_size + 2 ^ 64 - track.events.length % 2 ^ 64) % 2 ^ 64

/-- The function `miditrack_buffer_increase` with `realloc` succeeding: the allocation size
becomes `events_size + diff` (an `ssize_t` sum stored back into the `size_t` field). -/
def miditrack_buffer_increase (trk : miditrack_t) (diff : Int) : Nat × miditrack_t :=
  (0, { trk with events_size := (((trk.events_size : Int) + diff) % 2 ^ 64).toNat })

/-! ## Event creation (`midi.c`) -/

/-- The function `miditrack_addevent` on an initialised track. `extra` is `none` for a null
pointer. The parameters are already of their C types: `deltatime` a `uint32_t`, the three event
bytes `unsigned char`. -/
def miditrack_addevent (track : miditrack_t) (deltatime status data1 data2 : Nat)
    (extra : Option (List Nat)) (extralen : Nat) : Option (Nat × miditrack_t) :=
  if extra = none ∧ extralen > 0 then some (1, track)
  else
    let min_free := 263
    let track1 :=
      if miditrack_buffer_remaining track < min_free then
        (miditrack_buffer_increase track MIDIEVENTS_BUFINCR).2
      else track
    match enc_varint32 deltatime with
    | none => none
    | some (_, varint) =>
      some (0, { track1 with
        events := track1.events ++ varint ++ [status, data1, data2]
          ++ (extra.getD []).take extralen })

/-- The function `miditrack_noteon`; `channel`, `pitch` and `velocity` are `unsigned char`. -/
def miditrack_noteon (trk : miditrack_t) (deltatime channel pitch velocity : Nat) :
    Option (Nat × miditrack_t) :=
  if channel > MIDI_CHANNEL_MAX ∨ pitch > MIDI_PITCH_MAX then some (1, trk)
  else
    let velocity1 := if velocity > MIDI_VELOCITY_MAX then MIDI_VELOCITY_MAX else velocity
    miditrack_addevent trk deltatime ((MIDIEVENT_NOTEON ||| channel) % 256) pitch velocity1 none 0

/-- The function `miditrack_noteoff`. -/
def miditrack_noteoff (trk : miditrack_t) (deltatime channel pitch velocity : Nat) :
    Option (Nat × miditrack_t) :=
  if channel > MIDI_CHANNEL_MAX ∨ pitch > MIDI_PITCH_MAX then some (1, trk)
  else
    let velocity1 := if velocity > MIDI_VELOCITY_MAX then MIDI_VELOCITY_MAX else velocity
    miditrack_addevent trk deltatime ((MIDIEVENT_NOTEOFF ||| channel) % 256) pitch velocity1 none 0

/-- The function `miditrack_settempo`; `bpm` is an `unsigned int`. -/
def miditrack_settempo (trk : miditrack_t) (deltatime bpm : Nat) : Option (Nat × miditrack_t) :=
  if bpm = 0 then some (1, trk)
  else
    let usec_per_beat := 60000000 / bpm
    let tempo_24bit :=
      [(usec_per_beat >>> 16) &&& 0xff, (usec_per_beat >>> 8) &&& 0xff, usec_per_beat &&& 0xff]
    miditrack_addevent trk deltatime MIDIEVENT_META META_1_TEMPO META_2_TEMPO
      (some tempo_24bit) 3

/-- The function `miditrack_end`. -/
def miditrack_end (trk : miditrack_t) (deltatime : Nat) : Option (Nat × miditrack_t) :=
  miditrack_addevent trk deltatime MIDIEVENT_META META_1_ENDTRACK META_2_ENDTRACK none 0

/-! ## Initialisation and finalisation (`midi.c`) -/

/-- The function `midiheader_getsize`: the sum of the sizes of the five header fields. -/
def midiheader_getsize : Nat := 4 + 4 + 2 + 2 + 2

/-- The function `init_midiheader`; the three parameters are `uint16_t`. -/
def init_midiheader (format ntracks nticks : Nat) : Nat × midiheader_t :=
  (0, { chunkid := [0x4d, 0x54, 0x68, 0x64]
        chunksize := midiheader_getsize - 4 - 4
        format := if format ≠ 0 then format else 0
        ntracks := if ntracks ≠ 0 then ntracks else 1
        time_div := if nticks ≠ 0 then nticks else 96 })

/-- The function `init_miditrack` applied to the track structure `trk`, whose previous contents
are whatever the memory held; `chunksize` is not assigned. -/
def init_miditrack (trk : miditrack_t) (bufsize : Nat) : Nat × miditrack_t :=
  (0, { trk with
        chunkid := [0x4d, 0x54, 0x72, 0x6b]
        events_size := if bufsize ≠ 0 then bufsize else MIDIEVENTS_BUFSIZE
        events := [] })

/-- The function `init_midifile`. `raw t` is the indeterminate content of the freshly allocated
track structure number `t`. -/
def init_midifile (raw : Nat → miditrack_t) (format ntracks nticks track_bufsize : Nat) :
    Nat × midifile_t :=
  let header := (init_midiheader format ntracks nticks).2
  (0, { header := header
        tracks := (List.range header.ntracks).map
          (fun t => (init_miditrack (raw t) track_bufsize).2) })

/-- The function `finalise_miditrack` on an initialised track. The end-of-track test reads the
three bytes before the cursor, the byte at `eventsp - 3` first; with fewer than three bytes
written that read is before the start of the buffer, hence `none`. The status returned by
`miditrack_end` is discarded, as in the source. -/
def finalise_miditrack (trk : miditrack_t) : Option (Nat × miditrack_t) :=
  let n := trk.events.length
  if n < 3 then none
  else
    let ended :=
      if trk.events.getD (n - 3) 0 ≠ MIDIEVENT_META ∨
         trk.events.getD (n - 2) 0 ≠ META_1_ENDTRACK ∨
         trk.events.getD (n - 1) 0 ≠ META_2_ENDTRACK then
        miditrack_end trk 0
      else some (0, trk)
    match ended with
    | none => none
    | some (_, trk1) =>
      let remaining := miditrack_buffer_remaining trk1
      let diff : Int := if remaining < 2 ^ 63 then (remaining : Int) else (remaining : Int) - 2 ^ 64
      let trk2 := if diff > 0 then (miditrack_buffer_increase trk1 (-diff)).2 else trk1
      some (0, { trk2 with chunksize := trk2.events_size % 2 ^ 32 })

/-- The loop of `finalise_midifile` over the tracks from index `t` on; `done` holds the tracks
before `t`, already finalised. -/
def finalise_tracks : List miditrack_t → List miditrack_t → Option (Nat × List miditrack_t)
  | done, [] => some (0, done)
  | done, trk :: rest =>
    match finalise_miditrack trk with
    | none => none
    | some (r, trk1) =>
      if r ≠ 0 then some (1, done ++ trk1 :: rest)
      else finalise_tracks (done ++ [trk1]) rest

/-- The function `finalise_midifile`: the tracks `0 .. header.ntracks - 1` are finalised in
order. -/
def finalise_midifile (midif : midifile_t) : Option (Nat × midifile_t) :=
  match finalise_tracks [] (midif.tracks.take midif.header.ntracks) with
  | none => none
  | some (r, trks) =>
    some (r, { midif with tracks := trks ++ midif.tracks.drop midif.header.ntracks })

/-! ## Byte order (`endianness.c`) and serialisation (`midi.c`) -/

def byteswap16 (val : Nat) : Nat :=
  (((val &&& 0xff) <<< 8) ||| ((val >>> 8) &&& 0xff)) % 2 ^ 16

def byteswap32 (val : Nat) : Nat :=
  (((val &&& 0xff) <<< 24) ||| (((val >>> 8) &&& 0xff) <<< 16)
    ||| (((val >>> 16) &&& 0xff) <<< 8) ||| ((val >>> 24) &&& 0xff)) % 2 ^ 32

/-- The macro `IS_BIG_ENDIAN` of `endianness.h`, decided by the preprocessor at the place where
the header is included. `byte_order` is `none` when the macro `__BYTE_ORDER` is not defined
there and `some b` when it is, with `b` telling whether it equals `__BIG_ENDIAN`; `reg_dword`
does the same for `REG_DWORD` and `REG_DWORD_BIG_ENDIAN`. The file `endianness.c`, in which the
four conversion functions are compiled, includes only `<stdint.h>` before `endianness.h`. -/
def IS_BIG_ENDIAN (byte_order reg_dword : Option Bool) : Bool :=
  (byte_order == some true) || (reg_dword == some true)

/-- The function `be16`; `is_big_endian` is the value of the macro `IS_BIG_ENDIAN`. -/
def be16 (is_big_endian : Bool) (val : Nat) : Nat :=
  if is_big_endian then val else byteswap16 val

/-- The function `be32`. -/
def be32 (is_big_endian : Bool) (val : Nat) : Nat :=
  if is_big_endian then val else byteswap32 val

/-- The bytes of a `uint16_t` object in the memory of the host, in address order;
`host_big_endian` tells whether the host stores the most significant byte first. -/
def host_bytes16 (host_big_endian : Bool) (val : Nat) : List Nat :=
  if host_big_endian then [val / 256 % 256, val % 256] else [val % 256, val / 256 % 256]

/-- The bytes of a `uint32_t` object in the memory of the host, in address order. -/
def host_bytes32 (host_big_endian : Bool) (val : Nat) : List Nat :=
  if host_big_endian then [val / 2 ^ 24 % 256, val / 2 ^ 16 % 256, val / 2 ^ 8 % 256, val % 256]
  else [val % 256, val / 2 ^ 8 % 256, val / 2 ^ 16 % 256, val / 2 ^ 24 % 256]

/-- The bytes `write_midiheader` hands to `write`: the chunk id, then the memory images of the
four values returned by `be32` and `be16`. The value `is_big_endian` of the macro decides what
`be32` and `be16` return; the byte order `host_big_endian` of the host decides how the returned
values lie in memory. -/
def write_midiheader (is_big_endian host_big_endian : Bool) (hdr : midiheader_t) : List Nat :=
  hdr.chunkid
    ++ host_bytes32 host_big_endian (be32 is_big_endian hdr.chunksize)
    ++ host_bytes16 host_big_endian (be16 is_big_endian hdr.format)
    ++ host_bytes16 host_big_endian (be16 is_big_endian hdr.ntracks)
    ++ host_bytes16 host_big_endian (be16 is_big_endian hdr.time_div)

/-- The `events_size` bytes of the event buffer of a track, from the start of the buffer: the
bytes before the cursor are those of `events`; a byte at an offset `i` from the cursor on has
never been written and holds whatever the allocation holds there, `fill i`. -/
def buffer_bytes (fill : Nat → Nat) (trk : miditrack_t) : List Nat :=
  (List.range trk.events_size).map (fun i => trk.events.getD i (fill i))

/-- The bytes `write_miditrack` hands to `write`: the chunk id and the memory image of
`be32(trk->chunksize)`, then `events_size` bytes from the start of the event buffer. -/
def write_miditrack (is_big_endian host_big_endian : Bool) (fill : Nat → Nat)
    (trk : miditrack_t) : List Nat :=
  trk.chunkid ++ host_bytes32 host_big_endian (be32 is_big_endian trk.chunksize)
    ++ buffer_bytes fill trk

/-- The loop of `write_midifile` over the tracks from index `t` on; `fill t` is the content of
the unwritten part of the event buffer of track `t`. -/
def write_tracks (is_big_endian host_big_endian : Bool) (fill : Nat → Nat → Nat) :
    Nat → List miditrack_t → List Nat
  | _, [] => []
  | t, trk :: rest =>
    write_miditrack is_big_endian host_big_endian (fill t) trk
      ++ write_tracks is_big_endian host_big_endian fill (t + 1) rest

/-- The bytes `write_midifile` writes: the header, then the tracks `0 .. header.ntracks - 1`. -/
def write_midifile (is_big_endian host_big_endian : Bool) (fill : Nat → Nat → Nat)
    (midif : midifile_t) : List Nat :=
  write_midiheader is_big_endian host_big_endian midif.header
    ++ write_tracks is_big_endian host_big_endian fill 0
      (midif.tracks.take midif.header.ntracks)

/-! ## The note timeline translator `gen_midi_file` (`midiwriter.c`) -/

/-- Conversion of a `double` to `unsigned long` (64 bits), as performed by the assignments to
`start_delta` and `stop_delta`: the fractional part is discarded (truncation toward zero); the
conversion is undefined when the truncated value is not representable, that is for
`x ≤ -1` or `x ≥ 2 ^ 64`. -/
def double_to_ulong (x : ℚ) : Option Nat :=
  if x ≤ -1 ∨ (2 : ℚ) ^ 64 ≤ x then none
  else if x < 0 then some 0
  else some ⌊x⌋.toNat

/-- The local variables of `gen_midi_file` that live across loop iterations, together with
track 0 of the file under construction. `bpm` is an `int` in the source and is only ever used
converted to `unsigned int`; it is kept as that unsigned value. -/
structure gen_state where
  bpm : Nat
  ticks_per_sec : Nat
  tempo_change : Nat
  total_ticks : Nat
  track : miditrack_t

/-- Lines 83-88 of `midiwriter.c`: the tempo of the current note, if known and different,
becomes the current tempo. The product `ppq * bpm` is an `unsigned int`. -/
def gen_update_tempo (ppq : Nat) (st : gen_state) (note : note_t) : gen_state :=
  if note.tempo ≠ st.bpm ∧ note.tempo > 0 then
    { st with
      bpm := note.tempo
      ticks_per_sec := (ppq * note.tempo) % 2 ^ 32 / 60
      tempo_change := 1 }
  else st

/-- The value of the `double` expression `(ticks_per_sec * seconds) - total_ticks`, before its
conversion to `unsigned long`. -/
def delta_value (st : gen_state) (seconds : ℚ) : ℚ :=
  (st.ticks_per_sec : ℚ) * seconds - (st.total_ticks : ℚ)

/-- Lines 96-110 of `midiwriter.c`: the pending tempo change is written as a set-tempo event
at `start_delta`. The result is the status (1 for `return 1`), the new state and the value of
`start_delta` afterwards. -/
def gen_emit_tempo (st : gen_state) (start_delta : Nat) : Option (Nat × gen_state × Nat) :=
  if st.tempo_change ≠ 0 then
    match miditrack_settempo st.track (start_delta % 2 ^ 32) st.bpm with
    | none => none
    | some (r, trk) =>
      if r ≠ 0 then some (1, { st with track := trk }, start_delta)
      else some (0, { st with track := trk, tempo_change := 0 }, 0)
  else some (0, st, start_delta)

/-- Lines 82-127 of `midiwriter.c`, the first half of a loop iteration: tempo update, start
delta, set-tempo event if a tempo change is pending, note-on event. The status is 0 when
control reaches line 129 and 1 when `return 1` is executed; the state is the one reached at
that point. The arguments of `miditrack_noteon` are converted to the parameter types
`uint32_t` and `unsigned char`. -/
def gen_note_begin (ppq : Nat) (st : gen_state) (note : note_t) : Option (Nat × gen_state) :=
  let channel := 0
  let st1 := gen_update_tempo ppq st note
  match double_to_ulong (delta_value st1 note.start_sec) with
  | none => none
  | some start_delta =>
    let st2 := { st1 with total_ticks := (st1.total_ticks + start_delta) % 2 ^ 64 }
    match gen_emit_tempo st2 start_delta with
    | none => none
    | some (r3, st3, start_delta1) =>
      if r3 ≠ 0 then some (1, st3)
      else
        match miditrack_noteon st3.track (start_delta1 % 2 ^ 32) (channel % 256)
            (note.pitch % 256) (note.velocity % 256) with
        | none => none
        | some (r4, trk4) =>
          if r4 ≠ 0 then some (1, { st3 with track := trk4 })
          else some (0, { st3 with track := trk4 })

/-- Lines 129-150 of `midiwriter.c`, the second half of a loop iteration: stop delta and
note-off event. -/
def gen_note_end (st : gen_state) (note : note_t) : Option (Nat × gen_state) :=
  let channel := 0
  match double_to_ulong (delta_value st note.stop_sec) with
  | none => none
  | some stop_delta =>
    let st1 := { st with total_ticks := (st.total_ticks + stop_delta) % 2 ^ 64 }
    match miditrack_noteoff st1.track (stop_delta % 2 ^ 32) (channel % 256)
        (note.pitch % 256) (note.velocity % 256) with
    | none => none
    | some (r, trk) =>
      if r ≠ 0 then some (1, { st1 with track := trk })
      else some (0, { st1 with track := trk })

/-- One iteration of the `for` loop of `gen_midi_file` (lines 80-151). -/
def gen_midi_body (ppq : Nat) (st : gen_state) (note : note_t) : Option (Nat × gen_state) :=
  match gen_note_begin ppq st note with
  | none => none
  | some (r, st1) => if r ≠ 0 then some (1, st1) else gen_note_end st1 note

/-- The `for` loop of `gen_midi_file` over the notes, in input order. -/
def gen_midi_loop (ppq : Nat) : gen_state → List note_t → Option (Nat × gen_state)
  | st, [] => some (0, st)
  | st, note :: rest =>
    match gen_midi_body ppq st note with
    | none => none
    | some (r, st1) => if r ≠ 0 then some (1, st1) else gen_midi_loop ppq st1 rest

/-- The state of the loop variables before the first iteration (lines 76-79). -/
def gen_initial_state (ppq : Nat) (trk : miditrack_t) : gen_state :=
  { bpm := MIDI_BPM_DEFAULT
    ticks_per_sec := (ppq * MIDI_BPM_DEFAULT) % 2 ^ 32 / 60
    tempo_change := 0
    total_ticks := 0
    track := trk }

/-- What a call of `gen_midi_file` leaves behind: the returned status, the MIDI file structure
as it is when the function returns (before `free_midifile`), and the bytes written to the
output file. -/
structure gen_output where
  ret : Nat
  midif : midifile_t
  written : List Nat

/-- The function `gen_midi_file` with non-null `fname` and `notes`; `notes.length` is
`notecount` and `ppq` is an `unsigned int`. The first three parameters are those of
`write_midifile`. -/
def gen_midi_file (is_big_endian host_big_endian : Bool) (fill : Nat → Nat → Nat)
    (raw : Nat → miditrack_t) (notes : List note_t) (ppq : Nat) : Option gen_output :=
  let ppq1 := if ppq = 0 then MIDI_PPQ_DEFAULT else ppq
  let ntracks := 1
  let init := init_midifile raw 0 ntracks (ppq1 % 2 ^ 16) 0
  if init.1 ≠ 0 then some ⟨1, init.2, []⟩
  else
    match init.2.tracks with
    | [] => none
    | trk0 :: others =>
      match gen_midi_loop ppq1 (gen_initial_state ppq1 trk0) notes with
      | none => none
      | some (r, st) =>
        let midif := { init.2 with tracks := st.track :: others }
        if r ≠ 0 then some ⟨1, midif, []⟩
        else
          match finalise_midifile midif with
          | none => none
          | some (r1, midif1) =>
            if r1 ≠ 0 then some ⟨1, midif1, []⟩
            else some ⟨0, midif1, write_midifile is_big_endian host_big_endian fill midif1⟩

/-! ## Status returned by the serialisation functions (`midi.c`) -/

/-- The status `write_midiheader(hdr, fd)` returns for a non-null `hdr`, the call of `write`
succeeding: 1 for a negative descriptor, else 0. -/
def write_midiheader_status (_hdr : midiheader_t) (fd : Int) : Nat :=
  if fd < 0 then 1 else 0

/-- The status `write_miditrack(trk, fd)` returns for a non-null `trk`, both calls of `write`
succeeding: 1 for a negative descriptor, else 0. No field of the track is consulted. -/
def write_miditrack_status (_trk : miditrack_t) (fd : Int) : Nat :=
  if fd < 0 then 1 else 0

/-- The `for` loop of `write_midifile` over the tracks, as far as the status goes. -/
def write_tracks_status (fd : Int) : List miditrack_t → Nat
  | [] => 0
  | trk :: rest =>
    if write_miditrack_status trk fd ≠ 0 then 1 else write_tracks_status fd rest

/-- The status `write_midifile(midif, fd)` returns for a non-null `midif`, every call of `write`
succeeding. -/
def write_midifile_status (midif : midifile_t) (fd : Int) : Nat :=
  if fd < 0 then 1
  else if write_midiheader_status midif.header fd ≠ 0 then 1
  else write_tracks_status fd (midif.tracks.take midif.header.ntracks)

/-! ## The two halves of `finalise_miditrack` (`midi.c`) -/

/-- Lines 145-157 of `midi.c`, the second half of `finalise_miditrack`: the excess buffer space
is given back and `chunksize` is set. -/
def finalise_shrink (trk : miditrack_t) : miditrack_t :=
  let remaining := miditrack_buffer_remaining trk
  let diff : Int := if remaining < 2 ^ 63 then (remaining : Int) else (remaining : Int) - 2 ^ 64
  let trk2 := if diff > 0 then (miditrack_buffer_increase trk (-diff)).2 else trk
  { trk2 with chunksize := trk2.events_size % 2 ^ 32 }

/-- Lines 137-139 of `midi.c`: the test whether the three bytes before the cursor are not the
end-of-track event. Meaningful when at least three bytes were written. -/
def endtrack_missing (trk : miditrack_t) : Prop :=
  trk.events.getD (trk.events.length - 3) 0 ≠ MIDIEVENT_META ∨
  trk.events.getD (trk.events.length - 2) 0 ≠ META_1_ENDTRACK ∨
  trk.events.getD (trk.events.length - 1) 0 ≠ META_2_ENDTRACK

instance (trk : miditrack_t) : Decidable (endtrack_missing trk) := by
  unfold endtrack_missing
  exact inferInstance

/-! ## Conversion to little-endian (`endianness.c`) -/

/-- The function `le16`; `is_big_endian` is the value of the macro `IS_BIG_ENDIAN`. -/
def le16 (is_big_endian : Bool) (val : Nat) : Nat :=
  if is_big_endian then byteswap16 val else val

/-- The function `le32`. -/
def le32 (is_big_endian : Bool) (val : Nat) : Nat :=
  if is_big_endian then byteswap32 val else val

/-! ## Signed fixed-width integers

The fields of the WAVE header are `int16_t` and `int32_t`. They are integers of `Int`; a
conversion to a signed type keeps the value modulo `2 ^ w` (two's complement), a conversion to
an unsigned type reduces it modulo `2 ^ w`. -/

/-- Conversion of an integer value to `int16_t`. -/
def to_int16 (x : Int) : Int := (x + 2 ^ 15) % 2 ^ 16 - 2 ^ 15

/-- Conversion of an integer value to `int32_t`. -/
def to_int32 (x : Int) : Int := (x + 2 ^ 31) % 2 ^ 32 - 2 ^ 31

/-- Conversion of an integer value to `uint16_t`. -/
def to_uint16 (x : Int) : Nat := (x % 2 ^ 16).toNat

/-- Conversion of an integer value to `uint32_t`. -/
def to_uint32 (x : Int) : Nat := (x % 2 ^ 32).toNat

/-! ## The WAVE header (`wav.h`, `wav.c`) -/

def WAVE_FORMAT_PCM : Int := 0x0001
def WAVE_FORMAT_IEEE_FLOAT : Int := 0x0003
def WAVE_FORMAT_UNKNOWN : Int := 0x0000

/-- The struct `wavheader` of `wav.h`: four tags of four characters, the `int32_t` and
`int16_t` fields as integers. -/
structure wavheader_t where
  chunkid : List Nat
  chunksize : Int
  format : List Nat
  subchunk1id : List Nat
  subchunk1size : Int
  audioformat : Int
  nchannels : Int
  srate : Int
  byterate : Int
  blockalign : Int
  bitdepth : Int
  subchunk2id : List Nat
  subchunk2size : Int
  deriving DecidableEq, Repr

/-- The function `get_wav_format`; `bitdepth` is the `int16_t` parameter. The labels `case 8`
and `case 16` share one `return`. -/
def get_wav_format (bitdepth : Int) : Int :=
  if bitdepth = 8 ∨ bitdepth = 16 then WAVE_FORMAT_PCM
  else if bitdepth = 32 then WAVE_FORMAT_IEEE_FLOAT
  else WAVE_FORMAT_UNKNOWN

/-- The function `get_wavheader_len`: the sum of the sizes of the thirteen header fields. -/
def get_wavheader_len : Nat := 4 + 4 + 4 + 4 + 4 + 2 + 2 + 4 + 4 + 2 + 2 + 4 + 4

/-- The function `init_wavheader` for a non-null `hdr`, whose previous contents are whatever the
memory held; `bitdepth` and `nchannels` are `int16_t`, `srate` is `int32_t`. The two products
are computed in `int`: the quotient `nchannels * bitdepth / 8` truncates toward zero and is
stored into the `int16_t` field, and the product `srate * blockalign` is undefined when it
overflows `int`. The fields `chunksize` and `subchunk2size` are not assigned. -/
def init_wavheader (hdr : wavheader_t) (bitdepth nchannels srate : Int) : Option wavheader_t :=
  let blockalign := to_int16 (Int.tdiv (nchannels * bitdepth) 8)
  let byterate := srate * blockalign
  if byterate < -(2 ^ 31) ∨ 2 ^ 31 ≤ byterate then none
  else
    some { hdr with
      chunkid := [0x52, 0x49, 0x46, 0x46]
      format := [0x57, 0x41, 0x56, 0x45]
      subchunk1id := [0x66, 0x6d, 0x74, 0x20]
      subchunk2id := [0x64, 0x61, 0x74, 0x61]
      subchunk1size := to_int32 (2 + 2 + 4 + 4 + 2 + 2)
      blockalign := blockalign
      byterate := byterate
      bitdepth := bitdepth
      audioformat := get_wav_format bitdepth
      nchannels := nchannels
      srate := srate }

/-- The function `finalise_wavheader` for a non-null `hdr`; `fsize` is a `long`. Each
difference is computed in `size_t` (modulo `2 ^ 64`) and then stored into an `int32_t` field. -/
def finalise_wavheader (hdr : wavheader_t) (fsize : Int) : wavheader_t :=
  { hdr with
    chunksize := to_int32 ((fsize - (4 + 4)) % 2 ^ 64)
    subchunk2size := to_int32 ((fsize - (get_wavheader_len : Int)) % 2 ^ 64) }

/-- The bytes of an `int16_t` object in the memory of the host, in address order. -/
def host_bytes_int16 (host_big_endian : Bool) (val : Int) : List Nat :=
  host_bytes16 host_big_endian (to_uint16 val)

/-- The bytes of an `int32_t` object in the memory of the host, in address order. -/
def host_bytes_int32 (host_big_endian : Bool) (val : Int) : List Nat :=
  host_bytes32 host_big_endian (to_uint32 val)

/-- The local copy `hdr_le` that `write_wavheader` makes of the header: the tags are copied,
each integer field is passed to `le16` or `le32` as an unsigned value and the result is stored
into the signed field. `is_big_endian` is the value of the macro `IS_BIG_ENDIAN`. -/
def wavheader_le (is_big_endian : Bool) (hdr : wavheader_t) : wavheader_t :=
  { chunkid := hdr.chunkid.take 4
    chunksize := to_int32 (le32 is_big_endian (to_uint32 hdr.chunksize))
    format := hdr.format.take 4
    subchunk1id := hdr.subchunk1id.take 4
    subchunk1size := to_int32 (le32 is_big_endian (to_uint32 hdr.subchunk1size))
    audioformat := to_int16 (le16 is_big_endian (to_uint16 hdr.audioformat))
    nchannels := to_int16 (le16 is_big_endian (to_uint16 hdr.nchannels))
    srate := to_int32 (le32 is_big_endian (to_uint32 hdr.srate))
    byterate := to_int32 (le32 is_big_endian (to_uint32 hdr.byterate))
    blockalign := to_int16 (le16 is_big_endian (to_uint16 hdr.blockalign))
    bitdepth := to_int16 (le16 is_big_endian (to_uint16 hdr.bitdepth))
    subchunk2id := hdr.subchunk2id.take 4
    subchunk2size := to_int32 (le32 is_big_endian (to_uint32 hdr.subchunk2size)) }

/-- The bytes `write_wavheader` hands to `fwrite`, for non-null `hdr` and `fp`: the memory
images of the thirteen fields of `hdr_le` in declaration order, which fill the buffer of
`get_wavheader_len()` bytes. The value `is_big_endian` of the macro decides what `le16` and
`le32` return; the byte order `host_big_endian` of the host decides how the fields of `hdr_le`
lie in memory. -/
def write_wavheader (is_big_endian host_big_endian : Bool) (hdr : wavheader_t) : List Nat :=
  let hdr_le := wavheader_le is_big_endian hdr
  (hdr_le.chunkid
    ++ host_bytes_int32 host_big_endian hdr_le.chunksize
    ++ hdr_le.format
    ++ hdr_le.subchunk1id
    ++ host_bytes_int32 host_big_endian hdr_le.subchunk1size
    ++ host_bytes_int16 host_big_endian hdr_le.audioformat
    ++ host_bytes_int16 host_big_endian hdr_le.nchannels
    ++ host_bytes_int32 host_big_endian hdr_le.srate
    ++ host_bytes_int32 host_big_endian hdr_le.byterate
    ++ host_bytes_int16 host_big_endian hdr_le.blockalign
    ++ host_bytes_int16 host_big_endian hdr_le.bitdepth
    ++ hdr_le.subchunk2id
    ++ host_bytes_int32 host_big_endian hdr_le.subchunk2size).take get_wavheader_len

/-- The two `for` loops of `wav_prepare_pcm`: `for (size_t i = 0; i < n; i += step)
samplesbuffer[i] = conv(samplesbuffer[i])`. The element `samplesbuffer[i]` is one
`unsigned char`; the value `conv` returns is stored back into that one byte, which keeps its
low 8 bits. The first argument bounds the number of iterations; an access past the end of the
buffer is undefined. -/
def wav_prepare_loop (conv : Nat → Nat) (step n : Nat) :
    Nat → Nat → List Nat → Option (List Nat)
  | 0, _, _ => none
  | fuel + 1, i, buf =>
    if i < n then
      if i < buf.length then
        wav_prepare_loop conv step n fuel ((i + step) % 2 ^ 64)
          (buf.set i (conv (buf.getD i 0) % 256))
      else none
    else some buf

/-- One `for` statement of `wav_prepare_pcm` with the `return 0` that follows it. The bound
`nchannels * nsamples` is an `int` product, undefined on overflow, and is converted to `size_t`
for the comparison with `i`. The iteration budget handed to the loop is never used up, since
every iteration accesses a further index below the length of the buffer. -/
def wav_prepare_for (conv : Nat → Nat) (step : Nat) (samplesbuffer : List Nat)
    (nchannels nsamples : Int) : Option (Nat × List Nat) :=
  let product := nchannels * nsamples
  if product < -(2 ^ 31) ∨ 2 ^ 31 ≤ product then none
  else
    match wav_prepare_loop conv step (product % 2 ^ 64).toNat
        (samplesbuffer.length + 1) 0 samplesbuffer with
    | none => none
    | some buf => some (0, buf)

/-- The function `wav_prepare_pcm` for a non-null `samplesbuffer`, given as the bytes of the
buffer; the three other parameters are `int`. The result is the status and the buffer
afterwards. The byte `samplesbuffer[i]` is converted to the `uint16_t` or `uint32_t` parameter
of `le16` or `le32`. -/
def wav_prepare_pcm (big_endian : Bool) (samplesbuffer : List Nat)
    (bitdepth nchannels nsamples : Int) : Option (Nat × List Nat) :=
  if bitdepth = 8 then some (0, samplesbuffer)
  else if bitdepth = 16 then
    wav_prepare_for (fun b => le16 big_endian (b % 2 ^ 16)) 2 samplesbuffer nchannels nsamples
  else if bitdepth = 32 then
    wav_prepare_for (fun b => le32 big_endian (b % 2 ^ 32)) 4 samplesbuffer nchannels nsamples
  else some (1, samplesbuffer)

/-! ## Byte orders, from the specification -/

/-- The `n` bytes of the value `v` least significant first. -/
def lsb_first (n v : Nat) : List Nat := (List.range n).map (fun k => v / 256 ^ k % 256)

/-- The `n` bytes of the value `v` most significant first. -/
def msb_first (n v : Nat) : List Nat := (lsb_first n v).reverse

/-! ## `startswith` (`stringutils.c`) -/

/-- The library function `strstr(a, b)` on two strings, each given as the list of its characters
before the terminating NUL: the offset in `a` of the first occurrence of `b`, and `none` for the
null pointer returned when `b` does not occur. -/
def strstr : List Char → List Char → Option Nat
  | [], b => if b = [] then some 0 else none
  | c :: rest, b =>
    if b.isPrefixOf (c :: rest) then some 0 else (strstr rest b).map (fun i => i + 1)

/-- The function `startswith`: the comparison `strstr(a, b) == a` holds when the occurrence
found is at offset 0. -/
def startswith (a b : List Char) : Nat := if strstr a b = some 0 then 1 else 0

/-! ## Sizes (`midi.c`) -/

/-- The function `miditrack_getsize` for a non-null `trk`; the sum is a `size_t`. -/
def miditrack_getsize (trk : miditrack_t) : Nat := (0 + (4 + 4 + trk.chunksize)) % 2 ^ 64

/-- The `while` loop of `midifile_getsize` over the tracks, `s` being the sum so far. -/
def midifile_getsize_loop : Nat → List miditrack_t → Nat
  | s, [] => s
  | s, trk :: rest => midifile_getsize_loop ((s + miditrack_getsize trk) % 2 ^ 64) rest

/-- The function `midifile_getsize`: the header size plus the sizes of the tracks
`0 .. header.ntracks - 1`. -/
def midifile_getsize (midif : midifile_t) : Nat :=
  midifile_getsize_loop midiheader_getsize (midif.tracks.take midif.header.ntracks)

/-! ## Sequences of calls on a track -/

/-- A call of one of the five event-creation functions of `midi.c`, with its arguments. -/
inductive track_call where
  | noteon (deltatime channel pitch velocity : Nat)
  | noteoff (deltatime channel pitch velocity : Nat)
  | settempo (deltatime bpm : Nat)
  | endtrack (deltatime : Nat)
  | addevent (deltatime status data1 data2 : Nat) (extra : Option (List Nat)) (extralen : Nat)
  deriving DecidableEq, Repr

/-- The call performed on a track. -/
def do_call (trk : miditrack_t) : track_call → Option (Nat × miditrack_t)
  | .noteon d c p v => miditrack_noteon trk d c p v
  | .noteoff d c p v => miditrack_noteoff trk d c p v
  | .settempo d bpm => miditrack_settempo trk d bpm
  | .endtrack d => miditrack_end trk d
  | .addevent d s d1 d2 extra extralen => miditrack_addevent trk d s d1 d2 extra extralen

/-- The arguments of the call are values of the parameter types (`uint32_t` delta time,
`unsigned char` event bytes, `unsigned int` tempo) and `extralen` is at most 255. -/
def call_in_range : track_call → Prop
  | .noteon d c p v => d < 2 ^ 32 ∧ c < 256 ∧ p < 256 ∧ v < 256
  | .noteoff d c p v => d < 2 ^ 32 ∧ c < 256 ∧ p < 256 ∧ v < 256
  | .settempo d bpm => d < 2 ^ 32 ∧ bpm < 2 ^ 32
  | .endtrack d => d < 2 ^ 32
  | .addevent d s d1 d2 _ extralen =>
    d < 2 ^ 32 ∧ s < 256 ∧ d1 < 256 ∧ d2 < 256 ∧ extralen ≤ 255

instance (call : track_call) : Decidable (call_in_range call) := by
  cases call <;> unfold call_in_range <;> exact inferInstance

/-- The call is one of the four wrappers, not `miditrack_addevent` itself. -/
def is_wrapper_call : track_call → Prop
  | .addevent _ _ _ _ _ _ => False
  | _ => True

/-- The call is `miditrack_end`. -/
def is_endtrack_call : track_call → Prop
  | .endtrack _ => True
  | _ => False

instance (call : track_call) : Decidable (is_wrapper_call call) := by
  cases call <;> unfold is_wrapper_call <;> exact inferInstance

instance (call : track_call) : Decidable (is_endtrack_call call) := by
  cases call <;> unfold is_endtrack_call <;> exact inferInstance

/-- A sequence of calls performed on a track one after the other, whatever status each call
returns. The result is the track afterwards and the last call that returned 0, that is the
call that appended the last event, if there was one. -/
def run_calls : miditrack_t → Option track_call → List track_call →
    Option (miditrack_t × Option track_call)
  | trk, last, [] => some (trk, last)
  | trk, last, call :: rest =>
    match do_call trk call with
    | none => none
    | some (r, trk1) => run_calls trk1 (if r = 0 then some call else last) rest

/-! ## The end-of-track test of `finalise_miditrack` as a sequence of reads -/

/-- The offsets, relative to the start of the event buffer, of the bytes read by the test
`*(eventsp - 3) != 0xff || *(eventsp - 2) != 0x2f || *(eventsp - 1) != 0x00` at lines 137-139 of
`midi.c`, in the order of the reads. `mem` is the content of memory at each offset, also before
the buffer, `cursor` is the offset `eventsp - events`; the right operand of `||` is evaluated
only when the left operand is false. -/
def endtrack_test_reads (mem : Int → Nat) (cursor : Int) : List Int :=
  if mem (cursor - 3) ≠ MIDIEVENT_META then [cursor - 3]
  else if mem (cursor - 2) ≠ META_1_ENDTRACK then [cursor - 3, cursor - 2]
  else [cursor - 3, cursor - 2, cursor - 1]

/-! ## `get_modal_tempo` (`noteextractor.c`) -/

/-- The inner loop of `get_modal_tempo`: `freq` is incremented for every note whose tempo is
`tempo`. -/
def tempo_frequency (tempo : Nat) : List note_t → Nat → Nat
  | [], freq => freq
  | n :: rest, freq => tempo_frequency tempo rest (if n.tempo = tempo then freq + 1 else freq)

/-- The outer loop of `get_modal_tempo` over the notes from index `i` on (`todo`); `notes` is
the whole array. -/
def get_modal_tempo_loop (notes : List note_t) : List note_t → Nat → Nat → Nat
  | [], mode, _ => mode
  | n :: todo, mode, maxfreq =>
    let freq := tempo_frequency n.tempo notes 0
    if freq > maxfreq then get_modal_tempo_loop notes todo n.tempo freq
    else get_modal_tempo_loop notes todo mode maxfreq

/-- The function `get_modal_tempo`; `notes.length` is `notecount`. The indices `i` and `j` and
the counters are `int`: with `2 ^ 31` notes or more an increment overflows, which is
undefined. -/
def get_modal_tempo (notes : List note_t) : Option Nat :=
  if 2 ^ 31 ≤ notes.length then none
  else some (get_modal_tempo_loop notes notes 0 0)

/-! ## Notions used to state the properties of the translator -/

/-- The start and stop times of the notes in the order in which the translator uses them. -/
def note_times : List note_t → List ℚ
  | [] => []
  | n :: rest => n.start_sec :: n.stop_sec :: note_times rest

/-- The decoder that inverts `enc_varint32`: the first byte gives its low seven bits; every
further byte adds one to the value so far, shifts it by seven bits and adds its own low seven
bits. -/
def dec_varint32 : List Nat → Nat
  | [] => 0
  | b :: rest => rest.foldl (fun acc c => (acc + 1) * 128 + c % 128) (b % 128)

/-! ## Helper lemmas on bytes and lists -/

theorem or_msb_of_lt : ∀ y, y < 128 → 128 ||| y = 128 + y := by decide

theorem varint_group_byte (x : Nat) :
    (1 <<< 7) ||| (x &&& ((1 <<< 7) - 1)) = 128 + x % 128 := by
  have h1 : x &&& ((1 <<< 7) - 1) = x % 128 := Nat.and_pow_two_sub_one_eq_mod x 7
  have h2 : (1 <<< 7 : Nat) = 128 := by decide
  rw [h1, h2]
  exact or_msb_of_lt _ (Nat.mod_lt _ (by decide))

theorem varint_last_byte (x : Nat) : x &&& ((1 <<< 7) - 1) = x % 128 :=
  Nat.and_pow_two_sub_one_eq_mod x 7

theorem drop_set_self (buf : List Nat) (k b : Nat) (hk : k < buf.length) :
    (buf.set k b).drop k = b :: buf.drop (k + 1) := by
  induction buf generalizing k with
  | nil => simp at hk
  | cons a as ih =>
    cases k with
    | zero => simp
    | succ k =>
      simp only [List.set_cons_succ, List.drop_succ_cons]
      exact ih k (by simpa using hk)

theorem enc_varint32_loop_spec (fuel : Nat) :
    ∀ (val pos : Nat) (buf : List Nat), pos < fuel → pos < 5 → buf.length = 5 →
      val < 128 ^ (pos + 1) →
      ∃ pos1 buf1 pre, enc_varint32_loop fuel val pos buf = some (pos1, buf1) ∧ pos1 ≤ pos ∧
        buf1.length = 5 ∧ buf1.drop pos1 = pre ++ buf.drop pos ∧ pre.length = pos - pos1 ∧
        ∀ b ∈ pre, 128 ≤ b ∧ b < 256 := by
  induction fuel with
  | zero => intro val pos buf h; omega
  | succ fuel ih =>
    intro val pos buf hfuel hpos hlen hval
    have hshift : val >>> 7 = val / 128 := by simp [Nat.shiftRight_eq_div_pow]
    unfold enc_varint32_loop
    simp only [hshift]
    by_cases hpos0 : 0 < val / 128
    · have hp : 1 ≤ pos := by
        rcases Nat.eq_zero_or_pos pos with h0 | h0
        · subst h0
          have : val / 128 = 0 := Nat.div_eq_of_lt (by simpa using hval)
          omega
        · exact h0
      have hpos1 : (pos + 2 ^ 32 - 1) % 2 ^ 32 = pos - 1 := by omega
      have hdiv : val / 128 < 128 ^ pos := by
        apply Nat.div_lt_of_lt_mul
        rw [pow_succ] at hval
        rw [Nat.mul_comm]; exact hval
      have hval2 : val / 128 - 1 < 128 ^ (pos - 1 + 1) := by
        have : pos - 1 + 1 = pos := by omega
        rw [this]; omega
      obtain ⟨p1, b1, pre, he, hle, hl, hd, hpl, hpre⟩ :=
        ih (val / 128 - 1) (pos - 1)
          (buf.set (pos - 1) ((1 <<< 7) ||| ((val / 128 - 1) &&& ((1 <<< 7) - 1))))
          (by omega) (by omega) (by simpa using hlen) hval2
      refine ⟨p1, b1, pre ++ [128 + (val / 128 - 1) % 128], ?_, by omega, hl, ?_, ?_, ?_⟩
      · simp only [hpos0, if_true, hpos1, gt_iff_lt, VARINT32_MAXSIZE]
        rw [if_pos (by omega)]
        exact he
      · rw [hd, drop_set_self buf (pos - 1) _ (by omega), varint_group_byte]
        have : pos - 1 + 1 = pos := by omega
        rw [this]; simp
      · simp [hpl]; omega
      · intro b hb
        rcases List.mem_append.mp hb with h | h
        · exact hpre b h
        · simp at h; subst h; omega
    · refine ⟨pos, buf, [], ?_, le_refl _, hlen, by simp, by simp, by simp⟩
      simp [hpos0]



set_option maxRecDepth 100000 in
theorem bit7_clear_iff : ∀ b, b < 256 → (b &&& 0x80 = 0 ↔ b < 128) := by decide

/-- Shape of the result of `enc_varint32` on a 32-bit value: a prefix of continuation bytes
followed by the byte holding the low seven bits. -/
theorem enc_varint32_shape (v : Nat) (hv : v < 2 ^ 32) :
    ∃ pre, enc_varint32 v = some (pre.length + 1, pre ++ [v % 128]) ∧ pre.length ≤ 4 ∧
      ∀ b ∈ pre, 128 ≤ b ∧ b < 256 := by
  obtain ⟨p1, b1, pre, he, hle, hl, hd, hpl, hpre⟩ :=
    enc_varint32_loop_spec 32 v 4 ((List.replicate 5 0).set 4 (v &&& ((1 <<< 7) - 1)))
      (by decide) (by decide) (by simp) (by norm_num; omega)
  refine ⟨pre, ?_, by omega, hpre⟩
  have hn : 5 - p1 = pre.length + 1 := by omega
  have hdrop : ((List.replicate 5 0).set 4 (v &&& ((1 <<< 7) - 1))).drop 4 = [v % 128] := by
    rw [varint_last_byte]; rfl
  simp only [enc_varint32, VARINT32_MAXSIZE]
  simp only [show (4 + 1 - 1 : Nat) = 4 from rfl, show (4 + 1 : Nat) = 5 from rfl, he]
  rw [hd, hdrop, hn]
  simp


theorem enc_varint32_bounds_aux (v : Nat) (hv : v < 2 ^ 32) :
    ∃ n bytes, enc_varint32 v = some (n, bytes) ∧ 1 ≤ n ∧ n ≤ VARINT32_MAXSIZE ∧
      bytes.length = n ∧ (∀ b ∈ bytes, b < 256) ∧
      ∀ i, i < n → (bytes.getD i 0 &&& 0x80 = 0 ↔ i + 1 = n) := by
  obtain ⟨pre, he, hlen, hpre⟩ := enc_varint32_shape v hv
  refine ⟨pre.length + 1, pre ++ [v % 128], he, by omega, by simp [VARINT32_MAXSIZE]; omega,
    by simp, ?_, ?_⟩
  · intro b hb
    rcases List.mem_append.mp hb with h | h
    · exact (hpre b h).2
    · simp at h; subst h; omega
  · intro i hi
    by_cases hlt : i < pre.length
    · have hget : (pre ++ [v % 128]).getD i 0 = pre.getD i 0 := by
        simp [List.getD_eq_getElem?_getD, List.getElem?_append_left hlt]
      have hmem : pre.getD i 0 ∈ pre := by
        rw [List.getD_eq_getElem _ _ hlt]; exact List.getElem_mem hlt
      have hb := hpre _ hmem
      rw [hget, bit7_clear_iff _ hb.2]
      omega
    · have hi2 : i = pre.length := by omega
      subst hi2
      have hget : (pre ++ [v % 128]).getD pre.length 0 = v % 128 := by
        simp [List.getD_eq_getElem?_getD]
      rw [hget, bit7_clear_iff _ (by omega)]
      omega

theorem enc_varint32_small (v : Nat) (hv : v ≤ 127) :
    enc_varint32 v = some (1, [v]) := by
  have hshift : v >>> 7 = 0 := by
    simp [Nat.shiftRight_eq_div_pow]; omega
  have hlast : v &&& ((1 <<< 7) - 1) = v := by
    rw [varint_last_byte]; omega
  simp only [enc_varint32, enc_varint32_loop, hshift, hlast, VARINT32_MAXSIZE]
  rfl

/-! ## Lemmas on the event-creation functions -/

theorem varint_bytes_spec (d : Nat) (h : d < 2 ^ 32) :
    enc_varint32 d = some ((varint_bytes d).length, varint_bytes d) := by
  obtain ⟨pre, he, _, _⟩ := enc_varint32_shape d h
  simp [varint_bytes, he]

theorem miditrack_addevent_ok (trk : miditrack_t) (d s d1 d2 : Nat) (extra : Option (List Nat))
    (len : Nat) (hd : d < 2 ^ 32) (hx : ¬ (extra = none ∧ len > 0)) :
    ∃ trk1, miditrack_addevent trk d s d1 d2 extra len = some (0, trk1) ∧
      trk1.events = trk.events ++ varint_bytes d ++ [s, d1, d2] ++ (extra.getD []).take len ∧
      trk1.chunkid = trk.chunkid ∧ trk1.chunksize = trk.chunksize := by
  unfold miditrack_addevent
  rw [if_neg hx, varint_bytes_spec d hd]
  by_cases hr : miditrack_buffer_remaining trk < 263
  · simp only [if_pos hr, miditrack_buffer_increase]
    exact ⟨_, rfl, rfl, rfl, rfl⟩
  · simp only [if_neg hr]
    exact ⟨_, rfl, rfl, rfl, rfl⟩

theorem miditrack_noteon_bad (trk : miditrack_t) (d c p v : Nat) (hp : 127 < p) :
    miditrack_noteon trk d c p v = some (1, trk) := by
  simp [miditrack_noteon, MIDI_PITCH_MAX, hp]

theorem miditrack_noteoff_bad (trk : miditrack_t) (d c p v : Nat) (hp : 127 < p) :
    miditrack_noteoff trk d c p v = some (1, trk) := by
  simp [miditrack_noteoff, MIDI_PITCH_MAX, hp]

theorem miditrack_noteon_ok (trk : miditrack_t) (d p v : Nat) (hd : d < 2 ^ 32) (hp : p ≤ 127) :
    ∃ trk1, miditrack_noteon trk d 0 p v = some (0, trk1) ∧
      trk1.events = trk.events ++ varint_bytes d ++ [0x90, p, min v 127] ∧
      trk1.chunkid = trk.chunkid ∧ trk1.chunksize = trk.chunksize := by
  obtain ⟨trk1, h1, h2, h3, h4⟩ :=
    miditrack_addevent_ok trk d 0x90 p (min v 127) none 0 hd (by simp)
  refine ⟨trk1, ?_, by simpa using h2, h3, h4⟩
  have hv : (if v > MIDI_VELOCITY_MAX then MIDI_VELOCITY_MAX else v) = min v 127 := by
    simp only [MIDI_VELOCITY_MAX]; split <;> omega
  have hs : (MIDIEVENT_NOTEON ||| 0) % 256 = 0x90 := by decide
  simp only [miditrack_noteon, MIDI_CHANNEL_MAX, MIDI_PITCH_MAX, hv, hs]
  rw [if_neg (by omega)]
  exact h1

theorem miditrack_noteoff_ok (trk : miditrack_t) (d p v : Nat) (hd : d < 2 ^ 32) (hp : p ≤ 127) :
    ∃ trk1, miditrack_noteoff trk d 0 p v = some (0, trk1) ∧
      trk1.events = trk.events ++ varint_bytes d ++ [0x80, p, min v 127] ∧
      trk1.chunkid = trk.chunkid ∧ trk1.chunksize = trk.chunksize := by
  obtain ⟨trk1, h1, h2, h3, h4⟩ :=
    miditrack_addevent_ok trk d 0x80 p (min v 127) none 0 hd (by simp)
  refine ⟨trk1, ?_, by simpa using h2, h3, h4⟩
  have hv : (if v > MIDI_VELOCITY_MAX then MIDI_VELOCITY_MAX else v) = min v 127 := by
    simp only [MIDI_VELOCITY_MAX]; split <;> omega
  have hs : (MIDIEVENT_NOTEOFF ||| 0) % 256 = 0x80 := by decide
  simp only [miditrack_noteoff, MIDI_CHANNEL_MAX, MIDI_PITCH_MAX, hv, hs]
  rw [if_neg (by omega)]
  exact h1

/-- For a non-zero `bpm` a set-tempo event is appended: delta, `FF 51 03`, three data bytes. -/
theorem miditrack_settempo_ok (trk : miditrack_t) (d bpm : Nat) (hd : d < 2 ^ 32)
    (hb : bpm ≠ 0) :
    ∃ trk1, miditrack_settempo trk d bpm = some (0, trk1) ∧
      trk1.events = trk.events ++ varint_bytes d ++ [0xff, 0x51, 0x03] ++
        [((60000000 / bpm) >>> 16) &&& 0xff, ((60000000 / bpm) >>> 8) &&& 0xff,
          (60000000 / bpm) &&& 0xff] ∧
      trk1.chunkid = trk.chunkid ∧ trk1.chunksize = trk.chunksize := by
  obtain ⟨trk1, h1, h2, h3, h4⟩ :=
    miditrack_addevent_ok trk d 0xff 0x51 0x03
      (some [((60000000 / bpm) >>> 16) &&& 0xff, ((60000000 / bpm) >>> 8) &&& 0xff,
          (60000000 / bpm) &&& 0xff]) 3 hd (by simp)
  refine ⟨trk1, ?_, by simpa using h2, h3, h4⟩
  simp only [miditrack_settempo, MIDIEVENT_META, META_1_TEMPO, META_2_TEMPO]
  rw [if_neg hb]
  exact h1

/-! ## Lemmas on the conversion of a time to ticks -/

theorem double_to_ulong_of_floor (x : ℚ) (n : Nat) (h1 : (n : ℚ) ≤ x) (h2 : x < (n : ℚ) + 1)
    (h3 : n < 2 ^ 64) : double_to_ulong x = some n := by
  have hx0 : (0 : ℚ) ≤ x := le_trans (Nat.cast_nonneg n) h1
  have hn : ((n : ℚ) + 1) ≤ (2 : ℚ) ^ 64 := by exact_mod_cast h3
  have c1 : ¬ (x ≤ -1 ∨ (2 : ℚ) ^ 64 ≤ x) := by
    push_neg
    constructor <;> linarith
  have c2 : ¬ (x < 0) := not_lt.mpr hx0
  have hfl : ⌊x⌋ = (n : ℤ) := by
    rw [Int.floor_eq_iff]
    constructor
    · exact_mod_cast h1
    · exact_mod_cast h2
  simp only [double_to_ulong, c1, c2, if_false, hfl, Int.toNat_ofNat]

theorem double_to_ulong_neg (x : ℚ) (h : x ≤ -1) : double_to_ulong x = none := by
  simp [double_to_ulong, h]

/-! ## Lemmas on the loop of `gen_midi_file` -/

/-- The first half of an iteration when the note brings a new, known tempo. -/
theorem gen_note_begin_changed (ppq : Nat) (st : gen_state) (note : note_t) (d : Nat)
    (hch : note.tempo ≠ st.bpm ∧ note.tempo > 0)
    (hd : double_to_ulong (delta_value (gen_update_tempo ppq st note) note.start_sec) = some d) :
    ∃ st1, gen_note_begin ppq st note
        = some (if note.pitch % 256 ≤ 127 then 0 else 1, st1) ∧
      st1.bpm = note.tempo ∧ st1.ticks_per_sec = (ppq * note.tempo) % 2 ^ 32 / 60 ∧
      st1.tempo_change = 0 ∧ st1.total_ticks = (st.total_ticks + d) % 2 ^ 64 ∧
      st1.track.chunkid = st.track.chunkid ∧ st1.track.chunksize = st.track.chunksize ∧
      st1.track.events = st.track.events ++ varint_bytes (d % 2 ^ 32) ++ [0xff, 0x51, 0x03] ++
        [((60000000 / note.tempo) >>> 16) &&& 0xff, ((60000000 / note.tempo) >>> 8) &&& 0xff,
          (60000000 / note.tempo) &&& 0xff] ++
        (if note.pitch % 256 ≤ 127
          then [0x00, 0x90, note.pitch % 256, min (note.velocity % 256) 127] else []) := by
  have hup : gen_update_tempo ppq st note =
      { st with bpm := note.tempo, ticks_per_sec := (ppq * note.tempo) % 2 ^ 32 / 60,
                tempo_change := 1 } := by
    simp only [gen_update_tempo, if_pos hch]
  rw [hup] at hd
  obtain ⟨trkT, hT, hTe, hTi, hTs⟩ :=
    miditrack_settempo_ok st.track (d % 2 ^ 32) note.tempo (Nat.mod_lt _ (by norm_num))
      (by omega)
  have hv0 : varint_bytes 0 = [0] := by
    simp [varint_bytes, enc_varint32_small 0 (by norm_num)]
  by_cases hp : note.pitch % 256 ≤ 127
  · obtain ⟨trkN, hN, hNe, hNi, hNs⟩ :=
      miditrack_noteon_ok trkT 0 (note.pitch % 256) (note.velocity % 256) (by norm_num) hp
    refine ⟨{ bpm := note.tempo, ticks_per_sec := (ppq * note.tempo) % 2 ^ 32 / 60,
              tempo_change := 0, total_ticks := (st.total_ticks + d) % 2 ^ 64, track := trkN },
      ?_, rfl, rfl, rfl, rfl, by rw [hNi, hTi], by rw [hNs, hTs], ?_⟩
    · simp only [gen_note_begin, hup, hd, gen_emit_tempo, hT, hp, if_true]
      simp [hN]
    · simp only [hNe, hTe, hv0, hp, if_true]
      simp
  · refine ⟨{ bpm := note.tempo, ticks_per_sec := (ppq * note.tempo) % 2 ^ 32 / 60,
              tempo_change := 0, total_ticks := (st.total_ticks + d) % 2 ^ 64, track := trkT },
      ?_, rfl, rfl, rfl, rfl, hTi, hTs, ?_⟩
    · simp only [gen_note_begin, hup, hd, gen_emit_tempo, hT, hp, if_false]
      simp [miditrack_noteon_bad trkT 0 0 (note.pitch % 256) (note.velocity % 256) (by omega)]
    · simp only [hTe, hp, if_false]
      simp

/-- The first half of an iteration when the note's tempo is unknown or the current one. -/
theorem gen_note_begin_unchanged (ppq : Nat) (st : gen_state) (note : note_t) (d : Nat)
    (htc : st.tempo_change = 0)
    (hch : ¬ (note.tempo ≠ st.bpm ∧ note.tempo > 0))
    (hd : double_to_ulong (delta_value (gen_update_tempo ppq st note) note.start_sec) = some d) :
    ∃ st1, gen_note_begin ppq st note
        = some (if note.pitch % 256 ≤ 127 then 0 else 1, st1) ∧
      st1.bpm = st.bpm ∧ st1.ticks_per_sec = st.ticks_per_sec ∧
      st1.tempo_change = 0 ∧ st1.total_ticks = (st.total_ticks + d) % 2 ^ 64 ∧
      st1.track.chunkid = st.track.chunkid ∧ st1.track.chunksize = st.track.chunksize ∧
      st1.track.events = st.track.events ++
        (if note.pitch % 256 ≤ 127
          then varint_bytes (d % 2 ^ 32) ++ [0x90, note.pitch % 256, min (note.velocity % 256) 127]
          else []) := by
  have hup : gen_update_tempo ppq st note = st := by
    simp only [gen_update_tempo, if_neg hch]
  rw [hup] at hd
  by_cases hp : note.pitch % 256 ≤ 127
  · obtain ⟨trkN, hN, hNe, hNi, hNs⟩ :=
      miditrack_noteon_ok st.track (d % 2 ^ 32) (note.pitch % 256) (note.velocity % 256)
        (Nat.mod_lt _ (by norm_num)) hp
    refine ⟨{ st with total_ticks := (st.total_ticks + d) % 2 ^ 64, track := trkN },
      ?_, rfl, rfl, htc, rfl, hNi, hNs, ?_⟩
    · simp only [gen_note_begin, hup, hd, gen_emit_tempo, htc, hp, if_true]
      simp only [Nat.reducePow] at hN
      simp [hN]
    · simp only [hNe, hp, if_true]
      simp
  · refine ⟨{ st with total_ticks := (st.total_ticks + d) % 2 ^ 64 },
      ?_, rfl, rfl, htc, rfl, rfl, rfl, ?_⟩
    · simp only [gen_note_begin, hup, hd, gen_emit_tempo, htc, hp, if_false]
      have hB := miditrack_noteon_bad st.track (d % 2 ^ 32) 0 (note.pitch % 256)
        (note.velocity % 256) (by omega)
      simp only [Nat.reducePow] at hB
      simp [hB]
    · simp only [hp, if_false]
      simp

/-- The second half of an iteration. -/
theorem gen_note_end_spec (st : gen_state) (note : note_t) (e : Nat)
    (he : double_to_ulong (delta_value st note.stop_sec) = some e) :
    ∃ st1, gen_note_end st note = some (if note.pitch % 256 ≤ 127 then 0 else 1, st1) ∧
      st1.bpm = st.bpm ∧ st1.ticks_per_sec = st.ticks_per_sec ∧
      st1.tempo_change = st.tempo_change ∧ st1.total_ticks = (st.total_ticks + e) % 2 ^ 64 ∧
      st1.track.chunkid = st.track.chunkid ∧ st1.track.chunksize = st.track.chunksize ∧
      st1.track.events = st.track.events ++
        (if note.pitch % 256 ≤ 127
          then varint_bytes (e % 2 ^ 32) ++ [0x80, note.pitch % 256, min (note.velocity % 256) 127]
          else []) := by
  by_cases hp : note.pitch % 256 ≤ 127
  · obtain ⟨trkN, hN, hNe, hNi, hNs⟩ :=
      miditrack_noteoff_ok st.track (e % 2 ^ 32) (note.pitch % 256) (note.velocity % 256)
        (Nat.mod_lt _ (by norm_num)) hp
    refine ⟨{ st with total_ticks := (st.total_ticks + e) % 2 ^ 64, track := trkN },
      ?_, rfl, rfl, rfl, rfl, hNi, hNs, ?_⟩
    · simp only [gen_note_end, he, hp, if_true]
      simp only [Nat.reducePow] at hN
      simp [hN]
    · simp only [hNe, hp, if_true]
      simp
  · refine ⟨{ st with total_ticks := (st.total_ticks + e) % 2 ^ 64 },
      ?_, rfl, rfl, rfl, rfl, rfl, rfl, ?_⟩
    · simp only [gen_note_end, he, hp, if_false]
      have hB := miditrack_noteoff_bad st.track (e % 2 ^ 32) 0 (note.pitch % 256)
        (note.velocity % 256) (by omega)
      simp only [Nat.reducePow] at hB
      simp [hB]
    · simp only [hp, if_false]
      simp

theorem gen_midi_loop_append (ppq : Nat) (xs ys : List note_t) :
    ∀ (st st1 : gen_state), gen_midi_loop ppq st xs = some (0, st1) →
      gen_midi_loop ppq st (xs ++ ys) = gen_midi_loop ppq st1 ys := by
  induction xs with
  | nil =>
    intro st st1 h
    simp only [gen_midi_loop, Option.some.injEq, Prod.mk.injEq, true_and] at h
    subst h; rfl
  | cons x xs ih =>
    intro st st1 h
    simp only [gen_midi_loop, List.cons_append] at h ⊢
    cases hb : gen_midi_body ppq st x with
    | none => simp [hb] at h
    | some p =>
      obtain ⟨r, s⟩ := p
      simp only [hb] at h ⊢
      by_cases hr : r = 0
      · subst hr
        simp only [ne_eq, not_true_eq_false, if_false] at h ⊢
        exact ih s st1 h
      · simp [hr] at h

theorem gen_note_begin_defined (ppq : Nat) (st : gen_state) (note : note_t)
    (r : Nat) (st1 : gen_state) (h : gen_note_begin ppq st note = some (r, st1)) :
    ∃ d, double_to_ulong (delta_value (gen_update_tempo ppq st note) note.start_sec) = some d := by
  cases hd : double_to_ulong (delta_value (gen_update_tempo ppq st note) note.start_sec) with
  | none => simp [gen_note_begin, hd] at h
  | some d => exact ⟨d, rfl⟩

theorem gen_note_end_defined (st : gen_state) (note : note_t)
    (r : Nat) (st1 : gen_state) (h : gen_note_end st note = some (r, st1)) :
    ∃ e, double_to_ulong (delta_value st note.stop_sec) = some e := by
  cases hd : double_to_ulong (delta_value st note.stop_sec) with
  | none => simp [gen_note_end, hd] at h
  | some e => exact ⟨e, rfl⟩

theorem gen_midi_loop_cons_ok (ppq : Nat) (st st1 : gen_state) (note : note_t)
    (rest : List note_t) (h : gen_midi_body ppq st note = some (0, st1)) :
    gen_midi_loop ppq st (note :: rest) = gen_midi_loop ppq st1 rest := by
  conv_lhs => unfold gen_midi_loop
  rw [h]
  rfl

theorem gen_midi_loop_cons_abort (ppq : Nat) (st st1 : gen_state) (note : note_t)
    (rest : List note_t) (r : Nat) (hr : r ≠ 0) (h : gen_midi_body ppq st note = some (r, st1)) :
    gen_midi_loop ppq st (note :: rest) = some (1, st1) := by
  conv_lhs => unfold gen_midi_loop
  rw [h]
  exact if_pos hr

theorem gen_midi_loop_cons_undefined (ppq : Nat) (st : gen_state) (note : note_t)
    (rest : List note_t) (h : gen_midi_body ppq st note = none) :
    gen_midi_loop ppq st (note :: rest) = none := by
  conv_lhs => unfold gen_midi_loop
  rw [h]

/-- A complete iteration for a note with a valid pitch whose tempo is unknown or current. -/
theorem gen_midi_body_plain (ppq : Nat) (st : gen_state) (note : note_t) (d e : Nat)
    (htc : st.tempo_change = 0) (hch : ¬ (note.tempo ≠ st.bpm ∧ note.tempo > 0))
    (hp : note.pitch % 256 ≤ 127)
    (hd : double_to_ulong ((st.ticks_per_sec : ℚ) * note.start_sec - (st.total_ticks : ℚ))
      = some d)
    (he : double_to_ulong ((st.ticks_per_sec : ℚ) * note.stop_sec
      - (((st.total_ticks + d) % 2 ^ 64 : Nat) : ℚ)) = some e) :
    ∃ st1, gen_midi_body ppq st note = some (0, st1) ∧
      st1.bpm = st.bpm ∧ st1.ticks_per_sec = st.ticks_per_sec ∧ st1.tempo_change = 0 ∧
      st1.total_ticks = ((st.total_ticks + d) % 2 ^ 64 + e) % 2 ^ 64 ∧
      st1.track.chunkid = st.track.chunkid ∧ st1.track.chunksize = st.track.chunksize ∧
      st1.track.events = st.track.events ++
        (varint_bytes (d % 2 ^ 32) ++ [0x90, note.pitch % 256, min (note.velocity % 256) 127]) ++
        (varint_bytes (e % 2 ^ 32) ++ [0x80, note.pitch % 256, min (note.velocity % 256) 127]) := by
  have hup : gen_update_tempo ppq st note = st := by
    simp only [gen_update_tempo, if_neg hch]
  obtain ⟨sb, hb, b1, b2, b3, b4, b5, b6, b7⟩ :=
    gen_note_begin_unchanged ppq st note d htc hch (by rw [hup]; exact hd)
  have he1 : double_to_ulong (delta_value sb note.stop_sec) = some e := by
    simp only [delta_value, b2, b4]; exact he
  obtain ⟨se, hse, e1, e2, e3, e4, e5, e6, e7⟩ := gen_note_end_spec sb note e he1
  refine ⟨se, ?_, by rw [e1, b1], by rw [e2, b2], by rw [e3, b3], by rw [e4, b4],
    by rw [e5, b5], by rw [e6, b6], ?_⟩
  · simp only [gen_midi_body, hb, hse, if_pos hp, ne_eq, not_true_eq_false, if_false]
  · rw [e7, b7, if_pos hp, if_pos hp]

/-- A complete iteration for a note with a valid pitch that brings a new, known tempo. -/
theorem gen_midi_body_tempo (ppq : Nat) (st : gen_state) (note : note_t) (d e : Nat)
    (hch : note.tempo ≠ st.bpm ∧ note.tempo > 0) (hp : note.pitch % 256 ≤ 127)
    (hd : double_to_ulong ((((ppq * note.tempo) % 2 ^ 32 / 60 : Nat) : ℚ) * note.start_sec
      - (st.total_ticks : ℚ)) = some d)
    (he : double_to_ulong ((((ppq * note.tempo) % 2 ^ 32 / 60 : Nat) : ℚ) * note.stop_sec
      - (((st.total_ticks + d) % 2 ^ 64 : Nat) : ℚ)) = some e) :
    ∃ st1, gen_midi_body ppq st note = some (0, st1) ∧
      st1.bpm = note.tempo ∧ st1.ticks_per_sec = (ppq * note.tempo) % 2 ^ 32 / 60 ∧
      st1.tempo_change = 0 ∧
      st1.total_ticks = ((st.total_ticks + d) % 2 ^ 64 + e) % 2 ^ 64 ∧
      st1.track.chunkid = st.track.chunkid ∧ st1.track.chunksize = st.track.chunksize ∧
      st1.track.events = st.track.events ++ varint_bytes (d % 2 ^ 32) ++ [0xff, 0x51, 0x03] ++
        [((60000000 / note.tempo) >>> 16) &&& 0xff, ((60000000 / note.tempo) >>> 8) &&& 0xff,
          (60000000 / note.tempo) &&& 0xff] ++
        [0x00, 0x90, note.pitch % 256, min (note.velocity % 256) 127] ++
        (varint_bytes (e % 2 ^ 32) ++ [0x80, note.pitch % 256, min (note.velocity % 256) 127]) := by
  have hup : delta_value (gen_update_tempo ppq st note) note.start_sec =
      (((ppq * note.tempo) % 2 ^ 32 / 60 : Nat) : ℚ) * note.start_sec - (st.total_ticks : ℚ) := by
    simp only [gen_update_tempo, if_pos hch, delta_value]
  obtain ⟨sb, hb, b1, b2, b3, b4, b5, b6, b7⟩ :=
    gen_note_begin_changed ppq st note d hch (by rw [hup]; exact hd)
  have he1 : double_to_ulong (delta_value sb note.stop_sec) = some e := by
    simp only [delta_value, b2, b4]; exact he
  obtain ⟨se, hse, e1, e2, e3, e4, e5, e6, e7⟩ := gen_note_end_spec sb note e he1
  refine ⟨se, ?_, by rw [e1, b1], by rw [e2, b2], by rw [e3, b3], by rw [e4, b4],
    by rw [e5, b5], by rw [e6, b6], ?_⟩
  · simp only [gen_midi_body, hb, hse, if_pos hp, ne_eq, not_true_eq_false, if_false]
  · rw [e7, b7, if_pos hp, if_pos hp]

/-! ## Lemmas on finalisation and on `gen_midi_file` as a whole -/

theorem varint_bytes_zero : varint_bytes 0 = [0] := by
  simp [varint_bytes, enc_varint32_small 0 (by norm_num)]

theorem finalise_miditrack_events (trk : miditrack_t) (h3 : 3 ≤ trk.events.length) :
    ∃ trk1, finalise_miditrack trk = some (0, trk1) ∧ trk1.chunkid = trk.chunkid ∧
      trk1.events = trk.events ++
        (if trk.events.getD (trk.events.length - 3) 0 ≠ 0xff ∨
            trk.events.getD (trk.events.length - 2) 0 ≠ 0x2f ∨
            trk.events.getD (trk.events.length - 1) 0 ≠ 0x00
          then [0x00, 0xff, 0x2f, 0x00] else []) := by
  unfold finalise_miditrack
  simp only [MIDIEVENT_META, META_1_ENDTRACK, META_2_ENDTRACK]
  rw [if_neg (by omega)]
  by_cases hc : trk.events.getD (trk.events.length - 3) 0 ≠ 0xff ∨
      trk.events.getD (trk.events.length - 2) 0 ≠ 0x2f ∨
      trk.events.getD (trk.events.length - 1) 0 ≠ 0x00
  · obtain ⟨trkE, hE, hEe, hEi, _⟩ :=
      miditrack_addevent_ok trk 0 0xff 0x2f 0x00 none 0 (by norm_num) (by simp)
    have hE1 : miditrack_end trk 0 = some (0, trkE) := by
      simp only [miditrack_end, MIDIEVENT_META, META_1_ENDTRACK, META_2_ENDTRACK]; exact hE
    rw [if_pos hc, if_pos hc, hE1]
    refine ⟨_, rfl, ?_, ?_⟩
    · dsimp only
      by_cases hdiff : (if miditrack_buffer_remaining trkE < 2 ^ 63
          then (miditrack_buffer_remaining trkE : Int)
          else (miditrack_buffer_remaining trkE : Int) - 2 ^ 64) > 0
      · simp only [if_pos hdiff, miditrack_buffer_increase]; exact hEi
      · simp only [if_neg hdiff]; exact hEi
    · dsimp only
      by_cases hdiff : (if miditrack_buffer_remaining trkE < 2 ^ 63
          then (miditrack_buffer_remaining trkE : Int)
          else (miditrack_buffer_remaining trkE : Int) - 2 ^ 64) > 0
      · simp only [if_pos hdiff, miditrack_buffer_increase, hEe, varint_bytes_zero]; simp
      · simp only [if_neg hdiff, hEe, varint_bytes_zero]; simp
  · rw [if_neg hc, if_neg hc]
    refine ⟨_, rfl, ?_, ?_⟩
    · dsimp only
      by_cases hdiff : (if miditrack_buffer_remaining trk < 2 ^ 63
          then (miditrack_buffer_remaining trk : Int)
          else (miditrack_buffer_remaining trk : Int) - 2 ^ 64) > 0
      · simp only [if_pos hdiff, miditrack_buffer_increase]
      · simp only [if_neg hdiff]
    · dsimp only
      by_cases hdiff : (if miditrack_buffer_remaining trk < 2 ^ 63
          then (miditrack_buffer_remaining trk : Int)
          else (miditrack_buffer_remaining trk : Int) - 2 ^ 64) > 0
      · simp only [if_pos hdiff, miditrack_buffer_increase]; simp
      · simp only [if_neg hdiff]; simp

/-- The file structure `gen_midi_file` obtains from `init_midifile`: one track. -/
theorem gen_midi_file_init (raw : Nat → miditrack_t) (nticks : Nat) :
    init_midifile raw 0 1 nticks 0 =
      (0, { header := (init_midiheader 0 1 nticks).2,
            tracks := [(init_miditrack (raw 0) 0).2] }) := by
  simp [init_midifile, init_midiheader, List.range_succ]

/-- When the loop executes `return 1`, `gen_midi_file` returns 1 with the file structure as the
loop left it and without having written anything. -/
theorem gen_midi_file_abort (is_big_endian host_big_endian : Bool) (fill : Nat → Nat → Nat)
    (raw : Nat → miditrack_t)
    (notes : List note_t) (ppq r : Nat) (st : gen_state) (hr : r ≠ 0)
    (hloop : gen_midi_loop (if ppq = 0 then MIDI_PPQ_DEFAULT else ppq)
      (gen_initial_state (if ppq = 0 then MIDI_PPQ_DEFAULT else ppq)
        (init_miditrack (raw 0) 0).2) notes = some (r, st)) :
    gen_midi_file is_big_endian host_big_endian fill raw notes ppq =
      some ⟨1, { header := (init_midiheader 0 1
                  ((if ppq = 0 then MIDI_PPQ_DEFAULT else ppq) % 2 ^ 16)).2,
                 tracks := [st.track] }, []⟩ := by
  simp only [gen_midi_file, gen_midi_file_init, hloop, ne_eq, not_true_eq_false, if_false, hr,
    not_false_eq_true, if_true]

/-- When the loop completes and at least three bytes were written, `gen_midi_file` finalises
track 0 and returns 0. -/
theorem gen_midi_file_done (is_big_endian host_big_endian : Bool) (fill : Nat → Nat → Nat)
    (raw : Nat → miditrack_t)
    (notes : List note_t) (ppq : Nat) (st : gen_state)
    (hloop : gen_midi_loop (if ppq = 0 then MIDI_PPQ_DEFAULT else ppq)
      (gen_initial_state (if ppq = 0 then MIDI_PPQ_DEFAULT else ppq)
        (init_miditrack (raw 0) 0).2) notes = some (0, st))
    (h3 : 3 ≤ st.track.events.length) :
    ∃ out, gen_midi_file is_big_endian host_big_endian fill raw notes ppq = some out ∧ out.ret = 0 ∧
      out.written = write_midifile is_big_endian host_big_endian fill out.midif ∧
      out.midif.tracks.map (fun t => t.events) = [st.track.events ++
        (if st.track.events.getD (st.track.events.length - 3) 0 ≠ 0xff ∨
            st.track.events.getD (st.track.events.length - 2) 0 ≠ 0x2f ∨
            st.track.events.getD (st.track.events.length - 1) 0 ≠ 0x00
          then [0x00, 0xff, 0x2f, 0x00] else [])] := by
  obtain ⟨trkF, hF, _, hFe⟩ := finalise_miditrack_events st.track h3
  have hfin : finalise_midifile
      { header := (init_midiheader 0 1
          ((if ppq = 0 then MIDI_PPQ_DEFAULT else ppq) % 2 ^ 16)).2,
        tracks := [st.track] } =
      some (0, (⟨(init_midiheader 0 1
          ((if ppq = 0 then MIDI_PPQ_DEFAULT else ppq) % 2 ^ 16)).2, [trkF]⟩ : midifile_t)) := by
    simp [finalise_midifile, finalise_tracks, init_midiheader, hF]
  refine ⟨⟨0, ⟨(init_midiheader 0 1
      ((if ppq = 0 then MIDI_PPQ_DEFAULT else ppq) % 2 ^ 16)).2, [trkF]⟩,
    write_midifile is_big_endian host_big_endian fill ⟨(init_midiheader 0 1
      ((if ppq = 0 then MIDI_PPQ_DEFAULT else ppq) % 2 ^ 16)).2, [trkF]⟩⟩, ?_, rfl, rfl, ?_⟩
  · simp only [gen_midi_file, gen_midi_file_init, hloop, ne_eq, not_true_eq_false, if_false, hfin]
  · simp only [List.map_cons, List.map_nil, hFe]

/-! ## Concrete runs -/

theorem varint_bytes_96 : varint_bytes 96 = [96] := by
  simp [varint_bytes, enc_varint32_small 96 (by norm_num)]

theorem gen_initial_state_96 (trk : miditrack_t) :
    gen_initial_state 96 trk =
      { bpm := 120, ticks_per_sec := 192, tempo_change := 0, total_ticks := 0, track := trk } := by
  simp [gen_initial_state, MIDI_BPM_DEFAULT]

/-- The loop of `gen_midi_file` on the three-note scenario at 96 PPQ, from an empty track. -/
theorem scenario_loop (trk : miditrack_t) (v1 v2 v3 : Nat) (hev : trk.events = []) :
    ∃ st, gen_midi_loop 96 (gen_initial_state 96 trk)
        [⟨60, v1, 120, 0, 1 / 2⟩, ⟨64, v2, 120, 1 / 2, 1⟩, ⟨67, v3, 120, 1, 3 / 2⟩]
        = some (0, st) ∧
      st.track.events =
        [0x00, 0x90, 60, min (v1 % 256) 127, 0x60, 0x80, 60, min (v1 % 256) 127,
         0x00, 0x90, 64, min (v2 % 256) 127, 0x60, 0x80, 64, min (v2 % 256) 127,
         0x00, 0x90, 67, min (v3 % 256) 127, 0x60, 0x80, 67, min (v3 % 256) 127] := by
  rw [gen_initial_state_96]
  obtain ⟨s1, h1, b1, t1, c1, k1, _, _, ev1⟩ :=
    gen_midi_body_plain 96
      { bpm := 120, ticks_per_sec := 192, tempo_change := 0, total_ticks := 0, track := trk }
      ⟨60, v1, 120, 0, 1 / 2⟩ 0 96 rfl (by simp) (by norm_num)
      (double_to_ulong_of_floor _ 0 (by norm_num) (by norm_num) (by norm_num))
      (double_to_ulong_of_floor _ 96 (by norm_num) (by norm_num) (by norm_num))
  have k1n : s1.total_ticks = 96 := by rw [k1]; norm_num
  obtain ⟨s2, h2, b2, t2, c2, k2, _, _, ev2⟩ :=
    gen_midi_body_plain 96 s1 ⟨64, v2, 120, 1 / 2, 1⟩ 0 96 c1 (by simp [b1]) (by norm_num)
      (by rw [t1, k1n]; exact double_to_ulong_of_floor _ 0 (by norm_num) (by norm_num) (by norm_num))
      (by rw [t1, k1n]; exact double_to_ulong_of_floor _ 96 (by norm_num) (by norm_num) (by norm_num))
  have k2n : s2.total_ticks = 192 := by rw [k2, k1n]; norm_num
  have t2n : s2.ticks_per_sec = 192 := by rw [t2, t1]
  obtain ⟨s3, h3, b3, t3, c3, k3, _, _, ev3⟩ :=
    gen_midi_body_plain 96 s2 ⟨67, v3, 120, 1, 3 / 2⟩ 0 96 c2 (by simp [b2, b1]) (by norm_num)
      (by rw [t2n, k2n]; exact double_to_ulong_of_floor _ 0 (by norm_num) (by norm_num) (by norm_num))
      (by rw [t2n, k2n]; exact double_to_ulong_of_floor _ 96 (by norm_num) (by norm_num) (by norm_num))
  refine ⟨s3, ?_, ?_⟩
  · rw [gen_midi_loop_cons_ok _ _ _ _ _ h1, gen_midi_loop_cons_ok _ _ _ _ _ h2,
      gen_midi_loop_cons_ok _ _ _ _ _ h3]
    rfl
  · rw [ev3, ev2, ev1, hev]
    simp [varint_bytes_zero, varint_bytes_96]

theorem init_miditrack_events (trk : miditrack_t) (bufsize : Nat) :
    (init_miditrack trk bufsize).2.events = [] := rfl

/-- The three-note scenario through `gen_midi_file`, for any velocities. -/
theorem scenario_file (is_big_endian host_big_endian : Bool) (fill : Nat → Nat → Nat)
    (raw : Nat → miditrack_t) (v1 v2 v3 : Nat) :
    ∃ out, gen_midi_file is_big_endian host_big_endian fill raw
        [⟨60, v1, 120, 0, 1 / 2⟩, ⟨64, v2, 120, 1 / 2, 1⟩, ⟨67, v3, 120, 1, 3 / 2⟩] 96
        = some out ∧
      out.ret = 0 ∧
      out.midif.tracks.map (fun t => t.events) =
        [[0x00, 0x90, 60, min (v1 % 256) 127, 0x60, 0x80, 60, min (v1 % 256) 127,
          0x00, 0x90, 64, min (v2 % 256) 127, 0x60, 0x80, 64, min (v2 % 256) 127,
          0x00, 0x90, 67, min (v3 % 256) 127, 0x60, 0x80, 67, min (v3 % 256) 127,
          0x00, 0xff, 0x2f, 0x00]] := by
  obtain ⟨st, hl, hst⟩ :=
    scenario_loop (init_miditrack (raw 0) 0).2 v1 v2 v3 (init_miditrack_events _ _)
  have hppq : (if (96 : Nat) = 0 then MIDI_PPQ_DEFAULT else 96) = 96 := if_neg (by decide)
  obtain ⟨out, ho, hr, _, hev⟩ :=
    gen_midi_file_done is_big_endian host_big_endian fill raw
        _ 96 st (by rw [hppq]; exact hl) (by rw [hst]; simp)
  refine ⟨out, ho, hr, ?_⟩
  rw [hev, hst]
  simp


theorem gen_note_begin_undefined (ppq : Nat) (st : gen_state) (note : note_t)
    (h : double_to_ulong (delta_value (gen_update_tempo ppq st note) note.start_sec) = none) :
    gen_midi_body ppq st note = none := by
  simp only [gen_midi_body, gen_note_begin, h]

theorem gen_midi_file_undefined (is_big_endian host_big_endian : Bool) (fill : Nat → Nat → Nat)
    (raw : Nat → miditrack_t)
    (notes : List note_t) (ppq : Nat)
    (hloop : gen_midi_loop (if ppq = 0 then MIDI_PPQ_DEFAULT else ppq)
      (gen_initial_state (if ppq = 0 then MIDI_PPQ_DEFAULT else ppq)
        (init_miditrack (raw 0) 0).2) notes = none) :
    gen_midi_file is_big_endian host_big_endian fill raw notes ppq = none := by
  simp only [gen_midi_file, gen_midi_file_init, hloop, ne_eq, not_true_eq_false, if_false]


/-- For a value in the range where the conversion keeps the integer part, `double_to_ulong`
returns the floor. -/
theorem double_to_ulong_floor (x : ℚ) (h0 : 0 ≤ x) (h1 : x < 2 ^ 64) :
    ∃ d : Nat, double_to_ulong x = some d ∧ (d : ℤ) = ⌊x⌋ := by
  have hfl : 0 ≤ ⌊x⌋ := Int.floor_nonneg.mpr h0
  refine ⟨⌊x⌋.toNat, ?_, Int.toNat_of_nonneg hfl⟩
  have c1 : ¬ (x ≤ -1 ∨ (2 : ℚ) ^ 64 ≤ x) := by
    push_neg
    constructor <;> linarith
  have c2 : ¬ (x < 0) := not_lt.mpr h0
  simp only [double_to_ulong, c1, c2, if_false]

theorem delta_value_floor (st : gen_state) (t : ℚ) :
    ⌊delta_value st t⌋ = ⌊(st.ticks_per_sec : ℚ) * t⌋ - (st.total_ticks : ℤ) := by
  simp only [delta_value]
  exact Int.floor_sub_nat _ _

theorem gen_update_tempo_total (ppq : Nat) (st : gen_state) (note : note_t) :
    (gen_update_tempo ppq st note).total_ticks = st.total_ticks := by
  simp only [gen_update_tempo]
  split <;> rfl

theorem gen_note_begin_total (ppq : Nat) (st : gen_state) (note : note_t) (d : Nat)
    (htc : st.tempo_change = 0)
    (hd : double_to_ulong (delta_value (gen_update_tempo ppq st note) note.start_sec) = some d) :
    ∃ r st1, gen_note_begin ppq st note = some (r, st1) ∧
      st1.total_ticks = (st.total_ticks + d) % 2 ^ 64 := by
  by_cases hch : note.tempo ≠ st.bpm ∧ note.tempo > 0
  · obtain ⟨s, hs, _, _, _, h4, _⟩ := gen_note_begin_changed ppq st note d hch hd
    exact ⟨_, s, hs, h4⟩
  · obtain ⟨s, hs, _, _, _, h4, _⟩ := gen_note_begin_unchanged ppq st note d htc hch hd
    exact ⟨_, s, hs, h4⟩

/-- The start and stop deltas are floors, not roundings to nearest. -/
theorem delta_floor_aux (ppq : Nat) (st : gen_state) (note : note_t) :
    (st.tempo_change = 0 →
      0 ≤ delta_value (gen_update_tempo ppq st note) note.start_sec →
      delta_value (gen_update_tempo ppq st note) note.start_sec < 2 ^ 64 →
      ∃ r st1 start_delta, gen_note_begin ppq st note = some (r, st1) ∧
        double_to_ulong (delta_value (gen_update_tempo ppq st note) note.start_sec)
          = some start_delta ∧
        (start_delta : ℤ) =
          ⌊((gen_update_tempo ppq st note).ticks_per_sec : ℚ) * note.start_sec⌋
            - (st.total_ticks : ℤ) ∧
        st1.total_ticks = (st.total_ticks + start_delta) % 2 ^ 64) ∧
    (0 ≤ delta_value st note.stop_sec → delta_value st note.stop_sec < 2 ^ 64 →
      ∃ r st1 stop_delta, gen_note_end st note = some (r, st1) ∧
        double_to_ulong (delta_value st note.stop_sec) = some stop_delta ∧
        (stop_delta : ℤ) = ⌊(st.ticks_per_sec : ℚ) * note.stop_sec⌋ - (st.total_ticks : ℤ) ∧
        st1.total_ticks = (st.total_ticks + stop_delta) % 2 ^ 64) := by
  constructor
  · intro htc h0 h1
    obtain ⟨d, hd, hfl⟩ := double_to_ulong_floor _ h0 h1
    obtain ⟨r, st1, hb, ht⟩ := gen_note_begin_total ppq st note d htc hd
    refine ⟨r, st1, d, hb, hd, ?_, ht⟩
    rw [hfl, delta_value_floor, gen_update_tempo_total]
  · intro h0 h1
    obtain ⟨e, he, hfl⟩ := double_to_ulong_floor _ h0 h1
    obtain ⟨st1, hs, _, _, _, h4, _⟩ := gen_note_end_spec st note e he
    refine ⟨_, st1, e, hs, he, ?_, h4⟩
    rw [hfl, delta_value_floor]

/-- A start time of 0.999 s at 192 ticks per second. -/
theorem delta_not_rounded_aux (trk : miditrack_t) :
    ∃ st1, gen_note_begin 96 (gen_initial_state 96 trk) ⟨60, 100, 120, 999 / 1000, 2⟩
        = some (0, st1) ∧
      double_to_ulong (delta_value (gen_initial_state 96 trk) (999 / 1000)) = some 191 ∧
      st1.total_ticks = 191 ∧
      round (((gen_initial_state 96 trk).ticks_per_sec : ℚ) * (999 / 1000))
        - ((gen_initial_state 96 trk).total_ticks : ℤ) = 192 := by
  have hd : double_to_ulong (delta_value (gen_initial_state 96 trk) (999 / 1000)) = some 191 := by
    rw [gen_initial_state_96]
    exact double_to_ulong_of_floor _ 191 (by norm_num [delta_value]) (by norm_num [delta_value])
      (by norm_num)
  obtain ⟨s, hs, _, _, _, h4, _⟩ :=
    gen_note_begin_unchanged 96 (gen_initial_state 96 trk) ⟨60, 100, 120, 999 / 1000, 2⟩ 191
      (by rw [gen_initial_state_96]) (by simp [gen_initial_state_96])
      (by simpa [gen_update_tempo, gen_initial_state_96] using hd)
  refine ⟨s, by simpa using hs, hd, ?_, ?_⟩
  · rw [h4, gen_initial_state_96]; norm_num
  · rw [gen_initial_state_96, round_eq]
    have : ⌊((192 : Nat) : ℚ) * (999 / 1000) + 1 / 2⌋ = 192 := by
      rw [Int.floor_eq_iff]; constructor <;> norm_num
    simp only [this]
    norm_num

/-! ## Invariants of the loop -/

/-- An iteration leaves no tempo change pending and does not touch `chunksize`. -/
theorem gen_midi_body_invariant (ppq : Nat) (st st1 : gen_state) (note : note_t) (r : Nat)
    (htc : st.tempo_change = 0) (h : gen_midi_body ppq st note = some (r, st1)) :
    st1.tempo_change = 0 ∧ st1.track.chunksize = st.track.chunksize := by
  unfold gen_midi_body at h
  cases hb : gen_note_begin ppq st note with
  | none => simp [hb] at h
  | some p =>
    obtain ⟨rb, sb⟩ := p
    obtain ⟨d, hd⟩ := gen_note_begin_defined ppq st note rb sb hb
    have hsb : sb.tempo_change = 0 ∧ sb.track.chunksize = st.track.chunksize := by
      by_cases hch : note.tempo ≠ st.bpm ∧ note.tempo > 0
      · obtain ⟨s, hs, _, _, h3, _, _, h6, _⟩ := gen_note_begin_changed ppq st note d hch hd
        rw [hs] at hb
        simp only [Option.some.injEq, Prod.mk.injEq] at hb
        rw [← hb.2]; exact ⟨h3, h6⟩
      · obtain ⟨s, hs, _, _, h3, _, _, h6, _⟩ :=
          gen_note_begin_unchanged ppq st note d htc hch hd
        rw [hs] at hb
        simp only [Option.some.injEq, Prod.mk.injEq] at hb
        rw [← hb.2]; exact ⟨h3, h6⟩
    simp only [hb] at h
    by_cases hr : rb = 0
    · simp only [hr, ne_eq, not_true_eq_false, if_false] at h
      obtain ⟨e, he⟩ := gen_note_end_defined sb note r st1 h
      obtain ⟨s, hs, _, _, h3, _, _, h6, _⟩ := gen_note_end_spec sb note e he
      rw [hs] at h
      simp only [Option.some.injEq, Prod.mk.injEq] at h
      rw [← h.2, h3, h6]; exact hsb
    · simp only [hr, ne_eq, not_false_eq_true, if_true, Option.some.injEq, Prod.mk.injEq] at h
      rw [← h.2]; exact hsb

theorem gen_midi_loop_invariant (ppq : Nat) (xs : List note_t) :
    ∀ (st st1 : gen_state) (r : Nat), st.tempo_change = 0 →
      gen_midi_loop ppq st xs = some (r, st1) →
      st1.tempo_change = 0 ∧ st1.track.chunksize = st.track.chunksize := by
  induction xs with
  | nil =>
    intro st st1 r htc h
    simp only [gen_midi_loop, Option.some.injEq, Prod.mk.injEq] at h
    rw [← h.2]; exact ⟨htc, rfl⟩
  | cons x xs ih =>
    intro st st1 r htc h
    simp only [gen_midi_loop] at h
    cases hb : gen_midi_body ppq st x with
    | none => simp [hb] at h
    | some p =>
      obtain ⟨rb, sb⟩ := p
      have hsb := gen_midi_body_invariant ppq st sb x rb htc hb
      simp only [hb] at h
      by_cases hr : rb = 0
      · simp only [hr, ne_eq, not_true_eq_false, if_false] at h
        obtain ⟨i1, i2⟩ := ih sb st1 r hsb.1 h
        exact ⟨i1, by rw [i2, hsb.2]⟩
      · simp only [hr, ne_eq, not_false_eq_true, if_true, Option.some.injEq, Prod.mk.injEq] at h
        rw [← h.2]; exact hsb

/-! ## Tempo events -/

theorem tempo_event_aux (ppq : Nat) (trk : miditrack_t) (earlier : List note_t)
    (st : gen_state) (note : note_t) (d : Nat)
    (hreach : gen_midi_loop ppq (gen_initial_state ppq trk) earlier = some (0, st))
    (hd : double_to_ulong (delta_value (gen_update_tempo ppq st note) note.start_sec) = some d) :
    ∃ st1, gen_note_begin ppq st note = some (if note.pitch % 256 ≤ 127 then 0 else 1, st1) ∧
      (note.tempo ≠ 0 ∧ note.tempo ≠ st.bpm →
        st1.bpm = note.tempo ∧
        st1.track.events = st.track.events ++ varint_bytes (d % 2 ^ 32) ++
          [0xff, 0x51, 0x03, ((60000000 / note.tempo) >>> 16) &&& 0xff,
            ((60000000 / note.tempo) >>> 8) &&& 0xff, (60000000 / note.tempo) &&& 0xff] ++
          (if note.pitch % 256 ≤ 127
            then [0x00, 0x90, note.pitch % 256, min (note.velocity % 256) 127] else [])) ∧
      (¬ (note.tempo ≠ 0 ∧ note.tempo ≠ st.bpm) →
        st1.bpm = st.bpm ∧ st1.ticks_per_sec = st.ticks_per_sec ∧
        st1.track.events = st.track.events ++
          (if note.pitch % 256 ≤ 127
            then varint_bytes (d % 2 ^ 32) ++
              [0x90, note.pitch % 256, min (note.velocity % 256) 127]
            else [])) := by
  have htc : st.tempo_change = 0 :=
    (gen_midi_loop_invariant ppq earlier _ st 0 rfl hreach).1
  by_cases hch : note.tempo ≠ st.bpm ∧ note.tempo > 0
  · obtain ⟨s, hs, h1, _, _, _, _, _, h7⟩ := gen_note_begin_changed ppq st note d hch hd
    refine ⟨s, hs, ?_, ?_⟩
    · intro _
      refine ⟨h1, ?_⟩
      rw [h7]; simp
    · intro hn
      exact absurd ⟨by omega, hch.1⟩ hn
  · obtain ⟨s, hs, h1, h2, _, _, _, _, h7⟩ :=
      gen_note_begin_unchanged ppq st note d htc hch hd
    refine ⟨s, hs, ?_, ?_⟩
    · intro hn
      exact absurd ⟨hn.2, by omega⟩ hch
    · intro _
      exact ⟨h1, h2, h7⟩

/-! ## Notes with an invalid pitch -/

theorem bad_pitch_aux (is_big_endian host_big_endian : Bool) (fill : Nat → Nat → Nat)
    (raw : Nat → miditrack_t) (ppq : Nat)
    (earlier later : List note_t) (bad : note_t) (st : gen_state) (d : Nat)
    (hreach : gen_midi_loop (if ppq = 0 then MIDI_PPQ_DEFAULT else ppq)
      (gen_initial_state (if ppq = 0 then MIDI_PPQ_DEFAULT else ppq)
        (init_miditrack (raw 0) 0).2) earlier = some (0, st))
    (hbad : 127 < bad.pitch % 256)
    (hd : double_to_ulong (delta_value
      (gen_update_tempo (if ppq = 0 then MIDI_PPQ_DEFAULT else ppq) st bad) bad.start_sec)
        = some d) :
    ∃ out, gen_midi_file is_big_endian host_big_endian fill raw
        (earlier ++ bad :: later) ppq = some out ∧
      out.ret = 1 ∧ out.written = [] ∧
      out.midif.tracks.map (fun t => t.events) =
        [st.track.events ++
          (if bad.tempo ≠ st.bpm ∧ bad.tempo > 0
            then varint_bytes (d % 2 ^ 32) ++
              [0xff, 0x51, 0x03, ((60000000 / bad.tempo) >>> 16) &&& 0xff,
                ((60000000 / bad.tempo) >>> 8) &&& 0xff, (60000000 / bad.tempo) &&& 0xff]
            else [])] ∧
      out.midif.tracks.map (fun t => t.chunksize) = [(raw 0).chunksize] := by
  have hinv := gen_midi_loop_invariant _ earlier _ st 0 rfl hreach
  have hnp : ¬ bad.pitch % 256 ≤ 127 := by omega
  have hstep : ∃ s, gen_note_begin (if ppq = 0 then MIDI_PPQ_DEFAULT else ppq) st bad
        = some (1, s) ∧ s.track.chunksize = st.track.chunksize ∧
      s.track.events = st.track.events ++
          (if bad.tempo ≠ st.bpm ∧ bad.tempo > 0
            then varint_bytes (d % 2 ^ 32) ++
              [0xff, 0x51, 0x03, ((60000000 / bad.tempo) >>> 16) &&& 0xff,
                ((60000000 / bad.tempo) >>> 8) &&& 0xff, (60000000 / bad.tempo) &&& 0xff]
            else []) := by
    by_cases hch : bad.tempo ≠ st.bpm ∧ bad.tempo > 0
    · obtain ⟨s, hs, _, _, _, _, _, h6, h7⟩ := gen_note_begin_changed _ st bad d hch hd
      refine ⟨s, by rw [hs, if_neg hnp], h6, ?_⟩
      rw [h7, if_neg hnp, if_pos hch]; simp
    · obtain ⟨s, hs, _, _, _, _, _, h6, h7⟩ :=
        gen_note_begin_unchanged _ st bad d hinv.1 hch hd
      refine ⟨s, by rw [hs, if_neg hnp], h6, ?_⟩
      rw [h7, if_neg hnp, if_neg hch]
  obtain ⟨s, hs, hsz, hse⟩ := hstep
  have hbody : gen_midi_body (if ppq = 0 then MIDI_PPQ_DEFAULT else ppq) st bad
      = some (1, s) := by
    simp only [gen_midi_body, hs]
    rfl
  have hloop : gen_midi_loop (if ppq = 0 then MIDI_PPQ_DEFAULT else ppq)
      (gen_initial_state (if ppq = 0 then MIDI_PPQ_DEFAULT else ppq)
        (init_miditrack (raw 0) 0).2) (earlier ++ bad :: later) = some (1, s) := by
    rw [gen_midi_loop_append _ _ _ _ _ hreach]
    exact gen_midi_loop_cons_abort _ _ _ _ _ 1 (by decide) hbody
  refine ⟨_, gen_midi_file_abort is_big_endian host_big_endian fill raw
      _ ppq 1 s (by decide) hloop, rfl, rfl, ?_, ?_⟩
  · simp only [List.map_cons, List.map_nil, hse]
  · simp only [List.map_cons, List.map_nil, hsz, hinv.2]
    rfl

/-! ## Further concrete runs -/

/-- The loop on the single note (60, 0.0-0.5 s, tempo 120, velocity 100) at 96 PPQ. -/
theorem one_note_run :
    gen_midi_loop 96 (gen_initial_state 96 (init_miditrack ⟨[], 0, [], 0⟩ 0).2)
        [⟨60, 100, 120, 0, 1 / 2⟩] =
      some (0, ⟨120, 192, 0, 96,
        ⟨[0x4d, 0x54, 0x72, 0x6b], 0, [0x00, 0x90, 60, 100, 0x60, 0x80, 60, 100], 16384⟩⟩) := by
  have e0 : double_to_ulong (0 : ℚ) = some 0 :=
    double_to_ulong_of_floor _ 0 (by norm_num) (by norm_num) (by norm_num)
  have e1 : double_to_ulong (192 * 2⁻¹ : ℚ) = some 96 :=
    double_to_ulong_of_floor _ 96 (by norm_num) (by norm_num) (by norm_num)
  have v0 : enc_varint32 0 = some (1, [0]) := by decide
  have v96 : enc_varint32 96 = some (1, [96]) := by decide
  simp [gen_midi_loop, gen_midi_body, gen_note_begin, gen_note_end, gen_initial_state,
    init_miditrack, gen_update_tempo, delta_value, gen_emit_tempo, MIDI_BPM_DEFAULT, e0, e1,
    miditrack_noteon, miditrack_noteoff, miditrack_addevent, miditrack_buffer_remaining,
    MIDIEVENTS_BUFSIZE, MIDI_CHANNEL_MAX, MIDI_PITCH_MAX, MIDI_VELOCITY_MAX, v0, v96,
    MIDIEVENT_NOTEON, MIDIEVENT_NOTEOFF]

theorem varint_bytes_192 : varint_bytes 192 = [0x80, 0x40] := by decide

theorem varint_bytes_240 : varint_bytes 240 = [0x80, 0x70] := by decide

/-- A note whose pitch is 256 is translated as pitch 0. -/
theorem wrapped_pitch_run :
    ∃ out, gen_midi_file false false (fun _ _ => 0) (fun _ => ⟨[], 0, [], 0⟩)
        [⟨256, 100, 120, 1, 2⟩] 96 = some out ∧
      out.ret = 0 ∧
      out.midif.tracks.map (fun t => t.events) =
        [[0x80, 0x40, 0x90, 0, 100, 0x80, 0x40, 0x80, 0, 100, 0x00, 0xff, 0x2f, 0x00]] := by
  obtain ⟨s1, h1, _, _, _, _, _, _, ev1⟩ :=
    gen_midi_body_plain 96 (gen_initial_state 96 (init_miditrack ⟨[], 0, [], 0⟩ 0).2)
      ⟨256, 100, 120, 1, 2⟩ 192 192 rfl (by simp [gen_initial_state_96]) (by norm_num)
      (by rw [gen_initial_state_96]
          exact double_to_ulong_of_floor _ 192 (by norm_num) (by norm_num) (by norm_num))
      (by rw [gen_initial_state_96]
          exact double_to_ulong_of_floor _ 192 (by norm_num) (by norm_num) (by norm_num))
  have hst : s1.track.events = [0x80, 0x40, 0x90, 0, 100, 0x80, 0x40, 0x80, 0, 100] := by
    rw [ev1]
    simp [gen_initial_state, init_miditrack, varint_bytes_192]
  have hl : gen_midi_loop 96 (gen_initial_state 96 (init_miditrack ⟨[], 0, [], 0⟩ 0).2)
      [⟨256, 100, 120, 1, 2⟩] = some (0, s1) := by
    rw [gen_midi_loop_cons_ok _ _ _ _ _ h1]; rfl
  have hppq : (if (96 : Nat) = 0 then MIDI_PPQ_DEFAULT else 96) = 96 := if_neg (by decide)
  obtain ⟨out, ho, hr, _, hev⟩ :=
    gen_midi_file_done false false (fun _ _ => 0) (fun _ => ⟨[], 0, [], 0⟩)
        _ 96 s1 (by rw [hppq]; exact hl)
      (by rw [hst]; simp)
  refine ⟨out, ho, hr, ?_⟩
  rw [hev, hst]
  simp

/-! ## The claims -/

/-- C1 (evaluation at the failing input). For `v = 128` the bytes written by `enc_varint32`
are `0x80 0x00`, whereas the standard SMF variable-length quantity of 128 is `0x81 0x00`: the
encoder decrements each group after the first (`val--`). -/
theorem enc_varint32_not_smf_vlq :
    enc_varint32 128 = some (2, [0x80, 0x00]) ∧ smf_vlq 128 = [0x81, 0x00] := by
  constructor
  · decide
  · simp [smf_vlq]

/-- C2 (evaluation at the listed inputs). Decoding the bytes produced by `enc_varint32` with
the decode rule of the specification returns the input for 0, 1 and 127 only; for 128 it
returns 0, and for every other listed value a value different from the input. -/
theorem enc_varint32_roundtrip_values :
    [0, 1, 127, 128, 16383, 16384, 2097151, 2097152, 268435455, 4294967295].map
      (fun v => (enc_varint32 v).bind (fun r => spec_decode_varint 0 r.2)) =
    [some 0, some 1, some 127, some 0, some 16255, some 16256, some 2080639, some 2080640,
      some 266321791, some 4024418175] := by
  decide

/-- C3 (evaluation at the failing input). The call `enc_varint32(128)` returns 2 and writes
the two bytes `0x80 0x00`, not `0x81 0x00`. -/
theorem enc_varint32_128 :
    enc_varint32 128 = some (2, [0x80, 0x00]) ∧ [0x80, 0x00] ≠ [0x81, 0x00] := by
  decide

/-- C4. For every `v` with `0 ≤ v ≤ 127`, `enc_varint32 v` returns 1 and writes the single
byte `v`. -/
theorem enc_varint32_single_byte (v : Nat) (hv : v ≤ 127) :
    enc_varint32 v = some (1, [v]) :=
  enc_varint32_small v hv

/-- C4 (witness). The values 0 and 127 are encoded as `[0x00]` and `[0x7F]`. -/
theorem enc_varint32_single_byte_witness :
    ((0 : Nat) ≤ 127 ∧ enc_varint32 0 = some (1, [0x00])) ∧
    ((127 : Nat) ≤ 127 ∧ enc_varint32 127 = some (1, [0x7F])) :=
  ⟨⟨by decide, enc_varint32_single_byte 0 (by decide)⟩,
   ⟨by decide, enc_varint32_single_byte 127 (by decide)⟩⟩

/-- C5. For every 32-bit unsigned `v`, `enc_varint32 v` is defined (the index into the scratch
buffer stays inside it), returns a length `n` with `1 ≤ n ≤ 5`, writes exactly `n` bytes, and
of those bytes exactly the last one has bit 7 clear. -/
theorem enc_varint32_length_bounds (v : Nat) (hv : v < 2 ^ 32) :
    ∃ n bytes, enc_varint32 v = some (n, bytes) ∧ 1 ≤ n ∧ n ≤ VARINT32_MAXSIZE ∧
      bytes.length = n ∧ (∀ b ∈ bytes, b < 256) ∧
      ∀ i, i < n → (bytes.getD i 0 &&& 0x80 = 0 ↔ i + 1 = n) :=
  enc_varint32_bounds_aux v hv

/-- C5 (witness). The largest 32-bit value. -/
theorem enc_varint32_length_bounds_witness :
    (4294967295 : Nat) < 2 ^ 32 ∧
    ∃ n bytes, enc_varint32 4294967295 = some (n, bytes) ∧ 1 ≤ n ∧ n ≤ VARINT32_MAXSIZE ∧
      bytes.length = n ∧ (∀ b ∈ bytes, b < 256) ∧
      ∀ i, i < n → (bytes.getD i 0 &&& 0x80 = 0 ↔ i + 1 = n) :=
  ⟨by decide, enc_varint32_length_bounds 4294967295 (by decide)⟩

/-- C6 (amended). The three notes (60, 0.0-0.5 s), (64, 0.5-1.0 s), (67, 1.0-1.5 s), all with
tempo 120, at PPQ 96, with any velocities: `gen_midi_file` returns 0 and track 0 holds exactly
note-on(60) at delta 0, note-off(60) at delta 96, note-on(64) at delta 0, note-off(64) at
delta 96, note-on(67) at delta 0, note-off(67) at delta 96 and end-of-track at delta 0. No
tempo-change event is written, the notes carrying the default tempo. -/
theorem gen_midi_file_scenario (is_big_endian host_big_endian : Bool) (fill : Nat → Nat → Nat)
    (raw : Nat → miditrack_t) (v1 v2 v3 : Nat) :
    ∃ out, gen_midi_file is_big_endian host_big_endian fill raw
        [⟨60, v1, 120, 0, 1 / 2⟩, ⟨64, v2, 120, 1 / 2, 1⟩, ⟨67, v3, 120, 1, 3 / 2⟩] 96
        = some out ∧
      out.ret = 0 ∧
      out.midif.tracks.map (fun t => t.events) =
        [[0x00, 0x90, 60, min (v1 % 256) 127, 0x60, 0x80, 60, min (v1 % 256) 127,
          0x00, 0x90, 64, min (v2 % 256) 127, 0x60, 0x80, 64, min (v2 % 256) 127,
          0x00, 0x90, 67, min (v3 % 256) 127, 0x60, 0x80, 67, min (v3 % 256) 127,
          0x00, 0xff, 0x2f, 0x00]] :=
  scenario_file is_big_endian host_big_endian fill raw v1 v2 v3

/-- C6 (counterexample). With velocity 100 the run does not leave on track 0 a tempo-change
event (whatever its bytes) followed by the note events with note-off deltas of 48 and the
end-of-track event. -/
theorem gen_midi_file_scenario_not_as_claimed :
    ¬ ∃ out tempo_event, gen_midi_file false false (fun _ _ => 0) (fun _ => ⟨[], 0, [], 0⟩)
        [⟨60, 100, 120, 0, 1 / 2⟩, ⟨64, 100, 120, 1 / 2, 1⟩, ⟨67, 100, 120, 1, 3 / 2⟩] 96
        = some out ∧
      out.midif.tracks.map (fun t => t.events) =
        [tempo_event ++
         [0x00, 0x90, 60, 100, 0x30, 0x80, 60, 100,
          0x00, 0x90, 64, 100, 0x30, 0x80, 64, 100,
          0x00, 0x90, 67, 100, 0x30, 0x80, 67, 100,
          0x00, 0xff, 0x2f, 0x00]] := by
  rintro ⟨out, te, ho, hev⟩
  obtain ⟨out1, ho1, _, hev1⟩ := scenario_file false false (fun _ _ => 0) (fun _ => ⟨[], 0, [], 0⟩)
      100 100 100
  rw [ho1] at ho
  simp only [Option.some.injEq] at ho
  subst ho
  rw [hev1] at hev
  simp only [List.cons.injEq, and_true] at hev
  have hlen := congrArg List.length hev
  simp at hlen
  subst hlen
  simp at hev
/-- C7 (evaluation at the failing input). Two notes with strictly increasing times
1 < 2 < 3 < 4 s, the first with tempo 240, the second with tempo 60, at PPQ 96: the first note
is translated and leaves 768 ticks elapsed; for the second note `ticks_per_sec` drops to 96 and
the start delta, as a mathematical value, is `96 * 3 - 768 = -480`, so its conversion to an
unsigned integer, and with it the result of `gen_midi_file`, is not defined. -/
theorem gen_midi_file_negative_delta :
    ((1 : ℚ) < 2 ∧ (2 : ℚ) < 3 ∧ (3 : ℚ) < 4) ∧
    ∃ st, gen_midi_loop 96 (gen_initial_state 96 (init_miditrack ⟨[], 0, [], 0⟩ 0).2)
        [⟨60, 100, 240, 1, 2⟩] = some (0, st) ∧
      st.total_ticks = 768 ∧
      delta_value (gen_update_tempo 96 st ⟨62, 100, 60, 3, 4⟩) 3 = -480 ∧
      gen_midi_file false false (fun _ _ => 0) (fun _ => ⟨[], 0, [], 0⟩)
        [⟨60, 100, 240, 1, 2⟩, ⟨62, 100, 60, 3, 4⟩] 96 = none := by
  refine ⟨by norm_num, ?_⟩
  obtain ⟨s1, h1, b1, t1, c1, k1, _, _, _⟩ :=
    gen_midi_body_tempo 96 (gen_initial_state 96 (init_miditrack ⟨[], 0, [], 0⟩ 0).2)
      ⟨60, 100, 240, 1, 2⟩ 384 384 (by simp [gen_initial_state_96]) (by norm_num)
      (by rw [gen_initial_state_96]
          exact double_to_ulong_of_floor _ 384 (by norm_num) (by norm_num) (by norm_num))
      (by rw [gen_initial_state_96]
          exact double_to_ulong_of_floor _ 384 (by norm_num) (by norm_num) (by norm_num))
  have k1n : s1.total_ticks = 768 := by rw [k1, gen_initial_state_96]; norm_num
  have b1n : s1.bpm = 240 := b1
  have hval : delta_value (gen_update_tempo 96 s1 ⟨62, 100, 60, 3, 4⟩) 3 = -480 := by
    simp only [gen_update_tempo, b1n, delta_value, k1n]
    norm_num
  have hl1 : gen_midi_loop 96 (gen_initial_state 96 (init_miditrack ⟨[], 0, [], 0⟩ 0).2)
      [⟨60, 100, 240, 1, 2⟩] = some (0, s1) := by
    rw [gen_midi_loop_cons_ok _ _ _ _ _ h1]; rfl
  refine ⟨s1, hl1, k1n, hval, ?_⟩
  apply gen_midi_file_undefined
  have hppq : (if (96 : Nat) = 0 then MIDI_PPQ_DEFAULT else 96) = 96 := if_neg (by decide)
  rw [hppq, gen_midi_loop_cons_ok _ _ _ _ _ h1]
  apply gen_midi_loop_cons_undefined
  apply gen_note_begin_undefined
  have h3 : (⟨62, 100, 60, 3, 4⟩ : note_t).start_sec = 3 := rfl
  rw [h3, hval]
  exact double_to_ulong_neg _ (by norm_num)

/-- C8 (counterexample). A note starting at 0.999 s, at 192 ticks per second with no ticks
elapsed: the start delta computed by the loop is 191, whereas rounding `192 * 0.999 = 191.808`
to the nearest integer gives 192. -/
theorem start_delta_not_rounded :
    ∃ st1, gen_note_begin 96 (gen_initial_state 96 ⟨[], 0, [], 0⟩)
        ⟨60, 100, 120, 999 / 1000, 2⟩ = some (0, st1) ∧
      double_to_ulong (delta_value (gen_initial_state 96 ⟨[], 0, [], 0⟩) (999 / 1000))
        = some 191 ∧
      st1.total_ticks = 191 ∧
      round (((gen_initial_state 96 ⟨[], 0, [], 0⟩).ticks_per_sec : ℚ) * (999 / 1000))
        - ((gen_initial_state 96 ⟨[], 0, [], 0⟩).total_ticks : ℤ) = 192 :=
  delta_not_rounded_aux ⟨[], 0, [], 0⟩

/-- C8 (amended). For a note processed by `gen_midi_file`, times being exact rationals, in a
state `st` with no tempo change pending (as at the head of every iteration): when the value
`ticks_per_sec * start_sec - total_ticks` lies in `[0, 2 ^ 64)`, the start delta equals
`floor(ticks_per_sec * start_sec) - total_ticks` (the fraction is cut off, not rounded to
nearest) and is added to `total_ticks`; likewise the stop delta, computed in the state `mid`
reached after the note-on, equals `floor(ticks_per_sec * stop_sec) - total_ticks`. -/
theorem gen_midi_file_delta_floor (ppq : Nat) (st mid : gen_state) (note : note_t)
    (htc : st.tempo_change = 0)
    (hs0 : 0 ≤ delta_value (gen_update_tempo ppq st note) note.start_sec)
    (hs1 : delta_value (gen_update_tempo ppq st note) note.start_sec < 2 ^ 64)
    (he0 : 0 ≤ delta_value mid note.stop_sec)
    (he1 : delta_value mid note.stop_sec < 2 ^ 64) :
    (∃ r st1 start_delta, gen_note_begin ppq st note = some (r, st1) ∧
        double_to_ulong (delta_value (gen_update_tempo ppq st note) note.start_sec)
          = some start_delta ∧
        (start_delta : ℤ) =
          ⌊((gen_update_tempo ppq st note).ticks_per_sec : ℚ) * note.start_sec⌋
            - (st.total_ticks : ℤ) ∧
        st1.total_ticks = (st.total_ticks + start_delta) % 2 ^ 64) ∧
    (∃ r st2 stop_delta, gen_note_end mid note = some (r, st2) ∧
        double_to_ulong (delta_value mid note.stop_sec) = some stop_delta ∧
        (stop_delta : ℤ) = ⌊(mid.ticks_per_sec : ℚ) * note.stop_sec⌋ - (mid.total_ticks : ℤ) ∧
        st2.total_ticks = (mid.total_ticks + stop_delta) % 2 ^ 64) :=
  ⟨(delta_floor_aux ppq st note).1 htc hs0 hs1, (delta_floor_aux ppq mid note).2 he0 he1⟩

/-- C8 (witness). The note (60, 0.999-2 s, tempo 120) at 96 PPQ from the initial state, with
`mid` the state in which 191 ticks have elapsed. -/
theorem gen_midi_file_delta_floor_witness :
    ((gen_initial_state 96 ⟨[], 0, [], 0⟩).tempo_change = 0 ∧
     0 ≤ delta_value (gen_update_tempo 96 (gen_initial_state 96 ⟨[], 0, [], 0⟩)
        ⟨60, 100, 120, 999 / 1000, 2⟩) (⟨60, 100, 120, 999 / 1000, 2⟩ : note_t).start_sec ∧
     delta_value (gen_update_tempo 96 (gen_initial_state 96 ⟨[], 0, [], 0⟩)
        ⟨60, 100, 120, 999 / 1000, 2⟩) (⟨60, 100, 120, 999 / 1000, 2⟩ : note_t).start_sec
        < 2 ^ 64 ∧
     0 ≤ delta_value ⟨120, 192, 0, 191, ⟨[], 0, [], 0⟩⟩
        (⟨60, 100, 120, 999 / 1000, 2⟩ : note_t).stop_sec ∧
     delta_value ⟨120, 192, 0, 191, ⟨[], 0, [], 0⟩⟩
        (⟨60, 100, 120, 999 / 1000, 2⟩ : note_t).stop_sec < 2 ^ 64) ∧
    ((∃ r st1 start_delta, gen_note_begin 96 (gen_initial_state 96 ⟨[], 0, [], 0⟩)
          ⟨60, 100, 120, 999 / 1000, 2⟩ = some (r, st1) ∧
        double_to_ulong (delta_value (gen_update_tempo 96 (gen_initial_state 96 ⟨[], 0, [], 0⟩)
          ⟨60, 100, 120, 999 / 1000, 2⟩) (⟨60, 100, 120, 999 / 1000, 2⟩ : note_t).start_sec)
          = some start_delta ∧
        (start_delta : ℤ) =
          ⌊((gen_update_tempo 96 (gen_initial_state 96 ⟨[], 0, [], 0⟩)
              ⟨60, 100, 120, 999 / 1000, 2⟩).ticks_per_sec : ℚ)
            * (⟨60, 100, 120, 999 / 1000, 2⟩ : note_t).start_sec⌋
            - ((gen_initial_state 96 ⟨[], 0, [], 0⟩).total_ticks : ℤ) ∧
        st1.total_ticks =
          ((gen_initial_state 96 ⟨[], 0, [], 0⟩).total_ticks + start_delta) % 2 ^ 64) ∧
     (∃ r st2 stop_delta, gen_note_end ⟨120, 192, 0, 191, ⟨[], 0, [], 0⟩⟩
          ⟨60, 100, 120, 999 / 1000, 2⟩ = some (r, st2) ∧
        double_to_ulong (delta_value ⟨120, 192, 0, 191, ⟨[], 0, [], 0⟩⟩
          (⟨60, 100, 120, 999 / 1000, 2⟩ : note_t).stop_sec) = some stop_delta ∧
        (stop_delta : ℤ) =
          ⌊((⟨120, 192, 0, 191, ⟨[], 0, [], 0⟩⟩ : gen_state).ticks_per_sec : ℚ)
            * (⟨60, 100, 120, 999 / 1000, 2⟩ : note_t).stop_sec⌋
            - ((⟨120, 192, 0, 191, ⟨[], 0, [], 0⟩⟩ : gen_state).total_ticks : ℤ) ∧
        st2.total_ticks =
          ((⟨120, 192, 0, 191, ⟨[], 0, [], 0⟩⟩ : gen_state).total_ticks + stop_delta)
            % 2 ^ 64)) := by
  have htc : (gen_initial_state 96 ⟨[], 0, [], 0⟩).tempo_change = 0 := rfl
  have hs0 : 0 ≤ delta_value (gen_update_tempo 96 (gen_initial_state 96 ⟨[], 0, [], 0⟩)
      ⟨60, 100, 120, 999 / 1000, 2⟩) (⟨60, 100, 120, 999 / 1000, 2⟩ : note_t).start_sec := by
    norm_num [delta_value, gen_update_tempo, gen_initial_state, MIDI_BPM_DEFAULT]
  have hs1 : delta_value (gen_update_tempo 96 (gen_initial_state 96 ⟨[], 0, [], 0⟩)
      ⟨60, 100, 120, 999 / 1000, 2⟩) (⟨60, 100, 120, 999 / 1000, 2⟩ : note_t).start_sec
      < 2 ^ 64 := by
    norm_num [delta_value, gen_update_tempo, gen_initial_state, MIDI_BPM_DEFAULT]
  have he0 : 0 ≤ delta_value ⟨120, 192, 0, 191, ⟨[], 0, [], 0⟩⟩
      (⟨60, 100, 120, 999 / 1000, 2⟩ : note_t).stop_sec := by
    norm_num [delta_value]
  have he1 : delta_value ⟨120, 192, 0, 191, ⟨[], 0, [], 0⟩⟩
      (⟨60, 100, 120, 999 / 1000, 2⟩ : note_t).stop_sec < 2 ^ 64 := by
    norm_num [delta_value]
  exact ⟨⟨htc, hs0, hs1, he0, he1⟩,
    gen_midi_file_delta_floor 96 (gen_initial_state 96 ⟨[], 0, [], 0⟩)
      ⟨120, 192, 0, 191, ⟨[], 0, [], 0⟩⟩ ⟨60, 100, 120, 999 / 1000, 2⟩ htc hs0 hs1 he0 he1⟩

/-- C9. For a note reached by the loop of `gen_midi_file` (in state `st`, its `bpm` being the
current tempo, 120 before the first note) whose start delta `d` is defined: the first half of
the iteration completes, with status 0 when the pitch byte is valid and 1 otherwise. If the
note's tempo is non-zero and differs from the current tempo, a set-tempo event for the note's
tempo is appended carrying the start delta (as the 32-bit `deltatime` argument), the current
tempo becomes the note's tempo, and the note-on that follows is at delta 0. Otherwise no tempo
event is appended, the current tempo and `ticks_per_sec` are unchanged, and the note-on carries
the start delta. -/
theorem gen_midi_file_tempo_event (ppq : Nat) (trk : miditrack_t) (earlier : List note_t)
    (st : gen_state) (note : note_t) (d : Nat)
    (hreach : gen_midi_loop ppq (gen_initial_state ppq trk) earlier = some (0, st))
    (hd : double_to_ulong (delta_value (gen_update_tempo ppq st note) note.start_sec) = some d) :
    ∃ st1, gen_note_begin ppq st note = some (if note.pitch % 256 ≤ 127 then 0 else 1, st1) ∧
      (note.tempo ≠ 0 ∧ note.tempo ≠ st.bpm →
        st1.bpm = note.tempo ∧
        st1.track.events = st.track.events ++ varint_bytes (d % 2 ^ 32) ++
          [0xff, 0x51, 0x03, ((60000000 / note.tempo) >>> 16) &&& 0xff,
            ((60000000 / note.tempo) >>> 8) &&& 0xff, (60000000 / note.tempo) &&& 0xff] ++
          (if note.pitch % 256 ≤ 127
            then [0x00, 0x90, note.pitch % 256, min (note.velocity % 256) 127] else [])) ∧
      (¬ (note.tempo ≠ 0 ∧ note.tempo ≠ st.bpm) →
        st1.bpm = st.bpm ∧ st1.ticks_per_sec = st.ticks_per_sec ∧
        st1.track.events = st.track.events ++
          (if note.pitch % 256 ≤ 127
            then varint_bytes (d % 2 ^ 32) ++
              [0x90, note.pitch % 256, min (note.velocity % 256) 127]
            else [])) :=
  tempo_event_aux ppq trk earlier st note d hreach hd

/-- C9 (witness). After the note (60, 0.0-0.5 s, tempo 120) at 96 PPQ, the note
(64, 0.5-1.0 s) with tempo 150: its start delta is `240 * 0.5 - 96 = 24`. -/
theorem gen_midi_file_tempo_event_witness :
    (gen_midi_loop 96 (gen_initial_state 96 (init_miditrack ⟨[], 0, [], 0⟩ 0).2)
        [⟨60, 100, 120, 0, 1 / 2⟩] =
      some (0, ⟨120, 192, 0, 96,
        ⟨[0x4d, 0x54, 0x72, 0x6b], 0, [0x00, 0x90, 60, 100, 0x60, 0x80, 60, 100], 16384⟩⟩) ∧
     double_to_ulong (delta_value (gen_update_tempo 96 ⟨120, 192, 0, 96,
        ⟨[0x4d, 0x54, 0x72, 0x6b], 0, [0x00, 0x90, 60, 100, 0x60, 0x80, 60, 100], 16384⟩⟩
        ⟨64, 100, 150, 1 / 2, 1⟩) (⟨64, 100, 150, 1 / 2, 1⟩ : note_t).start_sec) = some 24) ∧
    ∃ st1, gen_note_begin 96 ⟨120, 192, 0, 96,
        ⟨[0x4d, 0x54, 0x72, 0x6b], 0, [0x00, 0x90, 60, 100, 0x60, 0x80, 60, 100], 16384⟩⟩
        ⟨64, 100, 150, 1 / 2, 1⟩
        = some (if (⟨64, 100, 150, 1 / 2, 1⟩ : note_t).pitch % 256 ≤ 127 then 0 else 1, st1) ∧
      ((⟨64, 100, 150, 1 / 2, 1⟩ : note_t).tempo ≠ 0 ∧
        (⟨64, 100, 150, 1 / 2, 1⟩ : note_t).tempo ≠ (⟨120, 192, 0, 96,
          ⟨[0x4d, 0x54, 0x72, 0x6b], 0, [0x00, 0x90, 60, 100, 0x60, 0x80, 60, 100], 16384⟩⟩
            : gen_state).bpm →
        st1.bpm = (⟨64, 100, 150, 1 / 2, 1⟩ : note_t).tempo ∧
        st1.track.events = (⟨120, 192, 0, 96,
          ⟨[0x4d, 0x54, 0x72, 0x6b], 0, [0x00, 0x90, 60, 100, 0x60, 0x80, 60, 100], 16384⟩⟩
            : gen_state).track.events ++ varint_bytes (24 % 2 ^ 32) ++
          [0xff, 0x51, 0x03,
            ((60000000 / (⟨64, 100, 150, 1 / 2, 1⟩ : note_t).tempo) >>> 16) &&& 0xff,
            ((60000000 / (⟨64, 100, 150, 1 / 2, 1⟩ : note_t).tempo) >>> 8) &&& 0xff,
            (60000000 / (⟨64, 100, 150, 1 / 2, 1⟩ : note_t).tempo) &&& 0xff] ++
          (if (⟨64, 100, 150, 1 / 2, 1⟩ : note_t).pitch % 256 ≤ 127
            then [0x00, 0x90, (⟨64, 100, 150, 1 / 2, 1⟩ : note_t).pitch % 256,
              min ((⟨64, 100, 150, 1 / 2, 1⟩ : note_t).velocity % 256) 127] else [])) ∧
      (¬ ((⟨64, 100, 150, 1 / 2, 1⟩ : note_t).tempo ≠ 0 ∧
        (⟨64, 100, 150, 1 / 2, 1⟩ : note_t).tempo ≠ (⟨120, 192, 0, 96,
          ⟨[0x4d, 0x54, 0x72, 0x6b], 0, [0x00, 0x90, 60, 100, 0x60, 0x80, 60, 100], 16384⟩⟩
            : gen_state).bpm) →
        st1.bpm = (⟨120, 192, 0, 96,
          ⟨[0x4d, 0x54, 0x72, 0x6b], 0, [0x00, 0x90, 60, 100, 0x60, 0x80, 60, 100], 16384⟩⟩
            : gen_state).bpm ∧
        st1.ticks_per_sec = (⟨120, 192, 0, 96,
          ⟨[0x4d, 0x54, 0x72, 0x6b], 0, [0x00, 0x90, 60, 100, 0x60, 0x80, 60, 100], 16384⟩⟩
            : gen_state).ticks_per_sec ∧
        st1.track.events = (⟨120, 192, 0, 96,
          ⟨[0x4d, 0x54, 0x72, 0x6b], 0, [0x00, 0x90, 60, 100, 0x60, 0x80, 60, 100], 16384⟩⟩
            : gen_state).track.events ++
          (if (⟨64, 100, 150, 1 / 2, 1⟩ : note_t).pitch % 256 ≤ 127
            then varint_bytes (24 % 2 ^ 32) ++
              [0x90, (⟨64, 100, 150, 1 / 2, 1⟩ : note_t).pitch % 256,
                min ((⟨64, 100, 150, 1 / 2, 1⟩ : note_t).velocity % 256) 127]
            else [])) := by
  have hd : double_to_ulong (delta_value (gen_update_tempo 96 ⟨120, 192, 0, 96,
        ⟨[0x4d, 0x54, 0x72, 0x6b], 0, [0x00, 0x90, 60, 100, 0x60, 0x80, 60, 100], 16384⟩⟩
        ⟨64, 100, 150, 1 / 2, 1⟩) (⟨64, 100, 150, 1 / 2, 1⟩ : note_t).start_sec) = some 24 :=
    double_to_ulong_of_floor _ 24 (by norm_num [delta_value, gen_update_tempo])
      (by norm_num [delta_value, gen_update_tempo]) (by norm_num)
  exact ⟨⟨one_note_run, hd⟩,
    gen_midi_file_tempo_event 96 (init_miditrack ⟨[], 0, [], 0⟩ 0).2 [⟨60, 100, 120, 0, 1 / 2⟩]
      _ ⟨64, 100, 150, 1 / 2, 1⟩ 24 one_note_run hd⟩

/-- C10 (counterexample). A single note of pitch 256 (which exceeds 127) is translated as
pitch 0: `gen_midi_file` returns 0 and finalises the track. And for a single note of pitch 200
with tempo 150, the translation fails but the set-tempo event of that note is on the track. -/
theorem gen_midi_file_bad_pitch_not_as_claimed :
    (∃ out, gen_midi_file false false (fun _ _ => 0) (fun _ => ⟨[], 0, [], 0⟩)
        [⟨256, 100, 120, 1, 2⟩] 96 = some out ∧
      out.ret = 0 ∧
      out.midif.tracks.map (fun t => t.events) =
        [[0x80, 0x40, 0x90, 0, 100, 0x80, 0x40, 0x80, 0, 100, 0x00, 0xff, 0x2f, 0x00]]) ∧
    (∃ out, gen_midi_file false false (fun _ _ => 0) (fun _ => ⟨[], 0, [], 0⟩)
        [⟨200, 100, 150, 1, 2⟩] 96 = some out ∧
      out.ret = 1 ∧
      out.midif.tracks.map (fun t => t.events) =
        [[0x80, 0x70, 0xff, 0x51, 0x03, 0x06, 0x1a, 0x80]]) := by
  refine ⟨wrapped_pitch_run, ?_⟩
  have hd : double_to_ulong (delta_value (gen_update_tempo
      (if (96 : Nat) = 0 then MIDI_PPQ_DEFAULT else 96)
      (gen_initial_state 96 (init_miditrack ⟨[], 0, [], 0⟩ 0).2) ⟨200, 100, 150, 1, 2⟩)
      (⟨200, 100, 150, 1, 2⟩ : note_t).start_sec) = some 240 :=
    double_to_ulong_of_floor _ 240
      (by norm_num [delta_value, gen_update_tempo, gen_initial_state, MIDI_BPM_DEFAULT])
      (by norm_num [delta_value, gen_update_tempo, gen_initial_state, MIDI_BPM_DEFAULT])
      (by norm_num)
  obtain ⟨out, ho, hr, _, hev, _⟩ :=
    bad_pitch_aux false false (fun _ _ => 0) (fun _ => ⟨[], 0, [], 0⟩)
        96 [] [] ⟨200, 100, 150, 1, 2⟩
      (gen_initial_state 96 (init_miditrack ⟨[], 0, [], 0⟩ 0).2) 240 rfl (by norm_num) hd
  refine ⟨out, ho, hr, ?_⟩
  rw [hev]
  simp [gen_initial_state, init_miditrack, MIDI_BPM_DEFAULT, varint_bytes_240]
  decide

/-- C10 (amended). For every note sequence `earlier ++ bad :: later` given to `gen_midi_file`
in which the notes of `earlier` are translated (leaving state `st`), the pitch of `bad`, taken
as an `unsigned char` (modulo 256), exceeds 127, and the start delta of `bad` is defined:
translation returns failure at `bad`; no note-on or note-off event of `bad` and no event of a
later note is on the track (only the set-tempo event of `bad` when its tempo is new), the
track is not finalised (no end-of-track event, `chunksize` never set) and nothing is written. -/
theorem gen_midi_file_bad_pitch (is_big_endian host_big_endian : Bool) (fill : Nat → Nat → Nat)
    (raw : Nat → miditrack_t) (ppq : Nat)
    (earlier later : List note_t) (bad : note_t) (st : gen_state) (d : Nat)
    (hreach : gen_midi_loop (if ppq = 0 then MIDI_PPQ_DEFAULT else ppq)
      (gen_initial_state (if ppq = 0 then MIDI_PPQ_DEFAULT else ppq)
        (init_miditrack (raw 0) 0).2) earlier = some (0, st))
    (hbad : 127 < bad.pitch % 256)
    (hd : double_to_ulong (delta_value
      (gen_update_tempo (if ppq = 0 then MIDI_PPQ_DEFAULT else ppq) st bad) bad.start_sec)
        = some d) :
    ∃ out, gen_midi_file is_big_endian host_big_endian fill raw
        (earlier ++ bad :: later) ppq = some out ∧
      out.ret = 1 ∧ out.written = [] ∧
      out.midif.tracks.map (fun t => t.events) =
        [st.track.events ++
          (if bad.tempo ≠ st.bpm ∧ bad.tempo > 0
            then varint_bytes (d % 2 ^ 32) ++
              [0xff, 0x51, 0x03, ((60000000 / bad.tempo) >>> 16) &&& 0xff,
                ((60000000 / bad.tempo) >>> 8) &&& 0xff, (60000000 / bad.tempo) &&& 0xff]
            else [])] ∧
      out.midif.tracks.map (fun t => t.chunksize) = [(raw 0).chunksize] :=
  bad_pitch_aux is_big_endian host_big_endian fill raw ppq earlier later bad st d hreach hbad hd

/-- C10 (witness). After the note (60, 0.0-0.5 s, tempo 120) at 96 PPQ, a note of pitch 200
at 0.5 s with tempo 150, followed by one more note. -/
theorem gen_midi_file_bad_pitch_witness :
    (gen_midi_loop (if (96 : Nat) = 0 then MIDI_PPQ_DEFAULT else 96)
        (gen_initial_state (if (96 : Nat) = 0 then MIDI_PPQ_DEFAULT else 96)
          (init_miditrack ((fun _ => ⟨[], 0, [], 0⟩ : Nat → miditrack_t) 0) 0).2)
        [⟨60, 100, 120, 0, 1 / 2⟩] =
      some (0, ⟨120, 192, 0, 96,
        ⟨[0x4d, 0x54, 0x72, 0x6b], 0, [0x00, 0x90, 60, 100, 0x60, 0x80, 60, 100], 16384⟩⟩) ∧
     127 < (⟨200, 100, 150, 1 / 2, 1⟩ : note_t).pitch % 256 ∧
     double_to_ulong (delta_value
        (gen_update_tempo (if (96 : Nat) = 0 then MIDI_PPQ_DEFAULT else 96) ⟨120, 192, 0, 96,
          ⟨[0x4d, 0x54, 0x72, 0x6b], 0, [0x00, 0x90, 60, 100, 0x60, 0x80, 60, 100], 16384⟩⟩
          ⟨200, 100, 150, 1 / 2, 1⟩) (⟨200, 100, 150, 1 / 2, 1⟩ : note_t).start_sec)
        = some 24) ∧
    ∃ out, gen_midi_file false false (fun _ _ => 0) (fun _ => ⟨[], 0, [], 0⟩)
        ([⟨60, 100, 120, 0, 1 / 2⟩] ++ ⟨200, 100, 150, 1 / 2, 1⟩ :: [⟨67, 100, 150, 1, 3 / 2⟩])
        96 = some out ∧
      out.ret = 1 ∧ out.written = [] ∧
      out.midif.tracks.map (fun t => t.events) =
        [(⟨120, 192, 0, 96,
          ⟨[0x4d, 0x54, 0x72, 0x6b], 0, [0x00, 0x90, 60, 100, 0x60, 0x80, 60, 100], 16384⟩⟩
            : gen_state).track.events ++
          (if (⟨200, 100, 150, 1 / 2, 1⟩ : note_t).tempo ≠ (⟨120, 192, 0, 96,
              ⟨[0x4d, 0x54, 0x72, 0x6b], 0, [0x00, 0x90, 60, 100, 0x60, 0x80, 60, 100], 16384⟩⟩
                : gen_state).bpm ∧ (⟨200, 100, 150, 1 / 2, 1⟩ : note_t).tempo > 0
            then varint_bytes (24 % 2 ^ 32) ++
              [0xff, 0x51, 0x03,
                ((60000000 / (⟨200, 100, 150, 1 / 2, 1⟩ : note_t).tempo) >>> 16) &&& 0xff,
                ((60000000 / (⟨200, 100, 150, 1 / 2, 1⟩ : note_t).tempo) >>> 8) &&& 0xff,
                (60000000 / (⟨200, 100, 150, 1 / 2, 1⟩ : note_t).tempo) &&& 0xff]
            else [])] ∧
      out.midif.tracks.map (fun t => t.chunksize) =
        [((fun _ => ⟨[], 0, [], 0⟩ : Nat → miditrack_t) 0).chunksize] := by
  have hd : double_to_ulong (delta_value
        (gen_update_tempo (if (96 : Nat) = 0 then MIDI_PPQ_DEFAULT else 96) ⟨120, 192, 0, 96,
          ⟨[0x4d, 0x54, 0x72, 0x6b], 0, [0x00, 0x90, 60, 100, 0x60, 0x80, 60, 100], 16384⟩⟩
          ⟨200, 100, 150, 1 / 2, 1⟩) (⟨200, 100, 150, 1 / 2, 1⟩ : note_t).start_sec)
        = some 24 :=
    double_to_ulong_of_floor _ 24 (by norm_num [delta_value, gen_update_tempo])
      (by norm_num [delta_value, gen_update_tempo]) (by norm_num)
  exact ⟨⟨one_note_run, by norm_num, hd⟩,
    gen_midi_file_bad_pitch false false (fun _ _ => 0) (fun _ => ⟨[], 0, [], 0⟩)
        96 [⟨60, 100, 120, 0, 1 / 2⟩]
      [⟨67, 100, 150, 1, 3 / 2⟩] ⟨200, 100, 150, 1 / 2, 1⟩ _ 24 one_note_run (by norm_num) hd⟩

/-! ## Lemmas on `finalise_miditrack` -/

theorem finalise_miditrack_eq (trk : miditrack_t) (h3 : 3 ≤ trk.events.length) :
    finalise_miditrack trk =
      match (if endtrack_missing trk then miditrack_end trk 0 else some (0, trk)) with
      | none => none
      | some (_, trk1) => some (0, finalise_shrink trk1) := by
  unfold finalise_miditrack
  rw [if_neg (by omega)]
  rfl

theorem miditrack_ext (a b : miditrack_t) (h1 : a.chunkid = b.chunkid)
    (h2 : a.chunksize = b.chunksize) (h3 : a.events = b.events)
    (h4 : a.events_size = b.events_size) : a = b := by
  cases a; cases b; simp_all

theorem finalise_shrink_events (trk : miditrack_t) :
    (finalise_shrink trk).events = trk.events ∧ (finalise_shrink trk).chunkid = trk.chunkid := by
  unfold finalise_shrink
  dsimp only
  by_cases h : (if miditrack_buffer_remaining trk < 2 ^ 63
      then (miditrack_buffer_remaining trk : Int)
      else (miditrack_buffer_remaining trk : Int) - 2 ^ 64) > 0
  · simp only [if_pos h, miditrack_buffer_increase]; exact ⟨trivial, trivial⟩
  · simp only [if_neg h]; exact ⟨trivial, trivial⟩

theorem finalise_shrink_chunksize (trk : miditrack_t) :
    (finalise_shrink trk).chunksize = (finalise_shrink trk).events_size % 2 ^ 32 := by
  unfold finalise_shrink
  dsimp only

/-- The allocation size after the second half of `finalise_miditrack`. -/
theorem finalise_shrink_size (trk : miditrack_t) :
    (finalise_shrink trk).events_size =
      if 0 < miditrack_buffer_remaining trk ∧ miditrack_buffer_remaining trk < 2 ^ 63
      then trk.events.length % 2 ^ 64 else trk.events_size := by
  have hrem : miditrack_buffer_remaining trk =
      (trk.events_size + 2 ^ 64 - trk.events.length % 2 ^ 64) % 2 ^ 64 := rfl
  have hlt64 : miditrack_buffer_remaining trk < 2 ^ 64 := by rw [hrem]; omega
  by_cases hc : 0 < miditrack_buffer_remaining trk ∧ miditrack_buffer_remaining trk < 2 ^ 63
  · have hd : (if miditrack_buffer_remaining trk < 2 ^ 63
        then (miditrack_buffer_remaining trk : Int)
        else (miditrack_buffer_remaining trk : Int) - 2 ^ 64) > 0 := by
      rw [if_pos hc.2]; omega
    have hL : (finalise_shrink trk).events_size =
        (((trk.events_size : Int) + -(miditrack_buffer_remaining trk : Int)) % 2 ^ 64).toNat := by
      unfold finalise_shrink
      dsimp only
      rw [if_pos hd]
      simp only [miditrack_buffer_increase, if_pos hc.2]
    rw [hL, if_pos hc, hrem]
    omega
  · have hd : ¬ (if miditrack_buffer_remaining trk < 2 ^ 63
        then (miditrack_buffer_remaining trk : Int)
        else (miditrack_buffer_remaining trk : Int) - 2 ^ 64) > 0 := by
      by_cases hlt : miditrack_buffer_remaining trk < 2 ^ 63
      · rw [if_pos hlt]
        have : ¬ 0 < miditrack_buffer_remaining trk := fun h => hc ⟨h, hlt⟩
        omega
      · rw [if_neg hlt]; omega
    have hL : (finalise_shrink trk).events_size = trk.events_size := by
      unfold finalise_shrink
      dsimp only
      rw [if_neg hd]
    rw [hL, if_neg hc]

/-- Shrinking twice is shrinking once. -/
theorem finalise_shrink_idem (trk : miditrack_t) :
    finalise_shrink (finalise_shrink trk) = finalise_shrink trk := by
  have hsz : (finalise_shrink (finalise_shrink trk)).events_size
      = (finalise_shrink trk).events_size := by
    rw [finalise_shrink_size (finalise_shrink trk)]
    have hrem' : miditrack_buffer_remaining (finalise_shrink trk) =
        ((finalise_shrink trk).events_size + 2 ^ 64 - trk.events.length % 2 ^ 64) % 2 ^ 64 := by
      simp only [miditrack_buffer_remaining, (finalise_shrink_events trk).1]
    have hrem : miditrack_buffer_remaining trk =
        (trk.events_size + 2 ^ 64 - trk.events.length % 2 ^ 64) % 2 ^ 64 := rfl
    have hs := finalise_shrink_size trk
    by_cases hc : 0 < miditrack_buffer_remaining trk ∧ miditrack_buffer_remaining trk < 2 ^ 63
    · rw [if_pos hc] at hs
      rw [if_neg]
      rw [hrem', hs]
      omega
    · rw [if_neg hc] at hs
      rw [if_neg]
      rw [hrem', hs, ← hrem]
      exact hc
  apply miditrack_ext
  · rw [(finalise_shrink_events _).2]
  · rw [finalise_shrink_chunksize, hsz, ← finalise_shrink_chunksize]
  · rw [(finalise_shrink_events _).1]
  · exact hsz

/-- With the cursor inside the buffer, the buffer is shrunk to the cursor. -/
theorem finalise_shrink_fits (trk : miditrack_t) (hcur : trk.events.length ≤ trk.events_size)
    (hsize : trk.events_size < 2 ^ 64) (hfree : trk.events_size - trk.events.length < 2 ^ 63) :
    (finalise_shrink trk).events_size = trk.events.length := by
  have hrem : miditrack_buffer_remaining trk =
      (trk.events_size + 2 ^ 64 - trk.events.length % 2 ^ 64) % 2 ^ 64 := rfl
  rw [finalise_shrink_size]
  by_cases hc : 0 < miditrack_buffer_remaining trk ∧ miditrack_buffer_remaining trk < 2 ^ 63
  · rw [if_pos hc]; omega
  · rw [if_neg hc]
    rw [hrem] at hc
    omega

theorem endtrack_present_of_suffix (trk : miditrack_t) (pre : List Nat)
    (h : trk.events = pre ++ [0xff, 0x2f, 0x00]) : ¬ endtrack_missing trk := by
  unfold endtrack_missing
  have hl : trk.events.length = pre.length + 3 := by rw [h]; simp
  have e3 : pre.length + 3 - 3 = pre.length := by omega
  have e2 : pre.length + 3 - 2 = pre.length + 1 := by omega
  have e1 : pre.length + 3 - 1 = pre.length + 2 := by omega
  rw [hl, e3, e2, e1, h, List.getD_append_right _ _ _ _ (by omega),
    List.getD_append_right _ _ _ _ (by omega), List.getD_append_right _ _ _ _ (by omega)]
  simp [MIDIEVENT_META, META_1_ENDTRACK, META_2_ENDTRACK]

theorem suffix_of_endtrack_present (trk : miditrack_t) (h3 : 3 ≤ trk.events.length)
    (h : ¬ endtrack_missing trk) : ∃ pre, trk.events = pre ++ [0xff, 0x2f, 0x00] := by
  unfold endtrack_missing at h
  simp only [MIDIEVENT_META, META_1_ENDTRACK, META_2_ENDTRACK, ne_eq, not_or, not_not] at h
  obtain ⟨ha, hb, hc⟩ := h
  refine ⟨trk.events.take (trk.events.length - 3), ?_⟩
  have hsplit := (List.take_append_drop (trk.events.length - 3) trk.events).symm
  have hdrop : trk.events.drop (trk.events.length - 3) = [0xff, 0x2f, 0x00] := by
    apply List.ext_getElem
    · simp; omega
    · intro i h1 h2
      simp only [List.length_cons, List.length_nil] at h2
      have hi : i = 0 ∨ i = 1 ∨ i = 2 := by omega
      rw [List.getElem_drop]
      rcases hi with rfl | rfl | rfl
      · rw [List.getD_eq_getElem _ _ (by omega)] at ha
        simpa using ha
      · rw [List.getD_eq_getElem _ _ (by omega)] at hb
        have e : trk.events.length - 3 + 1 = trk.events.length - 2 := by omega
        simp only [e]
        simpa using hb
      · rw [List.getD_eq_getElem _ _ (by omega)] at hc
        have e : trk.events.length - 3 + 2 = trk.events.length - 1 := by omega
        simp only [e]
        simpa using hc
  rw [hdrop] at hsplit
  exact hsplit

theorem miditrack_end_ok (trk : miditrack_t) :
    ∃ trk1, miditrack_end trk 0 = some (0, trk1) ∧
      trk1.events = trk.events ++ [0x00, 0xff, 0x2f, 0x00] ∧ trk1.chunkid = trk.chunkid ∧
      trk1.events_size =
        (if miditrack_buffer_remaining trk < 263
          then (((trk.events_size : Int) + 4096) % 2 ^ 64).toNat else trk.events_size) := by
  have hv : enc_varint32 0 = some (1, [0]) := enc_varint32_small 0 (by decide)
  refine ⟨⟨trk.chunkid, trk.chunksize, trk.events ++ [0x00, 0xff, 0x2f, 0x00],
    if miditrack_buffer_remaining trk < 263
      then (((trk.events_size : Int) + 4096) % 2 ^ 64).toNat else trk.events_size⟩,
    ?_, rfl, rfl, rfl⟩
  by_cases hr : miditrack_buffer_remaining trk < 263
  · simp [miditrack_end, miditrack_addevent, hv, if_pos hr, miditrack_buffer_increase,
      MIDIEVENTS_BUFINCR, MIDIEVENT_META, META_1_ENDTRACK, META_2_ENDTRACK]
  · simp [miditrack_end, miditrack_addevent, hv, if_neg hr,
      MIDIEVENT_META, META_1_ENDTRACK, META_2_ENDTRACK]

/-- The result of `finalise_miditrack` on a track that already ends with end-of-track. -/
theorem finalise_miditrack_ended (trk : miditrack_t) (h3 : 3 ≤ trk.events.length)
    (h : ¬ endtrack_missing trk) :
    finalise_miditrack trk = some (0, finalise_shrink trk) := by
  rw [finalise_miditrack_eq trk h3, if_neg h]

/-- The result of `finalise_miditrack` on a track of at least three bytes that does not end
with end-of-track. -/
theorem finalise_miditrack_missing (trk : miditrack_t) (h3 : 3 ≤ trk.events.length)
    (h : endtrack_missing trk) :
    ∃ trk1, miditrack_end trk 0 = some (0, trk1) ∧
      trk1.events = trk.events ++ [0x00, 0xff, 0x2f, 0x00] ∧
      finalise_miditrack trk = some (0, finalise_shrink trk1) := by
  obtain ⟨trk1, h1, h2, _, _⟩ := miditrack_end_ok trk
  refine ⟨trk1, h1, h2, ?_⟩
  rw [finalise_miditrack_eq trk h3, if_pos h, h1]

/-- Whatever the track, the result of `finalise_miditrack` ends with end-of-track. -/
theorem finalise_miditrack_result (trk : miditrack_t) (h3 : 3 ≤ trk.events.length) :
    ∃ trk0, finalise_miditrack trk = some (0, finalise_shrink trk0) ∧
      3 ≤ trk0.events.length ∧ ¬ endtrack_missing trk0 ∧ trk0.chunkid = trk.chunkid ∧
      trk0.events = trk.events ++
        (if endtrack_missing trk then [0x00, 0xff, 0x2f, 0x00] else []) ∧
      trk0.events_size =
        (if endtrack_missing trk ∧ miditrack_buffer_remaining trk < 263
          then (((trk.events_size : Int) + 4096) % 2 ^ 64).toNat else trk.events_size) := by
  by_cases h : endtrack_missing trk
  · obtain ⟨trk1, h1, h2, hid, hsz⟩ := miditrack_end_ok trk
    refine ⟨trk1, ?_, by rw [h2]; simp, ?_, hid, by rw [h2, if_pos h], ?_⟩
    · rw [finalise_miditrack_eq trk h3, if_pos h, h1]
    · exact endtrack_present_of_suffix trk1 (trk.events ++ [0x00]) (by rw [h2]; simp)
    · rw [hsz]
      by_cases hr : miditrack_buffer_remaining trk < 263
      · rw [if_pos hr, if_pos ⟨h, hr⟩]
      · rw [if_neg hr, if_neg (fun x => hr x.2)]
  · refine ⟨trk, finalise_miditrack_ended trk h3 h, h3, h, rfl, by rw [if_neg h]; simp, ?_⟩
    rw [if_neg (fun x => h x.1)]

theorem endtrack_missing_shrink (trk : miditrack_t) :
    endtrack_missing (finalise_shrink trk) ↔ endtrack_missing trk := by
  unfold endtrack_missing
  rw [(finalise_shrink_events trk).1]

/-- Finalising a finalised track changes nothing. -/
theorem finalise_twice_aux (trk : miditrack_t) (h3 : 3 ≤ trk.events.length) :
    ∃ once, finalise_miditrack trk = some (0, once) ∧
      finalise_miditrack once = some (0, once) := by
  obtain ⟨trk0, h0, hlen, hend, _⟩ := finalise_miditrack_result trk h3
  refine ⟨finalise_shrink trk0, h0, ?_⟩
  rw [finalise_miditrack_ended (finalise_shrink trk0)
    (by rw [(finalise_shrink_events trk0).1]; exact hlen)
    (by rw [endtrack_missing_shrink]; exact hend), finalise_shrink_idem]

/-- With the cursor inside the buffer and the payload short enough for the 32-bit `chunksize`,
finalisation leaves `chunksize` and `events_size` equal to the number of payload bytes. -/
theorem finalise_fits_aux (trk : miditrack_t) (h3 : 3 ≤ trk.events.length)
    (hcur : trk.events.length ≤ trk.events_size) (hsize : trk.events_size < 2 ^ 63)
    (h32 : trk.events.length + 4 < 2 ^ 32) :
    ∃ trk1, finalise_miditrack trk = some (0, trk1) ∧
      trk1.chunksize = trk1.events.length ∧ trk1.events_size = trk1.events.length ∧
      trk1.chunkid = trk.chunkid ∧
      trk1.events = trk.events ++
        (if endtrack_missing trk then [0x00, 0xff, 0x2f, 0x00] else []) := by
  obtain ⟨trk0, h0, _, _, hid, hev, hsz⟩ := finalise_miditrack_result trk h3
  have hrem : miditrack_buffer_remaining trk =
      (trk.events_size + 2 ^ 64 - trk.events.length % 2 ^ 64) % 2 ^ 64 := rfl
  have hlen0 : trk0.events.length =
      trk.events.length + (if endtrack_missing trk then 4 else 0) := by
    rw [hev]; split <;> simp
  have hfit : trk0.events.length ≤ trk0.events_size ∧ trk0.events_size < 2 ^ 64 ∧
      trk0.events_size - trk0.events.length < 2 ^ 63 := by
    rw [hlen0, hsz]
    by_cases hm : endtrack_missing trk
    · by_cases hr : miditrack_buffer_remaining trk < 263
      · rw [if_pos hm, if_pos ⟨hm, hr⟩]
        rw [hrem] at hr
        omega
      · rw [if_pos hm, if_neg (fun x => hr x.2)]
        rw [hrem] at hr
        omega
    · rw [if_neg hm, if_neg (fun x => hm x.1)]
      omega
  have hs := finalise_shrink_fits trk0 hfit.1 hfit.2.1 hfit.2.2
  have he := (finalise_shrink_events trk0).1
  refine ⟨finalise_shrink trk0, h0, ?_, by rw [hs, he], ?_, by rw [he, hev]⟩
  · rw [finalise_shrink_chunksize, hs, he]
    apply Nat.mod_eq_of_lt
    rw [hlen0]
    split <;> omega
  · rw [(finalise_shrink_events trk0).2, hid]

/-! ## Lemmas on byte order -/

theorem and_ff (x : Nat) : x &&& 0xff = x % 256 :=
  Nat.and_pow_two_sub_one_eq_mod x 8

theorem shl_or_byte (a b k : Nat) (hb : b < 2 ^ k) : a <<< k ||| b = a * 2 ^ k + b := by
  rw [Nat.shiftLeft_eq, Nat.mul_comm, Nat.mul_add_lt_is_or hb]

theorem byteswap16_eq (v : Nat) (hv : v < 65536) :
    byteswap16 v = v % 256 * 256 + v / 256 := by
  have h2 : v >>> 8 = v / 256 := by rw [Nat.shiftRight_eq_div_pow]
  have hq : v / 256 < 256 := Nat.div_lt_of_lt_mul hv
  have hm : v / 256 % 256 = v / 256 := Nat.mod_eq_of_lt hq
  have hr : v % 256 < 256 := Nat.mod_lt _ (by decide)
  simp only [byteswap16, and_ff, h2, hm]
  rw [shl_or_byte _ _ 8 hq]
  simp only [Nat.reducePow]
  exact Nat.mod_eq_of_lt (by omega)

theorem byteswap32_eq (v : Nat) (hv : v < 4294967296) :
    byteswap32 v =
      v % 256 * 16777216 + v / 256 % 256 * 65536 + v / 65536 % 256 * 256 + v / 16777216 := by
  have s1 : v >>> 8 = v / 256 := Nat.shiftRight_eq_div_pow v 8
  have s2 : v >>> 16 = v / 65536 := Nat.shiftRight_eq_div_pow v 16
  have s3 : v >>> 24 = v / 16777216 := Nat.shiftRight_eq_div_pow v 24
  have hq : v / 16777216 < 256 := Nat.div_lt_of_lt_mul hv
  have hm : v / 16777216 % 256 = v / 16777216 := Nat.mod_eq_of_lt hq
  have r0 : v % 256 < 256 := Nat.mod_lt _ (by decide)
  have r1 : v / 256 % 256 < 256 := Nat.mod_lt _ (by decide)
  have r2 : v / 65536 % 256 < 256 := Nat.mod_lt _ (by decide)
  simp only [byteswap32, and_ff, s1, s2, s3, hm]
  rw [Nat.or_assoc, Nat.or_assoc, shl_or_byte (v / 65536 % 256) _ 8 hq,
    shl_or_byte (v / 256 % 256) _ 16 (by simp only [Nat.reducePow]; omega),
    shl_or_byte (v % 256) _ 24 (by simp only [Nat.reducePow]; omega)]
  simp only [Nat.reducePow]
  rw [Nat.mod_eq_of_lt (by omega)]
  omega

theorem swapped16_bytes (v : Nat) (hv : v < 65536) :
    (v % 256 * 256 + v / 256) % 256 = v / 256 ∧
    (v % 256 * 256 + v / 256) / 256 % 256 = v % 256 := by
  have hq : v / 256 < 256 := Nat.div_lt_of_lt_mul hv
  have e1 : (v % 256 * 256 + v / 256) / 256 = v % 256 := by
    rw [Nat.add_comm, Nat.add_mul_div_right _ _ (by decide : 0 < 256), Nat.div_eq_of_lt hq]
    omega
  constructor
  · rw [Nat.add_comm, Nat.add_mul_mod_self_right]
    exact Nat.mod_eq_of_lt hq
  · rw [e1]; exact Nat.mod_mod _ _

/-- The memory image of `be16 v` is `v` most significant byte first when the macro
`IS_BIG_ENDIAN` states the byte order of the host. -/
theorem host_bytes16_be16 (big_endian : Bool) (v : Nat) (hv : v < 2 ^ 16) :
    host_bytes16 big_endian (be16 big_endian v) = [v / 256, v % 256] := by
  have hv1 : v < 65536 := hv
  have hq : v / 256 < 256 := Nat.div_lt_of_lt_mul hv1
  cases big_endian
  · simp only [host_bytes16, be16, byteswap16_eq v hv1, Bool.false_eq_true, if_false]
    rw [(swapped16_bytes v hv1).1, (swapped16_bytes v hv1).2]
  · simp only [host_bytes16, be16, if_true]
    rw [Nat.mod_eq_of_lt hq]

theorem four_bytes (b0 b1 b2 b3 : Nat) (h0 : b0 < 256) (h1 : b1 < 256) (h2 : b2 < 256)
    (h3 : b3 < 256) :
    (b0 * 16777216 + b1 * 65536 + b2 * 256 + b3) % 256 = b3 ∧
    (b0 * 16777216 + b1 * 65536 + b2 * 256 + b3) / 256 % 256 = b2 ∧
    (b0 * 16777216 + b1 * 65536 + b2 * 256 + b3) / 65536 % 256 = b1 ∧
    (b0 * 16777216 + b1 * 65536 + b2 * 256 + b3) / 16777216 % 256 = b0 := by
  refine ⟨by omega, by omega, by omega, by omega⟩

/-- The memory image of `be32 v` is `v` most significant byte first when the macro
`IS_BIG_ENDIAN` states the byte order of the host. -/
theorem host_bytes32_be32 (big_endian : Bool) (v : Nat) (hv : v < 2 ^ 32) :
    host_bytes32 big_endian (be32 big_endian v) =
      [v / 2 ^ 24, v / 2 ^ 16 % 256, v / 2 ^ 8 % 256, v % 256] := by
  have hv1 : v < 4294967296 := hv
  have hq : v / 16777216 < 256 := Nat.div_lt_of_lt_mul hv1
  cases big_endian
  · have hb := four_bytes (v % 256) (v / 256 % 256) (v / 65536 % 256) (v / 16777216)
      (Nat.mod_lt _ (by decide)) (Nat.mod_lt _ (by decide)) (Nat.mod_lt _ (by decide)) hq
    simp only [host_bytes32, be32, byteswap32_eq v hv1, Bool.false_eq_true, if_false,
      Nat.reducePow]
    rw [hb.1, hb.2.1, hb.2.2.1, hb.2.2.2]
  · simp only [host_bytes32, be32, if_true, Nat.reducePow]
    rw [Nat.mod_eq_of_lt hq]

/-! ## Lemmas on headers, serialisation and event checks -/

theorem init_midiheader_aux (format ntracks nticks : Nat) :
    init_midiheader format ntracks nticks =
      (0, ⟨[0x4d, 0x54, 0x68, 0x64], 6, format,
        if ntracks = 0 then 1 else ntracks, if nticks = 0 then 96 else nticks⟩) := by
  have hf : (if format ≠ 0 then format else 0) = format := by
    by_cases h : format = 0 <;> simp [h]
  have hn : (if ntracks ≠ 0 then ntracks else 1) = if ntracks = 0 then 1 else ntracks := by
    by_cases h : ntracks = 0 <;> simp [h]
  have ht : (if nticks ≠ 0 then nticks else 96) = if nticks = 0 then 96 else nticks := by
    by_cases h : nticks = 0 <;> simp [h]
  simp only [init_midiheader, midiheader_getsize, hf, hn, ht]

/-- The header bytes when the macro `IS_BIG_ENDIAN` states the byte order of the host. -/
theorem write_midiheader_aux (big_endian : Bool) (format ntracks nticks : Nat)
    (hf : format < 2 ^ 16) (hn : ntracks < 2 ^ 16) (ht : nticks < 2 ^ 16) :
    write_midiheader big_endian big_endian (init_midiheader format ntracks nticks).2 =
      [0x4d, 0x54, 0x68, 0x64, 0x00, 0x00, 0x00, 0x06,
        format / 256, format % 256,
        (if ntracks = 0 then 1 else ntracks) / 256, (if ntracks = 0 then 1 else ntracks) % 256,
        (if nticks = 0 then 96 else nticks) / 256, (if nticks = 0 then 96 else nticks) % 256] := by
  have hn1 : (if ntracks = 0 then 1 else ntracks) < 2 ^ 16 := by split <;> omega
  have ht1 : (if nticks = 0 then 96 else nticks) < 2 ^ 16 := by split <;> omega
  rw [init_midiheader_aux]
  simp only [write_midiheader, host_bytes16_be16 big_endian _ hf,
    host_bytes16_be16 big_endian _ hn1, host_bytes16_be16 big_endian _ ht1,
    host_bytes32_be32 big_endian 6 (by norm_num)]
  simp

theorem host_bytes16_length (host_big_endian : Bool) (v : Nat) :
    (host_bytes16 host_big_endian v).length = 2 := by
  cases host_big_endian <;> rfl

theorem host_bytes32_length (host_big_endian : Bool) (v : Nat) :
    (host_bytes32 host_big_endian v).length = 4 := by
  cases host_big_endian <;> rfl

theorem write_midiheader_length (is_big_endian host_big_endian : Bool) (hdr : midiheader_t) :
    (write_midiheader is_big_endian host_big_endian hdr).length = hdr.chunkid.length + 10 := by
  simp only [write_midiheader, List.length_append, host_bytes16_length, host_bytes32_length]

theorem buffer_bytes_length (fill : Nat → Nat) (trk : miditrack_t) :
    (buffer_bytes fill trk).length = trk.events_size := by
  simp [buffer_bytes]

/-- The element of the buffer at an offset before the cursor is the payload byte. -/
theorem buffer_bytes_getD (fill : Nat → Nat) (trk : miditrack_t) (i : Nat)
    (hi : i < trk.events.length) (hcur : trk.events.length ≤ trk.events_size) :
    (buffer_bytes fill trk).getD i 0 = trk.events.getD i 0 := by
  have h1 : i < trk.events_size := by omega
  simp [buffer_bytes, List.getD_eq_getElem?_getD, List.getElem?_map, List.getElem?_range h1,
    List.getElem?_eq_getElem hi]

/-- The buffer starts with the payload when the cursor is within the allocation. -/
theorem buffer_bytes_take (fill : Nat → Nat) (trk : miditrack_t)
    (hcur : trk.events.length ≤ trk.events_size) :
    (buffer_bytes fill trk).take trk.events.length = trk.events := by
  apply List.ext_getElem?
  intro i
  by_cases hi : i < trk.events.length
  · have h1 : i < trk.events_size := by omega
    simp [buffer_bytes, List.getElem?_take, hi, List.getElem?_map, List.getElem?_range h1,
      List.getD_eq_getElem?_getD, List.getElem?_eq_getElem hi]
  · have h2 : trk.events.length ≤ i := by omega
    rw [List.getElem?_eq_none (by simp [buffer_bytes]; omega), List.getElem?_eq_none h2]

theorem finalise_miditrack_defined (trk trk1 : miditrack_t) (r : Nat)
    (h : finalise_miditrack trk = some (r, trk1)) : 3 ≤ trk.events.length := by
  by_contra hlt
  have hn : trk.events.length < 3 := by omega
  simp [finalise_miditrack, hn] at h

/-- What `finalise_miditrack` leaves of an initialised track: the chunk id, a chunk size and an
allocation that are the payload length. -/
theorem finalised_track_fitted (trk : miditrack_t)
    (hfin : ∃ trk0, trk0.chunkid = [0x4d, 0x54, 0x72, 0x6b] ∧
      trk0.events.length ≤ trk0.events_size ∧ trk0.events_size < 2 ^ 63 ∧
      trk0.events.length + 4 < 2 ^ 32 ∧ finalise_miditrack trk0 = some (0, trk)) :
    trk.chunkid = [0x4d, 0x54, 0x72, 0x6b] ∧
      trk.chunksize = trk.events.length ∧ trk.events_size = trk.events.length ∧
      trk.chunksize < 2 ^ 32 := by
  obtain ⟨trk0, hid, hcur, hsize, h32, hf⟩ := hfin
  have h3 := finalise_miditrack_defined trk0 trk 0 hf
  obtain ⟨trk1, h1, hc, hs, hi, he⟩ := finalise_fits_aux trk0 h3 hcur hsize h32
  rw [hf] at h1
  simp only [Option.some.injEq, Prod.mk.injEq, true_and] at h1
  subst h1
  refine ⟨by rw [hi, hid], hc, hs, ?_⟩
  rw [hc, he]
  split <;> simp <;> omega

/-- The number of bytes written for tracks whose allocation is the chunk size, whatever the
macro and the host. -/
theorem write_tracks_fitted_length (is_big_endian host_big_endian : Bool)
    (fill : Nat → Nat → Nat) :
    ∀ (trks : List miditrack_t) (t : Nat),
    (∀ trk ∈ trks, trk.chunkid.length = 4 ∧ trk.events_size = trk.chunksize) →
    (write_tracks is_big_endian host_big_endian fill t trks).length =
      (trks.map (fun trk => 8 + trk.chunksize)).sum
  | [], _, _ => rfl
  | trk :: rest, t, h => by
    obtain ⟨hid, hs⟩ := h trk (List.mem_cons_self _ _)
    have ih := write_tracks_fitted_length is_big_endian host_big_endian fill rest (t + 1)
      (fun u hu => h u (List.mem_cons_of_mem _ hu))
    simp only [write_tracks, write_miditrack, List.length_append, host_bytes32_length,
      buffer_bytes_length, ih, hid, hs, List.map_cons, List.sum_cons]

theorem write_tracks_status_ok (fd : Int) (hfd : 0 ≤ fd) (trks : List miditrack_t) :
    write_tracks_status fd trks = 0 := by
  induction trks with
  | nil => rfl
  | cons trk rest ih =>
    have h0 : write_miditrack_status trk fd = 0 := by
      simp only [write_miditrack_status]
      rw [if_neg (by omega)]
    simp only [write_tracks_status, h0, ne_eq, not_true_eq_false, if_false]
    exact ih

theorem write_midifile_status_aux (midif : midifile_t) (fd : Int) (hfd : 0 ≤ fd) :
    write_midifile_status midif fd = 0 := by
  have h0 : write_midiheader_status midif.header fd = 0 := by
    simp only [write_midiheader_status]
    rw [if_neg (by omega)]
  simp only [write_midifile_status, h0, ne_eq, not_true_eq_false, if_false]
  rw [if_neg (by omega)]
  exact write_tracks_status_ok fd hfd _

/-- The loop of `write_midifile` writes, for the track at index `t`, the chunk id, the memory
image of `be32(chunksize)` and the buffer of the track. -/
theorem write_tracks_enum (is_big_endian host_big_endian : Bool) (fill : Nat → Nat → Nat) :
    ∀ (trks : List miditrack_t) (t : Nat),
    write_tracks is_big_endian host_big_endian fill t trks =
      ((trks.enumFrom t).map (fun p =>
        p.2.chunkid ++ host_bytes32 host_big_endian (be32 is_big_endian p.2.chunksize)
          ++ buffer_bytes (fill p.1) p.2)).flatten
  | [], _ => rfl
  | trk :: rest, t => by
    simp only [write_tracks, write_miditrack, List.enumFrom_cons, List.map_cons,
      List.flatten_cons, write_tracks_enum is_big_endian host_big_endian fill rest (t + 1)]

/-- The bytes written for a file of one track. -/
theorem write_midifile_single (is_big_endian host_big_endian : Bool) (fill : Nat → Nat → Nat)
    (hdr : midiheader_t) (trk : miditrack_t) (h1 : hdr.ntracks = 1) :
    write_midifile is_big_endian host_big_endian fill ⟨hdr, [trk]⟩ =
      write_midiheader is_big_endian host_big_endian hdr ++
        (trk.chunkid ++ (host_bytes32 host_big_endian (be32 is_big_endian trk.chunksize)
          ++ buffer_bytes (fill 0) trk)) := by
  simp [write_midifile, write_tracks, write_miditrack, h1]

/-- What `write_midifile` does with any file, finalised or not, on a valid descriptor. -/
theorem write_midifile_any_aux (is_big_endian host_big_endian : Bool)
    (fill : Nat → Nat → Nat) (midif : midifile_t) (fd : Int) (hfd : 0 ≤ fd) :
    write_midifile_status midif fd = 0 ∧
    write_midifile is_big_endian host_big_endian fill midif =
      write_midiheader is_big_endian host_big_endian midif.header ++
        ((midif.tracks.take midif.header.ntracks).enum.map (fun p =>
          p.2.chunkid ++ host_bytes32 host_big_endian (be32 is_big_endian p.2.chunksize)
            ++ buffer_bytes (fill p.1) p.2)).flatten ∧
    (∀ (f : Nat → Nat) (trk : miditrack_t),
      (buffer_bytes f trk).length = trk.events_size ∧
      (trk.events.length ≤ trk.events_size →
        (buffer_bytes f trk).take trk.events.length = trk.events)) ∧
    (∀ trk : miditrack_t, is_big_endian = host_big_endian → trk.chunksize < 2 ^ 32 →
      host_bytes32 host_big_endian (be32 is_big_endian trk.chunksize) =
        [trk.chunksize / 2 ^ 24, trk.chunksize / 2 ^ 16 % 256,
          trk.chunksize / 2 ^ 8 % 256, trk.chunksize % 256]) := by
  refine ⟨write_midifile_status_aux midif fd hfd, ?_,
    fun f trk => ⟨buffer_bytes_length f trk, buffer_bytes_take f trk⟩, ?_⟩
  · simp only [write_midifile, List.enum, write_tracks_enum]
  · intro trk hb h32
    subst hb
    exact host_bytes32_be32 _ _ h32

/-- The bytes written for the file whose one track holds a note-on, was never finalised and
has `0xdead` as its chunk size. -/
theorem unfinalised_file_bytes (is_big_endian host_big_endian : Bool) (fill : Nat → Nat → Nat) :
    (write_midifile is_big_endian host_big_endian fill ⟨(init_midiheader 0 1 96).2,
      [⟨[0x4d, 0x54, 0x72, 0x6b], 0xdead, [0x00, 0x90, 60, 100], 16384⟩]⟩).length = 16406 ∧
    (write_midifile is_big_endian host_big_endian fill ⟨(init_midiheader 0 1 96).2,
      [⟨[0x4d, 0x54, 0x72, 0x6b], 0xdead, [0x00, 0x90, 60, 100], 16384⟩]⟩).take 26 =
      write_midiheader is_big_endian host_big_endian (init_midiheader 0 1 96).2
        ++ [0x4d, 0x54, 0x72, 0x6b]
        ++ host_bytes32 host_big_endian (be32 is_big_endian 0xdead)
        ++ [0x00, 0x90, 60, 100] := by
  have e := write_midifile_single is_big_endian host_big_endian fill (init_midiheader 0 1 96).2
    ⟨[0x4d, 0x54, 0x72, 0x6b], 0xdead, [0x00, 0x90, 60, 100], 16384⟩ rfl
  have hl := write_midiheader_length is_big_endian host_big_endian (init_midiheader 0 1 96).2
  have hl4 := host_bytes32_length host_big_endian (be32 is_big_endian 0xdead)
  have hid : (init_midiheader 0 1 96).2.chunkid.length = 4 := rfl
  have ht := buffer_bytes_take (fill 0)
    ⟨[0x4d, 0x54, 0x72, 0x6b], 0xdead, [0x00, 0x90, 60, 100], 16384⟩ (by decide)
  have hlen := buffer_bytes_length (fill 0)
    ⟨[0x4d, 0x54, 0x72, 0x6b], 0xdead, [0x00, 0x90, 60, 100], 16384⟩
  rw [e]
  refine ⟨?_, ?_⟩
  · simp only [List.length_append, hl, hl4, hid, hlen, List.length_cons, List.length_nil]
  · have h26 : (26 : Nat) = (write_midiheader is_big_endian host_big_endian
        (init_midiheader 0 1 96).2).length + (([0x4d, 0x54, 0x72, 0x6b] : List Nat).length +
        ((host_bytes32 host_big_endian (be32 is_big_endian 0xdead)).length + 4)) := by
      rw [hl, hid, hl4]; rfl
    rw [h26, List.take_append, List.take_append, List.take_append]
    have ht4 : List.take 4 (buffer_bytes (fill 0)
        ⟨[0x4d, 0x54, 0x72, 0x6b], 0xdead, [0x00, 0x90, 60, 100], 16384⟩) =
        [0x00, 0x90, 60, 100] := ht
    rw [ht4]
    simp only [List.append_assoc]


theorem varint_bytes_length_le (d : Nat) (hd : d < 2 ^ 32) : (varint_bytes d).length ≤ 5 := by
  obtain ⟨pre, he, hlen, _⟩ := enc_varint32_shape d hd
  simp only [varint_bytes, he, List.length_append, List.length_cons, List.length_nil]
  omega

/-- The only failure of `miditrack_addevent` is a null `extra` with a positive `extralen`. -/
theorem miditrack_addevent_status (trk : miditrack_t) (d s d1 d2 : Nat)
    (extra : Option (List Nat)) (extralen : Nat) (hd : d < 2 ^ 32) :
    ∃ r trk1, miditrack_addevent trk d s d1 d2 extra extralen = some (r, trk1) ∧
      (r ≠ 0 ↔ extra = none ∧ extralen > 0) ∧
      (r = 0 → trk1.events =
        trk.events ++ varint_bytes d ++ [s, d1, d2] ++ (extra.getD []).take extralen) ∧
      (r ≠ 0 → trk1 = trk) := by
  by_cases hx : extra = none ∧ extralen > 0
  · refine ⟨1, trk, ?_, ?_, ?_, fun _ => rfl⟩
    · simp only [miditrack_addevent, if_pos hx]
    · simp [hx]
    · intro h; exact absurd h (by decide)
  · obtain ⟨trk1, h1, h2, _, _⟩ := miditrack_addevent_ok trk d s d1 d2 extra extralen hd hx
    refine ⟨0, trk1, h1, ?_, fun _ => h2, fun h => absurd rfl h⟩
    simp [hx]

theorem miditrack_noteon_status (trk : miditrack_t) (d c p v : Nat) (hd : d < 2 ^ 32) :
    ∃ r trk1, miditrack_noteon trk d c p v = some (r, trk1) ∧
      (r ≠ 0 ↔ c > 15 ∨ p > 127) ∧ (r ≠ 0 → trk1 = trk) := by
  by_cases hc : c > MIDI_CHANNEL_MAX ∨ p > MIDI_PITCH_MAX
  · refine ⟨1, trk, ?_, ?_, fun _ => rfl⟩
    · simp only [miditrack_noteon, if_pos hc]
    · simp only [MIDI_CHANNEL_MAX, MIDI_PITCH_MAX] at hc
      simp [hc]
  · obtain ⟨trk1, h1, _⟩ :=
      miditrack_addevent_ok trk d ((MIDIEVENT_NOTEON ||| c) % 256) p
        (if v > MIDI_VELOCITY_MAX then MIDI_VELOCITY_MAX else v) none 0 hd (by simp)
    refine ⟨0, trk1, ?_, ?_, fun h => absurd rfl h⟩
    · simp only [miditrack_noteon, if_neg hc]
      exact h1
    · simp only [MIDI_CHANNEL_MAX, MIDI_PITCH_MAX] at hc
      simp [hc]

theorem miditrack_noteoff_status (trk : miditrack_t) (d c p v : Nat) (hd : d < 2 ^ 32) :
    ∃ r trk1, miditrack_noteoff trk d c p v = some (r, trk1) ∧
      (r ≠ 0 ↔ c > 15 ∨ p > 127) ∧ (r ≠ 0 → trk1 = trk) := by
  by_cases hc : c > MIDI_CHANNEL_MAX ∨ p > MIDI_PITCH_MAX
  · refine ⟨1, trk, ?_, ?_, fun _ => rfl⟩
    · simp only [miditrack_noteoff, if_pos hc]
    · simp only [MIDI_CHANNEL_MAX, MIDI_PITCH_MAX] at hc
      simp [hc]
  · obtain ⟨trk1, h1, _⟩ :=
      miditrack_addevent_ok trk d ((MIDIEVENT_NOTEOFF ||| c) % 256) p
        (if v > MIDI_VELOCITY_MAX then MIDI_VELOCITY_MAX else v) none 0 hd (by simp)
    refine ⟨0, trk1, ?_, ?_, fun h => absurd rfl h⟩
    · simp only [miditrack_noteoff, if_neg hc]
      exact h1
    · simp only [MIDI_CHANNEL_MAX, MIDI_PITCH_MAX] at hc
      simp [hc]

/-! ## The claims on finalisation, headers, serialisation and event checks -/

/-- C11. For every track whose payload ends with the three bytes `FF 2F 00`,
`finalise_miditrack` succeeds and leaves the payload unchanged; and for every track `any` on
which `finalise_miditrack` is defined (at least three payload bytes), finalising the finalised
track again returns it unchanged, so payload and `chunksize` are the same after two
finalisations as after one. -/
theorem finalise_miditrack_no_duplicate (trk : miditrack_t) (pre : List Nat)
    (any : miditrack_t) (hend : trk.events = pre ++ [0xff, 0x2f, 0x00])
    (hany : 3 ≤ any.events.length) :
    (∃ trk1, finalise_miditrack trk = some (0, trk1) ∧ trk1.events = trk.events) ∧
    (∃ once, finalise_miditrack any = some (0, once) ∧
      finalise_miditrack once = some (0, once)) := by
  constructor
  · have h3 : 3 ≤ trk.events.length := by rw [hend]; simp
    refine ⟨finalise_shrink trk,
      finalise_miditrack_ended trk h3 (endtrack_present_of_suffix trk pre hend),
      (finalise_shrink_events trk).1⟩
  · exact finalise_twice_aux any hany

/-- C11 (witness). A track holding a note-on and an end-of-track event, and a track holding
only a note-on. -/
theorem finalise_miditrack_no_duplicate_witness :
    ((⟨[0x4d, 0x54, 0x72, 0x6b], 0, [0x00, 0x90, 60, 100, 0x00, 0xff, 0x2f, 0x00], 16384⟩
        : miditrack_t).events = [0x00, 0x90, 60, 100, 0x00] ++ [0xff, 0x2f, 0x00] ∧
     3 ≤ (⟨[0x4d, 0x54, 0x72, 0x6b], 0, [0x00, 0x90, 60, 100], 16384⟩
        : miditrack_t).events.length) ∧
    ((∃ trk1, finalise_miditrack
        ⟨[0x4d, 0x54, 0x72, 0x6b], 0, [0x00, 0x90, 60, 100, 0x00, 0xff, 0x2f, 0x00], 16384⟩
          = some (0, trk1) ∧
        trk1.events = (⟨[0x4d, 0x54, 0x72, 0x6b], 0,
          [0x00, 0x90, 60, 100, 0x00, 0xff, 0x2f, 0x00], 16384⟩ : miditrack_t).events) ∧
     (∃ once, finalise_miditrack ⟨[0x4d, 0x54, 0x72, 0x6b], 0, [0x00, 0x90, 60, 100], 16384⟩
          = some (0, once) ∧
        finalise_miditrack once = some (0, once))) :=
  ⟨⟨rfl, by decide⟩,
    finalise_miditrack_no_duplicate
      ⟨[0x4d, 0x54, 0x72, 0x6b], 0, [0x00, 0x90, 60, 100, 0x00, 0xff, 0x2f, 0x00], 16384⟩
      [0x00, 0x90, 60, 100, 0x00]
      ⟨[0x4d, 0x54, 0x72, 0x6b], 0, [0x00, 0x90, 60, 100], 16384⟩ rfl (by decide)⟩

/-- C12 (evaluation at the failing input). On a freshly initialised track, which holds no
payload byte, the end-of-track test of `finalise_miditrack` reads the byte at `eventsp - 3`,
before the start of the buffer, so the result is not defined; `gen_midi_file` reaches this
with an empty note list. On a track of three bytes that are not `FF 2F 00` the four bytes
`00 FF 2F 00` are appended. -/
theorem finalise_miditrack_short_track :
    finalise_miditrack (init_miditrack ⟨[], 0, [], 0⟩ 0).2 = none ∧
    gen_midi_file false false (fun _ _ => 0) (fun _ => ⟨[], 0, [], 0⟩) [] 96 = none ∧
    finalise_miditrack ⟨[0x4d, 0x54, 0x72, 0x6b], 0, [0x90, 60, 100], 16384⟩ =
      some (0, ⟨[0x4d, 0x54, 0x72, 0x6b], 7, [0x90, 60, 100, 0x00, 0xff, 0x2f, 0x00], 7⟩) := by
  refine ⟨by decide, ?_, by decide⟩
  simp [gen_midi_file, gen_midi_file_init, gen_midi_loop, finalise_midifile, finalise_tracks,
    init_midiheader, init_miditrack, finalise_miditrack, gen_initial_state]

/-- C13. For every track with at least three payload bytes (so that `finalise_miditrack` is
defined), the cursor inside the buffer, an allocation below `2 ^ 63` bytes and a payload that,
with an end-of-track event added, stays below `2 ^ 32` bytes: `finalise_miditrack` succeeds
and leaves `chunksize` equal to the number of payload bytes and `events_size` equal to that
same number. -/
theorem finalise_miditrack_fits (trk : miditrack_t) (h3 : 3 ≤ trk.events.length)
    (hcur : trk.events.length ≤ trk.events_size) (hsize : trk.events_size < 2 ^ 63)
    (h32 : trk.events.length + 4 < 2 ^ 32) :
    ∃ trk1, finalise_miditrack trk = some (0, trk1) ∧
      trk1.chunksize = trk1.events.length ∧ trk1.events_size = trk1.events.length := by
  obtain ⟨trk1, h1, h2, h4, _⟩ := finalise_fits_aux trk h3 hcur hsize h32
  exact ⟨trk1, h1, h2, h4⟩

/-- C13 (witness). A track holding one note-on event in a buffer of 16384 bytes. -/
theorem finalise_miditrack_fits_witness :
    (3 ≤ (⟨[0x4d, 0x54, 0x72, 0x6b], 0, [0x00, 0x90, 60, 100], 16384⟩
        : miditrack_t).events.length ∧
     (⟨[0x4d, 0x54, 0x72, 0x6b], 0, [0x00, 0x90, 60, 100], 16384⟩ : miditrack_t).events.length
        ≤ (⟨[0x4d, 0x54, 0x72, 0x6b], 0, [0x00, 0x90, 60, 100], 16384⟩
          : miditrack_t).events_size ∧
     (⟨[0x4d, 0x54, 0x72, 0x6b], 0, [0x00, 0x90, 60, 100], 16384⟩ : miditrack_t).events_size
        < 2 ^ 63 ∧
     (⟨[0x4d, 0x54, 0x72, 0x6b], 0, [0x00, 0x90, 60, 100], 16384⟩ : miditrack_t).events.length
        + 4 < 2 ^ 32) ∧
    ∃ trk1, finalise_miditrack ⟨[0x4d, 0x54, 0x72, 0x6b], 0, [0x00, 0x90, 60, 100], 16384⟩
        = some (0, trk1) ∧
      trk1.chunksize = trk1.events.length ∧ trk1.events_size = trk1.events.length :=
  ⟨⟨by decide, by decide, by decide, by decide⟩,
    finalise_miditrack_fits ⟨[0x4d, 0x54, 0x72, 0x6b], 0, [0x00, 0x90, 60, 100], 16384⟩
      (by decide) (by decide) (by decide) (by decide)⟩

/-- C14. For every format, track count and time division, `init_midiheader` returns 0 and
yields the chunk id `MThd`, chunk size 6, the format as given, the track count 1 when given as
0 and as given otherwise, and the time division 96 when given as 0 and as given otherwise. -/
theorem init_midiheader_fields (format ntracks nticks : Nat) :
    init_midiheader format ntracks nticks =
      (0, ⟨[0x4d, 0x54, 0x68, 0x64], 6, format,
        if ntracks = 0 then 1 else ntracks, if nticks = 0 then 96 else nticks⟩) :=
  init_midiheader_aux format ntracks nticks

/-- C15 (evaluation at the failing input). On a host that stores the most significant byte
first and whose `<stdint.h>` does not define `__BYTE_ORDER`, `endianness.c` is compiled with
`IS_BIG_ENDIAN` 0, so `be16` and `be32` reverse the bytes of every value, and the header of
`init(format = 0, track_count = 1, time_division = 0)` is written as
`4D 54 68 64 06 00 00 00 00 00 01 00 60 00`: 14 bytes whose chunk size, track count and time
division are least significant byte first, not the `4D 54 68 64 00 00 00 06 00 00 00 01 00 60`
of the claim. The claimed bytes are written on a little-endian host and on a big-endian host
where the macro is 1; for every header of `init_midiheader` from 16-bit arguments the bytes are
as claimed whenever the macro states the byte order of the host. -/
theorem write_midiheader_big_endian_host :
    IS_BIG_ENDIAN none none = false ∧
    write_midiheader (IS_BIG_ENDIAN none none) true (init_midiheader 0 1 0).2 =
      [0x4d, 0x54, 0x68, 0x64, 0x06, 0x00, 0x00, 0x00, 0x00, 0x00, 0x01, 0x00, 0x60, 0x00] ∧
    write_midiheader (IS_BIG_ENDIAN none none) true (init_midiheader 0 1 0).2 ≠
      [0x4d, 0x54, 0x68, 0x64, 0x00, 0x00, 0x00, 0x06, 0x00, 0x00, 0x00, 0x01, 0x00, 0x60] ∧
    write_midiheader (IS_BIG_ENDIAN none none) false (init_midiheader 0 1 0).2 =
      [0x4d, 0x54, 0x68, 0x64, 0x00, 0x00, 0x00, 0x06, 0x00, 0x00, 0x00, 0x01, 0x00, 0x60] ∧
    write_midiheader (IS_BIG_ENDIAN (some true) none) true (init_midiheader 0 1 0).2 =
      [0x4d, 0x54, 0x68, 0x64, 0x00, 0x00, 0x00, 0x06, 0x00, 0x00, 0x00, 0x01, 0x00, 0x60] ∧
    ∀ (big_endian : Bool) (format ntracks nticks : Nat),
      format < 2 ^ 16 → ntracks < 2 ^ 16 → nticks < 2 ^ 16 →
      write_midiheader big_endian big_endian (init_midiheader format ntracks nticks).2 =
        [0x4d, 0x54, 0x68, 0x64, 0x00, 0x00, 0x00, 0x06,
          format / 256, format % 256,
          (if ntracks = 0 then 1 else ntracks) / 256, (if ntracks = 0 then 1 else ntracks) % 256,
          (if nticks = 0 then 96 else nticks) / 256, (if nticks = 0 then 96 else nticks) % 256] :=
  ⟨by decide, by decide, by decide, by decide, by decide,
    fun big_endian format ntracks nticks hf hn ht =>
      write_midiheader_aux big_endian format ntracks nticks hf hn ht⟩

/-- C17 (counterexample). A file whose single track was initialised and given one note-on
event but never finalised (its `chunksize` still holds what the memory held, here `0xdead`,
and no end-of-track event is present): `write_midifile` on descriptor 3 returns 0, and on a
little-endian host it writes 16406 bytes, the 14 header bytes, `MTrk`, the chunk size
`00 00 DE AD`, the four bytes of the note-on and the 16380 further bytes of the event buffer,
which has `MIDIEVENTS_BUFSIZE` (16384) bytes. -/
theorem write_midifile_unfinalised_succeeds :
    miditrack_noteon (init_miditrack ⟨[], 0xdead, [], 0⟩ 0).2 0 0 60 100 =
      some (0, ⟨[0x4d, 0x54, 0x72, 0x6b], 0xdead, [0x00, 0x90, 60, 100], 16384⟩) ∧
    write_midifile_status ⟨(init_midiheader 0 1 96).2,
      [⟨[0x4d, 0x54, 0x72, 0x6b], 0xdead, [0x00, 0x90, 60, 100], 16384⟩]⟩ 3 = 0 ∧
    (write_midifile false false (fun _ _ => 0) ⟨(init_midiheader 0 1 96).2,
      [⟨[0x4d, 0x54, 0x72, 0x6b], 0xdead, [0x00, 0x90, 60, 100], 16384⟩]⟩).length = 16406 ∧
    (write_midifile false false (fun _ _ => 0) ⟨(init_midiheader 0 1 96).2,
      [⟨[0x4d, 0x54, 0x72, 0x6b], 0xdead, [0x00, 0x90, 60, 100], 16384⟩]⟩).take 26 =
      [0x4d, 0x54, 0x68, 0x64, 0x00, 0x00, 0x00, 0x06, 0x00, 0x00, 0x00, 0x01, 0x00, 0x60,
       0x4d, 0x54, 0x72, 0x6b, 0x00, 0x00, 0xde, 0xad, 0x00, 0x90, 60, 100] ∧
    MIDIEVENTS_BUFSIZE = 16384 := by
  refine ⟨by decide, by decide, (unfinalised_file_bytes false false (fun _ _ => 0)).1, ?_, rfl⟩
  rw [(unfinalised_file_bytes false false (fun _ _ => 0)).2]
  decide

/-- C17 (amended). `write_midifile` makes no check of finalisation: for every MIDI file,
finalised or not, and every valid (non-negative) descriptor, the writes succeeding, it returns
success, and what it writes is the header followed, for each track in index order, by the chunk
id, the memory image of `be32` of whatever `chunksize` the track holds, and `events_size`
bytes from the start of the event buffer, whose first bytes, up to the cursor, are the payload
when the cursor is within the allocation. The image of the chunk size is the value most
significant byte first where the macro `IS_BIG_ENDIAN` states the byte order of the host. -/
theorem write_midifile_no_finalise_check (is_big_endian host_big_endian : Bool)
    (fill : Nat → Nat → Nat) (midif : midifile_t) (fd : Int) (hfd : 0 ≤ fd) :
    write_midifile_status midif fd = 0 ∧
    write_midifile is_big_endian host_big_endian fill midif =
      write_midiheader is_big_endian host_big_endian midif.header ++
        ((midif.tracks.take midif.header.ntracks).enum.map (fun p =>
          p.2.chunkid ++ host_bytes32 host_big_endian (be32 is_big_endian p.2.chunksize)
            ++ buffer_bytes (fill p.1) p.2)).flatten ∧
    (∀ (f : Nat → Nat) (trk : miditrack_t),
      (buffer_bytes f trk).length = trk.events_size ∧
      (trk.events.length ≤ trk.events_size →
        (buffer_bytes f trk).take trk.events.length = trk.events)) ∧
    (∀ trk : miditrack_t, is_big_endian = host_big_endian → trk.chunksize < 2 ^ 32 →
      host_bytes32 host_big_endian (be32 is_big_endian trk.chunksize) =
        [trk.chunksize / 2 ^ 24, trk.chunksize / 2 ^ 16 % 256,
          trk.chunksize / 2 ^ 8 % 256, trk.chunksize % 256]) :=
  write_midifile_any_aux is_big_endian host_big_endian fill midif fd hfd

/-- C17 (witness). The unfinalised file above on descriptor 3, on a little-endian host. -/
theorem write_midifile_no_finalise_check_witness :
    (0 : Int) ≤ 3 ∧
    (write_midifile_status ⟨(init_midiheader 0 1 96).2,
      [⟨[0x4d, 0x54, 0x72, 0x6b], 0xdead, [0x00, 0x90, 60, 100], 16384⟩]⟩ 3 = 0 ∧
    write_midifile false false (fun _ _ => 0) ⟨(init_midiheader 0 1 96).2,
        [⟨[0x4d, 0x54, 0x72, 0x6b], 0xdead, [0x00, 0x90, 60, 100], 16384⟩]⟩ =
      write_midiheader false false (⟨(init_midiheader 0 1 96).2,
        [⟨[0x4d, 0x54, 0x72, 0x6b], 0xdead, [0x00, 0x90, 60, 100], 16384⟩]⟩
          : midifile_t).header ++
        (((⟨(init_midiheader 0 1 96).2,
        [⟨[0x4d, 0x54, 0x72, 0x6b], 0xdead, [0x00, 0x90, 60, 100], 16384⟩]⟩
          : midifile_t).tracks.take (⟨(init_midiheader 0 1 96).2,
        [⟨[0x4d, 0x54, 0x72, 0x6b], 0xdead, [0x00, 0x90, 60, 100], 16384⟩]⟩
          : midifile_t).header.ntracks).enum.map (fun p =>
          p.2.chunkid ++ host_bytes32 false (be32 false p.2.chunksize)
            ++ buffer_bytes ((fun _ _ => 0) p.1) p.2)).flatten ∧
    (∀ (f : Nat → Nat) (trk : miditrack_t),
      (buffer_bytes f trk).length = trk.events_size ∧
      (trk.events.length ≤ trk.events_size →
        (buffer_bytes f trk).take trk.events.length = trk.events)) ∧
    (∀ trk : miditrack_t, false = false → trk.chunksize < 2 ^ 32 →
      host_bytes32 false (be32 false trk.chunksize) =
        [trk.chunksize / 2 ^ 24, trk.chunksize / 2 ^ 16 % 256,
          trk.chunksize / 2 ^ 8 % 256, trk.chunksize % 256])) :=
  ⟨by decide,
    write_midifile_no_finalise_check false false (fun _ _ => 0) ⟨(init_midiheader 0 1 96).2,
      [⟨[0x4d, 0x54, 0x72, 0x6b], 0xdead, [0x00, 0x90, 60, 100], 16384⟩]⟩ 3 (by decide)⟩

/-- C18. For every track, 32-bit delta time, status, data1, data2 and extra byte sequence of
at most 255 bytes (with `extralen` its length): `miditrack_addevent` returns 0 and the new
payload is the old payload followed by the bytes of `enc_varint32(delta_time)`, then status,
data1, data2, then the extra bytes; the appended event is at most 263 bytes long. The same
holds for a null `extra` with `extralen = 0`, where nothing follows data2. -/
theorem miditrack_addevent_appends (trk : miditrack_t) (d s d1 d2 : Nat) (extra : List Nat)
    (hd : d < 2 ^ 32) (hlen : extra.length ≤ 255) :
    enc_varint32 d = some ((varint_bytes d).length, varint_bytes d) ∧
    (∃ trk1, miditrack_addevent trk d s d1 d2 (some extra) extra.length = some (0, trk1) ∧
      trk1.events = trk.events ++ varint_bytes d ++ [s, d1, d2] ++ extra) ∧
    (∃ trk2, miditrack_addevent trk d s d1 d2 none 0 = some (0, trk2) ∧
      trk2.events = trk.events ++ varint_bytes d ++ [s, d1, d2]) ∧
    (varint_bytes d ++ [s, d1, d2] ++ extra).length ≤ 263 := by
  refine ⟨varint_bytes_spec d hd, ?_, ?_, ?_⟩
  · obtain ⟨trk1, h1, h2, _, _⟩ :=
      miditrack_addevent_ok trk d s d1 d2 (some extra) extra.length hd (by simp)
    exact ⟨trk1, h1, by simpa using h2⟩
  · obtain ⟨trk2, h1, h2, _, _⟩ := miditrack_addevent_ok trk d s d1 d2 none 0 hd (by simp)
    exact ⟨trk2, h1, by simpa using h2⟩
  · have := varint_bytes_length_le d hd
    simp only [List.length_append, List.length_cons, List.length_nil]
    omega

/-- C18 (witness). A set-tempo event for 120 beats per minute at delta 96 on an empty track. -/
theorem miditrack_addevent_appends_witness :
    ((96 : Nat) < 2 ^ 32 ∧ [0x07, 0xa1, 0x20].length ≤ 255) ∧
    (enc_varint32 96 = some ((varint_bytes 96).length, varint_bytes 96) ∧
    (∃ trk1, miditrack_addevent ⟨[0x4d, 0x54, 0x72, 0x6b], 0, [], 16384⟩ 96 0xff 0x51 0x03
        (some [0x07, 0xa1, 0x20]) [0x07, 0xa1, 0x20].length = some (0, trk1) ∧
      trk1.events = (⟨[0x4d, 0x54, 0x72, 0x6b], 0, [], 16384⟩ : miditrack_t).events
        ++ varint_bytes 96 ++ [0xff, 0x51, 0x03] ++ [0x07, 0xa1, 0x20]) ∧
    (∃ trk2, miditrack_addevent ⟨[0x4d, 0x54, 0x72, 0x6b], 0, [], 16384⟩ 96 0xff 0x51 0x03
        none 0 = some (0, trk2) ∧
      trk2.events = (⟨[0x4d, 0x54, 0x72, 0x6b], 0, [], 16384⟩ : miditrack_t).events
        ++ varint_bytes 96 ++ [0xff, 0x51, 0x03]) ∧
    (varint_bytes 96 ++ [0xff, 0x51, 0x03] ++ [0x07, 0xa1, 0x20]).length ≤ 263) :=
  ⟨⟨by decide, by decide⟩,
    miditrack_addevent_appends ⟨[0x4d, 0x54, 0x72, 0x6b], 0, [], 16384⟩ 96 0xff 0x51 0x03
      [0x07, 0xa1, 0x20] (by decide) (by decide)⟩

/-- C20. For every track, 32-bit delta time, channel, pitch and velocity, `miditrack_noteon`
and `miditrack_noteoff` return a status that is non-zero if and only if the channel exceeds 15
or the pitch exceeds 127, and on failure the track (payload, cursor, capacity) is unchanged. -/
theorem miditrack_note_failure_iff (trk : miditrack_t) (d c p v : Nat) (hd : d < 2 ^ 32) :
    (∃ r trk1, miditrack_noteon trk d c p v = some (r, trk1) ∧
      (r ≠ 0 ↔ c > 15 ∨ p > 127) ∧ (r ≠ 0 → trk1 = trk)) ∧
    (∃ r trk1, miditrack_noteoff trk d c p v = some (r, trk1) ∧
      (r ≠ 0 ↔ c > 15 ∨ p > 127) ∧ (r ≠ 0 → trk1 = trk)) :=
  ⟨miditrack_noteon_status trk d c p v hd, miditrack_noteoff_status trk d c p v hd⟩

/-- C20 (witness). Channel 0, pitch 200, velocity 100 at delta 0 on an empty track. -/
theorem miditrack_note_failure_iff_witness :
    (0 : Nat) < 2 ^ 32 ∧
    ((∃ r trk1, miditrack_noteon ⟨[0x4d, 0x54, 0x72, 0x6b], 0, [], 16384⟩ 0 0 200 100
        = some (r, trk1) ∧
      (r ≠ 0 ↔ 0 > 15 ∨ 200 > 127) ∧
      (r ≠ 0 → trk1 = ⟨[0x4d, 0x54, 0x72, 0x6b], 0, [], 16384⟩)) ∧
    (∃ r trk1, miditrack_noteoff ⟨[0x4d, 0x54, 0x72, 0x6b], 0, [], 16384⟩ 0 0 200 100
        = some (r, trk1) ∧
      (r ≠ 0 ↔ 0 > 15 ∨ 200 > 127) ∧
      (r ≠ 0 → trk1 = ⟨[0x4d, 0x54, 0x72, 0x6b], 0, [], 16384⟩))) :=
  ⟨by decide,
    miditrack_note_failure_iff ⟨[0x4d, 0x54, 0x72, 0x6b], 0, [], 16384⟩ 0 0 200 100
      (by decide)⟩

/-! ## Lemmas on the note and tempo events -/

set_option maxRecDepth 100000 in
theorem noteon_status_byte : ∀ c, c ≤ 15 → (MIDIEVENT_NOTEON ||| c) % 256 = 0x90 ||| c := by
  decide

set_option maxRecDepth 100000 in
theorem noteoff_status_byte : ∀ c, c ≤ 15 → (MIDIEVENT_NOTEOFF ||| c) % 256 = 0x80 ||| c := by
  decide

theorem velocity_clamp (v : Nat) :
    (if v > MIDI_VELOCITY_MAX then MIDI_VELOCITY_MAX else v) = min v 127 := by
  simp only [MIDI_VELOCITY_MAX]
  split <;> omega

/-- A note-on with channel and pitch in range appends the delta, the status byte with the
channel in its low nibble, the pitch and the clamped velocity. -/
theorem miditrack_noteon_appends (trk : miditrack_t) (d c p v : Nat) (hd : d < 2 ^ 32)
    (hc : c ≤ 15) (hp : p ≤ 127) :
    ∃ trk1, miditrack_noteon trk d c p v = some (0, trk1) ∧
      trk1.events = trk.events ++ varint_bytes d ++ [0x90 ||| c, p, min v 127] := by
  obtain ⟨trk1, h1, h2, _, _⟩ :=
    miditrack_addevent_ok trk d (0x90 ||| c) p (min v 127) none 0 hd (by simp)
  refine ⟨trk1, ?_, by simpa using h2⟩
  simp only [miditrack_noteon, MIDI_CHANNEL_MAX, MIDI_PITCH_MAX, velocity_clamp,
    noteon_status_byte c hc]
  rw [if_neg (by omega)]
  exact h1

theorem miditrack_noteoff_appends (trk : miditrack_t) (d c p v : Nat) (hd : d < 2 ^ 32)
    (hc : c ≤ 15) (hp : p ≤ 127) :
    ∃ trk1, miditrack_noteoff trk d c p v = some (0, trk1) ∧
      trk1.events = trk.events ++ varint_bytes d ++ [0x80 ||| c, p, min v 127] := by
  obtain ⟨trk1, h1, h2, _, _⟩ :=
    miditrack_addevent_ok trk d (0x80 ||| c) p (min v 127) none 0 hd (by simp)
  refine ⟨trk1, ?_, by simpa using h2⟩
  simp only [miditrack_noteoff, MIDI_CHANNEL_MAX, MIDI_PITCH_MAX, velocity_clamp,
    noteoff_status_byte c hc]
  rw [if_neg (by omega)]
  exact h1

/-- The three data bytes of a set-tempo event, read most significant byte first, are the
microseconds per beat modulo `2 ^ 24`. -/
theorem tempo_24bit_value (u : Nat) :
    ((u >>> 16) &&& 0xff) * 65536 + ((u >>> 8) &&& 0xff) * 256 + (u &&& 0xff) = u % 2 ^ 24 := by
  have s1 : u >>> 8 = u / 256 := Nat.shiftRight_eq_div_pow u 8
  have s2 : u >>> 16 = u / 65536 := Nat.shiftRight_eq_div_pow u 16
  simp only [and_ff, s1, s2, Nat.reducePow]
  omega

/-- From 4 beats per minute on, the microseconds per beat fit the 24 bits of the event. -/
theorem usec_per_beat_fits (bpm : Nat) (h4 : 4 ≤ bpm) : 60000000 / bpm < 2 ^ 24 := by
  have h : 60000000 / bpm ≤ 60000000 / 4 := Nat.div_le_div_left h4 (by decide)
  have e : 60000000 / 4 = 15000000 := by norm_num
  simp only [Nat.reducePow]
  omega

/-- For `bpm ≥ 4` the set-tempo event carries `60000000 / bpm`. -/
theorem miditrack_settempo_value (trk : miditrack_t) (d bpm : Nat) (hd : d < 2 ^ 32)
    (h4 : 4 ≤ bpm) :
    ∃ trk1 b0 b1 b2, miditrack_settempo trk d bpm = some (0, trk1) ∧
      trk1.events = trk.events ++ varint_bytes d ++ [0xff, 0x51, 0x03] ++ [b0, b1, b2] ∧
      b0 < 256 ∧ b1 < 256 ∧ b2 < 256 ∧
      b0 * 65536 + b1 * 256 + b2 = 60000000 / bpm := by
  obtain ⟨trk1, h1, h2, _, _⟩ := miditrack_settempo_ok trk d bpm hd (by omega)
  refine ⟨trk1, _, _, _, h1, h2, ?_, ?_, ?_, ?_⟩
  · rw [and_ff]; exact Nat.mod_lt _ (by decide)
  · rw [and_ff]; exact Nat.mod_lt _ (by decide)
  · rw [and_ff]; exact Nat.mod_lt _ (by decide)
  · rw [tempo_24bit_value, Nat.mod_eq_of_lt (usec_per_beat_fits bpm h4)]

theorem init_midifile_aux (raw : Nat → miditrack_t) (format ntracks nticks track_bufsize : Nat) :
    init_midifile raw format ntracks nticks track_bufsize =
      (0, ⟨(init_midiheader format ntracks nticks).2,
        (List.range (if ntracks = 0 then 1 else ntracks)).map (fun t =>
          ⟨[0x4d, 0x54, 0x72, 0x6b], (raw t).chunksize, [],
            if track_bufsize = 0 then 16384 else track_bufsize⟩)⟩) := by
  simp only [init_midifile, init_midiheader, init_miditrack, MIDIEVENTS_BUFSIZE]
  by_cases hn : ntracks = 0 <;> by_cases hb : track_bufsize = 0 <;> simp [hn, hb]

/-! ## Lemmas on the little-endian conversions -/

theorem lsb_first_two (v : Nat) : lsb_first 2 v = [v % 256, v / 256 % 256] := by
  simp [lsb_first, List.range_succ]

theorem lsb_first_four (v : Nat) :
    lsb_first 4 v = [v % 256, v / 256 % 256, v / 65536 % 256, v / 16777216 % 256] := by
  simp [lsb_first, List.range_succ]

theorem msb_first_two (v : Nat) : msb_first 2 v = [v / 256 % 256, v % 256] := by
  simp [msb_first, lsb_first_two]

theorem msb_first_four (v : Nat) :
    msb_first 4 v = [v / 16777216 % 256, v / 65536 % 256, v / 256 % 256, v % 256] := by
  simp [msb_first, lsb_first_four]

theorem byteswap16_lt (v : Nat) : byteswap16 v < 2 ^ 16 :=
  Nat.mod_lt _ (by decide)

theorem byteswap32_lt (v : Nat) : byteswap32 v < 2 ^ 32 :=
  Nat.mod_lt _ (by decide)

/-- On either host the memory image of `byteswap16 v` is the image of `v` reversed. -/
theorem host_bytes16_byteswap16 (big_endian : Bool) (v : Nat) (hv : v < 2 ^ 16) :
    host_bytes16 big_endian (byteswap16 v) = (host_bytes16 big_endian v).reverse := by
  have hv1 : v < 65536 := hv
  have hb := swapped16_bytes v hv1
  have hq : v / 256 < 256 := Nat.div_lt_of_lt_mul hv1
  cases big_endian
  · simp only [host_bytes16, byteswap16_eq v hv1, Bool.false_eq_true, if_false,
      List.reverse_cons, List.reverse_nil, List.nil_append, List.singleton_append]
    rw [hb.1, hb.2, Nat.mod_eq_of_lt hq]
  · simp only [host_bytes16, byteswap16_eq v hv1, if_true,
      List.reverse_cons, List.reverse_nil, List.nil_append, List.singleton_append]
    rw [hb.1, hb.2, Nat.mod_eq_of_lt hq]

/-- On either host the memory image of `byteswap32 v` is the image of `v` reversed. -/
theorem host_bytes32_byteswap32 (big_endian : Bool) (v : Nat) (hv : v < 2 ^ 32) :
    host_bytes32 big_endian (byteswap32 v) = (host_bytes32 big_endian v).reverse := by
  have hv1 : v < 4294967296 := hv
  have hq : v / 16777216 < 256 := Nat.div_lt_of_lt_mul hv1
  have hb := four_bytes (v % 256) (v / 256 % 256) (v / 65536 % 256) (v / 16777216)
    (Nat.mod_lt _ (by decide)) (Nat.mod_lt _ (by decide)) (Nat.mod_lt _ (by decide)) hq
  cases big_endian
  · simp only [host_bytes32, byteswap32_eq v hv1, Bool.false_eq_true, if_false, Nat.reducePow,
      List.reverse_cons, List.reverse_nil, List.nil_append, List.singleton_append,
      List.cons_append]
    rw [hb.1, hb.2.1, hb.2.2.1, hb.2.2.2, Nat.mod_eq_of_lt hq]
  · simp only [host_bytes32, byteswap32_eq v hv1, if_true, Nat.reducePow,
      List.reverse_cons, List.reverse_nil, List.nil_append, List.singleton_append,
      List.cons_append]
    rw [hb.1, hb.2.1, hb.2.2.1, hb.2.2.2, Nat.mod_eq_of_lt hq]

/-- The memory image of `le16 v` is `v` least significant byte first when the macro
`IS_BIG_ENDIAN` states the byte order of the host. -/
theorem host_bytes16_le16 (big_endian : Bool) (v : Nat) (hv : v < 2 ^ 16) :
    host_bytes16 big_endian (le16 big_endian v) = lsb_first 2 v := by
  rw [lsb_first_two]
  cases big_endian
  · simp only [host_bytes16, le16, Bool.false_eq_true, if_false]
  · have h := host_bytes16_byteswap16 true v hv
    simp only [le16, if_true]
    rw [h]
    simp only [host_bytes16, if_true, List.reverse_cons, List.reverse_nil,
      List.nil_append, List.singleton_append]

/-- The memory image of `le32 v` is `v` least significant byte first when the macro
`IS_BIG_ENDIAN` states the byte order of the host. -/
theorem host_bytes32_le32 (big_endian : Bool) (v : Nat) (hv : v < 2 ^ 32) :
    host_bytes32 big_endian (le32 big_endian v) = lsb_first 4 v := by
  rw [lsb_first_four]
  cases big_endian
  · simp only [host_bytes32, le32, Bool.false_eq_true, if_false, Nat.reducePow]
  · have h := host_bytes32_byteswap32 true v hv
    simp only [le32, if_true]
    rw [h]
    simp only [host_bytes32, if_true, List.reverse_cons, List.reverse_nil,
      List.nil_append, List.singleton_append, List.cons_append, Nat.reducePow]

theorem host_bytes16_be16_msb (big_endian : Bool) (v : Nat) (hv : v < 2 ^ 16) :
    host_bytes16 big_endian (be16 big_endian v) = msb_first 2 v := by
  have hq : v / 256 < 256 := Nat.div_lt_of_lt_mul (by simpa using hv)
  rw [host_bytes16_be16 big_endian v hv, msb_first_two, Nat.mod_eq_of_lt hq]

theorem host_bytes32_be32_msb (big_endian : Bool) (v : Nat) (hv : v < 2 ^ 32) :
    host_bytes32 big_endian (be32 big_endian v) = msb_first 4 v := by
  have hq : v / 16777216 < 256 := Nat.div_lt_of_lt_mul (by simpa using hv)
  rw [host_bytes32_be32 big_endian v hv, msb_first_four, Nat.mod_eq_of_lt hq]
  simp only [Nat.reducePow]

/-! ## Lemmas on the signed fields -/

theorem to_uint32_lt (x : Int) : to_uint32 x < 2 ^ 32 := by
  unfold to_uint32
  omega

theorem to_uint16_lt (x : Int) : to_uint16 x < 2 ^ 16 := by
  unfold to_uint16
  omega

theorem to_uint32_to_int32 (u : Nat) (hu : u < 2 ^ 32) : to_uint32 (to_int32 (u : Int)) = u := by
  unfold to_uint32 to_int32
  omega

theorem to_uint16_to_int16 (u : Nat) (hu : u < 2 ^ 16) : to_uint16 (to_int16 (u : Int)) = u := by
  unfold to_uint16 to_int16
  omega

theorem le32_lt (big_endian : Bool) (u : Nat) (hu : u < 2 ^ 32) : le32 big_endian u < 2 ^ 32 := by
  cases big_endian
  · simpa [le32] using hu
  · simpa [le32] using byteswap32_lt u

theorem le16_lt (big_endian : Bool) (u : Nat) (hu : u < 2 ^ 16) : le16 big_endian u < 2 ^ 16 := by
  cases big_endian
  · simpa [le16] using hu
  · simpa [le16] using byteswap16_lt u

/-- An `int32_t` field converted by `le32` and stored back is, in memory, the field's
two's-complement value least significant byte first, when the macro `IS_BIG_ENDIAN` states the
byte order of the host. -/
theorem host_bytes_int32_le (big_endian : Bool) (v : Int) :
    host_bytes_int32 big_endian (to_int32 (le32 big_endian (to_uint32 v))) =
      lsb_first 4 (to_uint32 v) := by
  unfold host_bytes_int32
  rw [to_uint32_to_int32 _ (le32_lt big_endian _ (to_uint32_lt v)),
    host_bytes32_le32 big_endian _ (to_uint32_lt v)]

theorem host_bytes_int16_le (big_endian : Bool) (v : Int) :
    host_bytes_int16 big_endian (to_int16 (le16 big_endian (to_uint16 v))) =
      lsb_first 2 (to_uint16 v) := by
  unfold host_bytes_int16
  rw [to_uint16_to_int16 _ (le16_lt big_endian _ (to_uint16_lt v)),
    host_bytes16_le16 big_endian _ (to_uint16_lt v)]

/-! ## Lemmas on the WAVE header -/

theorem to_int16_of_range (x : Int) (h1 : -(2 ^ 15) ≤ x) (h2 : x < 2 ^ 15) : to_int16 x = x := by
  unfold to_int16
  omega

theorem to_int32_of_range (x : Int) (h1 : -(2 ^ 31) ≤ x) (h2 : x < 2 ^ 31) : to_int32 x = x := by
  unfold to_int32
  omega

theorem get_wavheader_len_eq : get_wavheader_len = 44 := rfl

/-- With both products in range `init_wavheader` is defined and sets the fields. -/
theorem init_wavheader_aux (hdr : wavheader_t) (bitdepth nchannels srate : Int)
    (hb1 : -(2 ^ 15) ≤ Int.tdiv (nchannels * bitdepth) 8)
    (hb2 : Int.tdiv (nchannels * bitdepth) 8 < 2 ^ 15)
    (hr1 : -(2 ^ 31) ≤ srate * Int.tdiv (nchannels * bitdepth) 8)
    (hr2 : srate * Int.tdiv (nchannels * bitdepth) 8 < 2 ^ 31) :
    init_wavheader hdr bitdepth nchannels srate =
      some ⟨[0x52, 0x49, 0x46, 0x46], hdr.chunksize, [0x57, 0x41, 0x56, 0x45],
        [0x66, 0x6d, 0x74, 0x20], 16, get_wav_format bitdepth, nchannels, srate,
        srate * Int.tdiv (nchannels * bitdepth) 8, Int.tdiv (nchannels * bitdepth) 8, bitdepth,
        [0x64, 0x61, 0x74, 0x61], hdr.subchunk2size⟩ := by
  have e16 : to_int32 (2 + 2 + 4 + 4 + 2 + 2) = 16 := by decide
  unfold init_wavheader
  simp only [to_int16_of_range _ hb1 hb2, e16]
  rw [if_neg (by omega)]

theorem finalise_wavheader_aux (hdr : wavheader_t) (fsize : Int) (h1 : 44 ≤ fsize)
    (h2 : fsize ≤ 2 ^ 31 - 1) :
    finalise_wavheader hdr fsize =
      { hdr with chunksize := fsize - 8, subchunk2size := fsize - 44 } := by
  have e1 : to_int32 ((fsize - (4 + 4)) % 2 ^ 64) = fsize - 8 := by
    unfold to_int32
    omega
  have e2 : to_int32 ((fsize - (get_wavheader_len : Int)) % 2 ^ 64) = fsize - 44 := by
    rw [get_wavheader_len_eq]
    unfold to_int32
    omega
  unfold finalise_wavheader
  rw [e1, e2]

theorem four_of_length (l : List Nat) (h : l.length = 4) : ∃ a b c d, l = [a, b, c, d] := by
  match l, h with
  | [a, b, c, d], _ => exact ⟨a, b, c, d, rfl⟩

/-- When the macro `IS_BIG_ENDIAN` states the byte order of the host, the serialised header is
the concatenation of the tags and of the integer fields least significant byte first. -/
theorem write_wavheader_aux (big_endian : Bool) (hdr : wavheader_t)
    (h1 : hdr.chunkid.length = 4) (h2 : hdr.format.length = 4)
    (h3 : hdr.subchunk1id.length = 4) (h4 : hdr.subchunk2id.length = 4) :
    write_wavheader big_endian big_endian hdr =
      hdr.chunkid ++ lsb_first 4 (to_uint32 hdr.chunksize) ++ hdr.format ++ hdr.subchunk1id
        ++ lsb_first 4 (to_uint32 hdr.subchunk1size) ++ lsb_first 2 (to_uint16 hdr.audioformat)
        ++ lsb_first 2 (to_uint16 hdr.nchannels) ++ lsb_first 4 (to_uint32 hdr.srate)
        ++ lsb_first 4 (to_uint32 hdr.byterate) ++ lsb_first 2 (to_uint16 hdr.blockalign)
        ++ lsb_first 2 (to_uint16 hdr.bitdepth) ++ hdr.subchunk2id
        ++ lsb_first 4 (to_uint32 hdr.subchunk2size) := by
  have t1 : hdr.chunkid.take 4 = hdr.chunkid := List.take_of_length_le (by omega)
  have t2 : hdr.format.take 4 = hdr.format := List.take_of_length_le (by omega)
  have t3 : hdr.subchunk1id.take 4 = hdr.subchunk1id := List.take_of_length_le (by omega)
  have t4 : hdr.subchunk2id.take 4 = hdr.subchunk2id := List.take_of_length_le (by omega)
  simp only [write_wavheader, wavheader_le, host_bytes_int32_le, host_bytes_int16_le,
    t1, t2, t3, t4]
  apply List.take_of_length_le
  simp [lsb_first, h1, h2, h3, h4, get_wavheader_len]

/-- The offsets of the thirteen fields in the serialised header, when the macro
`IS_BIG_ENDIAN` states the byte order of the host. -/
theorem write_wavheader_offsets (big_endian : Bool) (hdr : wavheader_t)
    (h1 : hdr.chunkid.length = 4) (h2 : hdr.format.length = 4)
    (h3 : hdr.subchunk1id.length = 4) (h4 : hdr.subchunk2id.length = 4) :
    (write_wavheader big_endian big_endian hdr).length = 44 ∧
    (write_wavheader big_endian big_endian hdr).take 4 = hdr.chunkid ∧
    ((write_wavheader big_endian big_endian hdr).drop 4).take 4
        = lsb_first 4 (to_uint32 hdr.chunksize) ∧
    ((write_wavheader big_endian big_endian hdr).drop 8).take 4 = hdr.format ∧
    ((write_wavheader big_endian big_endian hdr).drop 12).take 4 = hdr.subchunk1id ∧
    ((write_wavheader big_endian big_endian hdr).drop 16).take 4
      = lsb_first 4 (to_uint32 hdr.subchunk1size) ∧
    ((write_wavheader big_endian big_endian hdr).drop 20).take 2
      = lsb_first 2 (to_uint16 hdr.audioformat) ∧
    ((write_wavheader big_endian big_endian hdr).drop 22).take 2
        = lsb_first 2 (to_uint16 hdr.nchannels) ∧
    ((write_wavheader big_endian big_endian hdr).drop 24).take 4
        = lsb_first 4 (to_uint32 hdr.srate) ∧
    ((write_wavheader big_endian big_endian hdr).drop 28).take 4
        = lsb_first 4 (to_uint32 hdr.byterate) ∧
    ((write_wavheader big_endian big_endian hdr).drop 32).take 2
      = lsb_first 2 (to_uint16 hdr.blockalign) ∧
    ((write_wavheader big_endian big_endian hdr).drop 34).take 2
        = lsb_first 2 (to_uint16 hdr.bitdepth) ∧
    ((write_wavheader big_endian big_endian hdr).drop 36).take 4 = hdr.subchunk2id ∧
    ((write_wavheader big_endian big_endian hdr).drop 40).take 4
      = lsb_first 4 (to_uint32 hdr.subchunk2size) := by
  rw [write_wavheader_aux big_endian hdr h1 h2 h3 h4]
  obtain ⟨a1, a2, a3, a4, e1⟩ := four_of_length _ h1
  obtain ⟨b1, b2, b3, b4, e2⟩ := four_of_length _ h2
  obtain ⟨c1, c2, c3, c4, e3⟩ := four_of_length _ h3
  obtain ⟨d1, d2, d3, d4, e4⟩ := four_of_length _ h4
  rw [e1, e2, e3, e4]
  simp only [lsb_first_two, lsb_first_four, List.cons_append, List.nil_append,
    List.append_assoc]
  refine ⟨by simp, by simp, by simp, by simp, by simp, by simp, by simp, by simp, by simp,
    by simp, by simp, by simp, by simp, by simp⟩

/-! ## Lemmas on `wav_prepare_pcm` -/

theorem set_getD_self : ∀ (l : List Nat) (i : Nat), l.set i (l.getD i 0) = l
  | [], _ => rfl
  | _ :: _, 0 => rfl
  | a :: l, i + 1 => by
    have h := set_getD_self l i
    simp only [List.getD_cons_succ, List.set_cons_succ, h]

/-- When the conversion leaves a byte as it is, the loop returns the buffer unchanged. -/
theorem wav_prepare_loop_id (conv : Nat → Nat) (step n : Nat) (buf : List Nat)
    (hstep : 0 < step) (hs : step < 2 ^ 63) (hconv : ∀ b, b < 256 → conv b % 256 = b)
    (hbytes : ∀ b ∈ buf, b < 256) (hn : n ≤ buf.length) (hlen : buf.length < 2 ^ 63) :
    ∀ fuel i, 1 ≤ fuel → n < fuel + i → wav_prepare_loop conv step n fuel i buf = some buf := by
  intro fuel
  induction fuel with
  | zero => intro i h; omega
  | succ k ih =>
    intro i _ h2
    unfold wav_prepare_loop
    by_cases hi : i < n
    · have hib : i < buf.length := by omega
      rw [if_pos hi, if_pos hib]
      have hget : buf.getD i 0 = buf[i] := List.getD_eq_getElem _ _ hib
      have hb : buf[i] < 256 := hbytes _ (List.getElem_mem hib)
      rw [hconv _ (by rw [hget]; exact hb), set_getD_self, Nat.mod_eq_of_lt (by omega)]
      exact ih (i + step) (by omega) (by omega)
    · rw [if_neg hi]

/-- On a little-endian host `wav_prepare_pcm` with bit depth 16 or 32 returns 0 and leaves the
buffer, whose samples are already least significant byte first, unchanged. -/
theorem wav_prepare_pcm_little_endian (buf : List Nat) (bitdepth nchannels nsamples : Int)
    (hd : bitdepth = 16 ∨ bitdepth = 32) (hbytes : ∀ b ∈ buf, b < 256)
    (h0 : 0 ≤ nchannels * nsamples) (hn : nchannels * nsamples ≤ buf.length)
    (hlen : buf.length < 2 ^ 31) :
    wav_prepare_pcm false buf bitdepth nchannels nsamples = some (0, buf) := by
  have hlen1 : (buf.length : Int) < 2 ^ 31 := by exact_mod_cast hlen
  have hn1 : (nchannels * nsamples % 2 ^ 64).toNat ≤ buf.length := by omega
  have h8 : bitdepth ≠ 8 := by omega
  have c16 : ∀ b, b < 256 → (fun b => le16 false (b % 2 ^ 16)) b % 256 = b := by
    intro b hb
    simp only [le16, Bool.false_eq_true, if_false, Nat.reducePow]
    omega
  have c32 : ∀ b, b < 256 → (fun b => le32 false (b % 2 ^ 32)) b % 256 = b := by
    intro b hb
    simp only [le32, Bool.false_eq_true, if_false, Nat.reducePow]
    omega
  unfold wav_prepare_pcm
  rw [if_neg h8]
  by_cases h16 : bitdepth = 16
  · rw [if_pos h16]
    unfold wav_prepare_for
    simp only []
    rw [if_neg (by omega), wav_prepare_loop_id _ 2 _ buf (by decide) (by decide) c16 hbytes hn1
      (by omega) _ 0 (by omega) (by omega)]
  · have h32 : bitdepth = 32 := by omega
    rw [if_neg h16, if_pos h32]
    unfold wav_prepare_for
    simp only []
    rw [if_neg (by omega), wav_prepare_loop_id _ 4 _ buf (by decide) (by decide) c32 hbytes hn1
      (by omega) _ 0 (by omega) (by omega)]

/-! ## Claims on the note and tempo events and on file initialisation -/

/-- C21. For every track, every delta time (a `uint32_t`), every channel up to 15, every pitch
up to 127 and every velocity, `miditrack_noteon` returns 0 and appends exactly the bytes of
`enc_varint32` for the delta followed by the three bytes `0x90 | channel`, pitch and
`min(velocity, 127)`, and `miditrack_noteoff` does the same with the status byte
`0x80 | channel`; on an empty track a note-on with velocity 200 is stored with velocity 127. -/
theorem miditrack_note_appends (trk : miditrack_t) (delta channel pitch velocity : Nat)
    (hd : delta < 2 ^ 32) (hc : channel ≤ 15) (hp : pitch ≤ 127) :
    enc_varint32 delta = some ((varint_bytes delta).length, varint_bytes delta) ∧
    (∃ trk1, miditrack_noteon trk delta channel pitch velocity = some (0, trk1) ∧
      trk1.events =
        trk.events ++ varint_bytes delta ++ [0x90 ||| channel, pitch, min velocity 127]) ∧
    (∃ trk2, miditrack_noteoff trk delta channel pitch velocity = some (0, trk2) ∧
      trk2.events =
        trk.events ++ varint_bytes delta ++ [0x80 ||| channel, pitch, min velocity 127]) ∧
    miditrack_noteon ⟨[0x4d, 0x54, 0x72, 0x6b], 0, [], 16384⟩ 0 0 60 200 =
      some (0, ⟨[0x4d, 0x54, 0x72, 0x6b], 0, [0x00, 0x90, 60, 127], 16384⟩) :=
  ⟨varint_bytes_spec delta hd, miditrack_noteon_appends trk delta channel pitch velocity hd hc hp,
    miditrack_noteoff_appends trk delta channel pitch velocity hd hc hp, by decide⟩

/-- C21 (witness). Channel 3, pitch 60, velocity 200 at delta 96 on an empty track. -/
theorem miditrack_note_appends_witness :
    (96 < 2 ^ 32 ∧ 3 ≤ 15 ∧ 60 ≤ 127) ∧
    (∃ trk1, miditrack_noteon ⟨[0x4d, 0x54, 0x72, 0x6b], 0, [], 16384⟩ 96 3 60 200
        = some (0, trk1) ∧
      trk1.events = [] ++ varint_bytes 96 ++ [0x90 ||| 3, 60, min 200 127]) ∧
    (∃ trk2, miditrack_noteoff ⟨[0x4d, 0x54, 0x72, 0x6b], 0, [], 16384⟩ 96 3 60 200
        = some (0, trk2) ∧
      trk2.events = [] ++ varint_bytes 96 ++ [0x80 ||| 3, 60, min 200 127]) :=
  ⟨by decide,
    (miditrack_note_appends ⟨[0x4d, 0x54, 0x72, 0x6b], 0, [], 16384⟩ 96 3 60 200
      (by decide) (by decide) (by decide)).2.1,
    (miditrack_note_appends ⟨[0x4d, 0x54, 0x72, 0x6b], 0, [], 16384⟩ 96 3 60 200
      (by decide) (by decide) (by decide)).2.2.1⟩

/-- C22. For every track and every delta time, `miditrack_settempo` with `bpm = 0` returns 1
and leaves the track as it was: the payload (and with it the cursor), the capacity and the two
header fields are unchanged. -/
theorem miditrack_settempo_zero_bpm (trk : miditrack_t) (delta : Nat) :
    miditrack_settempo trk delta 0 = some (1, trk) ∧
    ∀ r trk1, miditrack_settempo trk delta 0 = some (r, trk1) →
      r ≠ 0 ∧ trk1.events = trk.events ∧ trk1.events.length = trk.events.length ∧
      trk1.events_size = trk.events_size := by
  have h : miditrack_settempo trk delta 0 = some (1, trk) := by simp [miditrack_settempo]
  refine ⟨h, ?_⟩
  intro r trk1 h1
  rw [h] at h1
  simp only [Option.some.injEq, Prod.mk.injEq] at h1
  obtain ⟨hr, ht⟩ := h1
  subst hr
  subst ht
  exact ⟨by decide, rfl, rfl, rfl⟩

/-- C23 (counterexample). With `bpm = 1` the set-tempo event on an empty track is
`00 FF 51 03 93 87 00`: its three data bytes, read most significant byte first, are
`9668352 = 60000000 mod 2 ^ 24`, not `60000000 / 1`, a value that three bytes cannot hold; so
no result of the call has the three data bytes the claim describes. With `bpm = 3` the bytes
are `31 2D 00`, that is `3222784`, not `60000000 / 3 = 20000000`. -/
theorem miditrack_settempo_slow_tempo :
    miditrack_settempo ⟨[0x4d, 0x54, 0x72, 0x6b], 0, [], 16384⟩ 0 1 =
      some (0, ⟨[0x4d, 0x54, 0x72, 0x6b], 0, [0x00, 0xff, 0x51, 0x03, 0x93, 0x87, 0x00],
        16384⟩) ∧
    0x93 * 65536 + 0x87 * 256 + 0x00 = 60000000 % 2 ^ 24 ∧
    0x93 * 65536 + 0x87 * 256 + 0x00 ≠ 60000000 / 1 ∧
    (¬ ∃ trk1 b0 b1 b2, miditrack_settempo ⟨[0x4d, 0x54, 0x72, 0x6b], 0, [], 16384⟩ 0 1 =
        some (0, trk1) ∧
      trk1.events = [] ++ varint_bytes 0 ++ [0xff, 0x51, 0x03] ++ [b0, b1, b2] ∧
      b0 * 65536 + b1 * 256 + b2 = 60000000 / 1) ∧
    miditrack_settempo ⟨[0x4d, 0x54, 0x72, 0x6b], 0, [], 16384⟩ 0 3 =
      some (0, ⟨[0x4d, 0x54, 0x72, 0x6b], 0, [0x00, 0xff, 0x51, 0x03, 0x31, 0x2d, 0x00],
        16384⟩) ∧
    0x31 * 65536 + 0x2d * 256 + 0x00 ≠ 60000000 / 3 := by
  have e : miditrack_settempo ⟨[0x4d, 0x54, 0x72, 0x6b], 0, [], 16384⟩ 0 1 =
      some (0, ⟨[0x4d, 0x54, 0x72, 0x6b], 0, [0x00, 0xff, 0x51, 0x03, 0x93, 0x87, 0x00],
        16384⟩) := by decide
  refine ⟨e, by decide, by decide, ?_, by decide, by decide⟩
  rintro ⟨trk1, b0, b1, b2, h1, h2, h3⟩
  rw [e] at h1
  simp only [Option.some.injEq, Prod.mk.injEq, true_and] at h1
  subst h1
  simp only [varint_bytes_zero, List.nil_append, List.cons_append, List.cons.injEq,
    true_and, and_true] at h2
  omega

/-- C23 (amended). For every track, every delta time (a `uint32_t`) and every `bpm ≥ 4`,
`miditrack_settempo` returns 0 and appends exactly the bytes of `enc_varint32` for the delta
followed by `FF 51 03` and three bytes which, read most significant byte first as a 24-bit
number, equal `60000000 / bpm` (integer division). -/
theorem miditrack_settempo_tempo_bytes (trk : miditrack_t) (delta bpm : Nat)
    (hd : delta < 2 ^ 32) (h4 : 4 ≤ bpm) :
    enc_varint32 delta = some ((varint_bytes delta).length, varint_bytes delta) ∧
    ∃ trk1 b0 b1 b2, miditrack_settempo trk delta bpm = some (0, trk1) ∧
      trk1.events = trk.events ++ varint_bytes delta ++ [0xff, 0x51, 0x03] ++ [b0, b1, b2] ∧
      b0 < 256 ∧ b1 < 256 ∧ b2 < 256 ∧
      b0 * 65536 + b1 * 256 + b2 = 60000000 / bpm :=
  ⟨varint_bytes_spec delta hd, miditrack_settempo_value trk delta bpm hd h4⟩

/-- C23 (witness). The tempo 120 at delta 0 on an empty track: the event `00 FF 51 03 07 A1 20`,
whose data bytes are `500000 = 60000000 / 120`. -/
theorem miditrack_settempo_tempo_bytes_witness :
    (0 < 2 ^ 32 ∧ 4 ≤ 120) ∧
    (∃ trk1 b0 b1 b2, miditrack_settempo ⟨[0x4d, 0x54, 0x72, 0x6b], 0, [], 16384⟩ 0 120 =
        some (0, trk1) ∧
      trk1.events = [] ++ varint_bytes 0 ++ [0xff, 0x51, 0x03] ++ [b0, b1, b2] ∧
      b0 < 256 ∧ b1 < 256 ∧ b2 < 256 ∧
      b0 * 65536 + b1 * 256 + b2 = 60000000 / 120) ∧
    miditrack_settempo ⟨[0x4d, 0x54, 0x72, 0x6b], 0, [], 16384⟩ 0 120 =
      some (0, ⟨[0x4d, 0x54, 0x72, 0x6b], 0, [0x00, 0xff, 0x51, 0x03, 0x07, 0xa1, 0x20],
        16384⟩) :=
  ⟨by decide,
    (miditrack_settempo_tempo_bytes ⟨[0x4d, 0x54, 0x72, 0x6b], 0, [], 16384⟩ 0 120
      (by decide) (by decide)).2,
    by decide⟩

/-- C24. For every format, track count, time division and track buffer size, `init_midifile`
returns 0, the header's track count is the one given (1 when it is given as 0), and the file
has exactly that many tracks, track `t` having the chunk id `MTrk`, an empty payload (the
cursor at the start of the buffer), a capacity equal to the buffer size given (16384 when it is
given as 0), and the `chunksize` the memory held, which is not assigned. -/
theorem init_midifile_tracks (raw : Nat → miditrack_t)
    (format ntracks nticks track_bufsize : Nat) :
    (init_midifile raw format ntracks nticks track_bufsize).1 = 0 ∧
    (init_midifile raw format ntracks nticks track_bufsize).2.header.ntracks =
      (if ntracks = 0 then 1 else ntracks) ∧
    (init_midifile raw format ntracks nticks track_bufsize).2.tracks.length =
      (init_midifile raw format ntracks nticks track_bufsize).2.header.ntracks ∧
    (init_midifile raw format ntracks nticks track_bufsize).2.tracks =
      (List.range (if ntracks = 0 then 1 else ntracks)).map (fun t =>
        ⟨[0x4d, 0x54, 0x72, 0x6b], (raw t).chunksize, [],
          if track_bufsize = 0 then 16384 else track_bufsize⟩) := by
  rw [init_midifile_aux]
  refine ⟨rfl, ?_, ?_, rfl⟩
  · simp [init_midiheader]
  · simp [init_midiheader]

/-! ## Claims on the WAVE header and on byte order -/

/-- C25. For every bit depth, channel count and sample rate for which the quotient
`nchannels * bitdepth / 8` (C division, truncating toward zero) fits the `int16_t` field and the
product of the sample rate with it fits the `int32_t` field, `init_wavheader` sets `blockalign`
to that quotient (the floor quotient when the product is not negative), `byterate` to
`srate * blockalign`, `subchunk1size` to 16 and the four tags to `RIFF`, `WAVE`, `fmt ` and
`data`. -/
theorem init_wavheader_fields (hdr : wavheader_t) (bitdepth nchannels srate : Int)
    (hb1 : -(2 ^ 15) ≤ Int.tdiv (nchannels * bitdepth) 8)
    (hb2 : Int.tdiv (nchannels * bitdepth) 8 < 2 ^ 15)
    (hr1 : -(2 ^ 31) ≤ srate * Int.tdiv (nchannels * bitdepth) 8)
    (hr2 : srate * Int.tdiv (nchannels * bitdepth) 8 < 2 ^ 31) :
    ∃ hdr1, init_wavheader hdr bitdepth nchannels srate = some hdr1 ∧
      hdr1.blockalign = Int.tdiv (nchannels * bitdepth) 8 ∧
      (0 ≤ nchannels * bitdepth → hdr1.blockalign = nchannels * bitdepth / 8) ∧
      hdr1.byterate = srate * hdr1.blockalign ∧
      hdr1.subchunk1size = 16 ∧
      hdr1.chunkid = [0x52, 0x49, 0x46, 0x46] ∧
      hdr1.format = [0x57, 0x41, 0x56, 0x45] ∧
      hdr1.subchunk1id = [0x66, 0x6d, 0x74, 0x20] ∧
      hdr1.subchunk2id = [0x64, 0x61, 0x74, 0x61] :=
  ⟨_, init_wavheader_aux hdr bitdepth nchannels srate hb1 hb2 hr1 hr2, rfl,
    fun h => Int.tdiv_eq_ediv h (by decide), rfl, rfl, rfl, rfl, rfl, rfl⟩

/-- C25 (witness). The header for 16 bits, 2 channels, 44100 Hz: block alignment 4 and byte
rate 176400. -/
theorem init_wavheader_fields_witness :
    (-(2 ^ 15) ≤ Int.tdiv ((2 : Int) * 16) 8 ∧ Int.tdiv ((2 : Int) * 16) 8 < 2 ^ 15 ∧
      -(2 ^ 31) ≤ (44100 : Int) * Int.tdiv ((2 : Int) * 16) 8 ∧
      (44100 : Int) * Int.tdiv ((2 : Int) * 16) 8 < 2 ^ 31) ∧
    (∃ hdr1, init_wavheader ⟨[], 0, [], [], 0, 0, 0, 0, 0, 0, 0, [], 0⟩ 16 2 44100 = some hdr1 ∧
      hdr1.blockalign = Int.tdiv ((2 : Int) * 16) 8 ∧
      (0 ≤ (2 : Int) * 16 → hdr1.blockalign = (2 : Int) * 16 / 8) ∧
      hdr1.byterate = 44100 * hdr1.blockalign ∧
      hdr1.subchunk1size = 16 ∧
      hdr1.chunkid = [0x52, 0x49, 0x46, 0x46] ∧
      hdr1.format = [0x57, 0x41, 0x56, 0x45] ∧
      hdr1.subchunk1id = [0x66, 0x6d, 0x74, 0x20] ∧
      hdr1.subchunk2id = [0x64, 0x61, 0x74, 0x61]) ∧
    init_wavheader ⟨[], 0, [], [], 0, 0, 0, 0, 0, 0, 0, [], 0⟩ 16 2 44100 =
      some ⟨[0x52, 0x49, 0x46, 0x46], 0, [0x57, 0x41, 0x56, 0x45], [0x66, 0x6d, 0x74, 0x20],
        16, 1, 2, 44100, 176400, 4, 16, [0x64, 0x61, 0x74, 0x61], 0⟩ :=
  ⟨by decide,
    init_wavheader_fields ⟨[], 0, [], [], 0, 0, 0, 0, 0, 0, 0, [], 0⟩ 16 2 44100
      (by decide) (by decide) (by decide) (by decide),
    by decide⟩

/-- C26. For every header and every total file size from 44 to `2 ^ 31 - 1`,
`finalise_wavheader` sets `chunksize` to the file size minus 8 and `subchunk2size` to the file
size minus 44, the value of `get_wavheader_len()`, and leaves the other fields as they were. -/
theorem finalise_wavheader_sizes (hdr : wavheader_t) (fsize : Int) (h1 : 44 ≤ fsize)
    (h2 : fsize ≤ 2 ^ 31 - 1) :
    (finalise_wavheader hdr fsize).chunksize = fsize - 8 ∧
    (finalise_wavheader hdr fsize).subchunk2size = fsize - (get_wavheader_len : Int) ∧
    get_wavheader_len = 44 ∧
    finalise_wavheader hdr fsize =
      { hdr with chunksize := fsize - 8, subchunk2size := fsize - 44 } := by
  rw [finalise_wavheader_aux hdr fsize h1 h2]
  exact ⟨rfl, rfl, rfl, rfl⟩

/-- C26 (witness). A file of 1044 bytes: `chunksize = 1036` and `subchunk2size = 1000`. -/
theorem finalise_wavheader_sizes_witness :
    ((44 : Int) ≤ 1044 ∧ (1044 : Int) ≤ 2 ^ 31 - 1) ∧
    (finalise_wavheader ⟨[0x52, 0x49, 0x46, 0x46], 0, [0x57, 0x41, 0x56, 0x45],
        [0x66, 0x6d, 0x74, 0x20], 16, 1, 2, 44100, 176400, 4, 16, [0x64, 0x61, 0x74, 0x61], 0⟩
        1044).chunksize = 1044 - 8 ∧
    (finalise_wavheader ⟨[0x52, 0x49, 0x46, 0x46], 0, [0x57, 0x41, 0x56, 0x45],
        [0x66, 0x6d, 0x74, 0x20], 16, 1, 2, 44100, 176400, 4, 16, [0x64, 0x61, 0x74, 0x61], 0⟩
        1044).subchunk2size = 1044 - (get_wavheader_len : Int) ∧
    finalise_wavheader ⟨[0x52, 0x49, 0x46, 0x46], 0, [0x57, 0x41, 0x56, 0x45],
        [0x66, 0x6d, 0x74, 0x20], 16, 1, 2, 44100, 176400, 4, 16, [0x64, 0x61, 0x74, 0x61], 0⟩
        1044 =
      ⟨[0x52, 0x49, 0x46, 0x46], 1036, [0x57, 0x41, 0x56, 0x45],
        [0x66, 0x6d, 0x74, 0x20], 16, 1, 2, 44100, 176400, 4, 16, [0x64, 0x61, 0x74, 0x61],
        1000⟩ :=
  ⟨by decide,
    (finalise_wavheader_sizes ⟨[0x52, 0x49, 0x46, 0x46], 0, [0x57, 0x41, 0x56, 0x45],
        [0x66, 0x6d, 0x74, 0x20], 16, 1, 2, 44100, 176400, 4, 16, [0x64, 0x61, 0x74, 0x61], 0⟩
      1044 (by decide) (by decide)).1,
    (finalise_wavheader_sizes ⟨[0x52, 0x49, 0x46, 0x46], 0, [0x57, 0x41, 0x56, 0x45],
        [0x66, 0x6d, 0x74, 0x20], 16, 1, 2, 44100, 176400, 4, 16, [0x64, 0x61, 0x74, 0x61], 0⟩
      1044 (by decide) (by decide)).2.1,
    by decide⟩

/-- C27 (evaluation at the failing input). On a host that stores the most significant byte
first and whose `<stdint.h>` does not define `__BYTE_ORDER`, `endianness.c` is compiled with
`IS_BIG_ENDIAN` 0, so `le16` and `le32` return their argument and every integer field of the
header is written as it lies in memory, most significant byte first: the header for 16 bits,
2 channels, 44100 Hz and a file of 1044 bytes is written with `00 00 04 0C` at offset 4, where
the claim requires `0C 04 00 00`, and likewise for the other eight integer fields. The 44
bytes, the offsets and the tags are as claimed. The claimed bytes are written on a
little-endian host and on a big-endian host where the macro is 1; for every header whose tags
hold four characters each the output is the tags and the integer fields (two's-complement
values) least significant byte first whenever the macro states the byte order of the host. -/
theorem write_wavheader_big_endian_host :
    IS_BIG_ENDIAN none none = false ∧
    write_wavheader (IS_BIG_ENDIAN none none) true
        ⟨[0x52, 0x49, 0x46, 0x46], 1036, [0x57, 0x41, 0x56, 0x45],
        [0x66, 0x6d, 0x74, 0x20], 16, 1, 2, 44100, 176400, 4, 16, [0x64, 0x61, 0x74, 0x61],
        1000⟩ =
      [0x52, 0x49, 0x46, 0x46, 0x00, 0x00, 0x04, 0x0c, 0x57, 0x41, 0x56, 0x45,
       0x66, 0x6d, 0x74, 0x20, 0x00, 0x00, 0x00, 0x10, 0x00, 0x01, 0x00, 0x02,
       0x00, 0x00, 0xac, 0x44, 0x00, 0x02, 0xb1, 0x10, 0x00, 0x04, 0x00, 0x10,
       0x64, 0x61, 0x74, 0x61, 0x00, 0x00, 0x03, 0xe8] ∧
    (write_wavheader (IS_BIG_ENDIAN none none) true
        ⟨[0x52, 0x49, 0x46, 0x46], 1036, [0x57, 0x41, 0x56, 0x45],
        [0x66, 0x6d, 0x74, 0x20], 16, 1, 2, 44100, 176400, 4, 16, [0x64, 0x61, 0x74, 0x61],
        1000⟩).length = 44 ∧
    ((write_wavheader (IS_BIG_ENDIAN none none) true
        ⟨[0x52, 0x49, 0x46, 0x46], 1036, [0x57, 0x41, 0x56, 0x45],
        [0x66, 0x6d, 0x74, 0x20], 16, 1, 2, 44100, 176400, 4, 16, [0x64, 0x61, 0x74, 0x61],
        1000⟩).drop 4).take 4 ≠ lsb_first 4 1036 ∧
    lsb_first 4 1036 = [0x0c, 0x04, 0x00, 0x00] ∧
    write_wavheader (IS_BIG_ENDIAN none none) false
        ⟨[0x52, 0x49, 0x46, 0x46], 1036, [0x57, 0x41, 0x56, 0x45],
        [0x66, 0x6d, 0x74, 0x20], 16, 1, 2, 44100, 176400, 4, 16, [0x64, 0x61, 0x74, 0x61],
        1000⟩ =
      [0x52, 0x49, 0x46, 0x46, 0x0c, 0x04, 0x00, 0x00, 0x57, 0x41, 0x56, 0x45,
       0x66, 0x6d, 0x74, 0x20, 0x10, 0x00, 0x00, 0x00, 0x01, 0x00, 0x02, 0x00,
       0x44, 0xac, 0x00, 0x00, 0x10, 0xb1, 0x02, 0x00, 0x04, 0x00, 0x10, 0x00,
       0x64, 0x61, 0x74, 0x61, 0xe8, 0x03, 0x00, 0x00] ∧
    write_wavheader (IS_BIG_ENDIAN (some true) none) true
        ⟨[0x52, 0x49, 0x46, 0x46], 1036, [0x57, 0x41, 0x56, 0x45],
        [0x66, 0x6d, 0x74, 0x20], 16, 1, 2, 44100, 176400, 4, 16, [0x64, 0x61, 0x74, 0x61],
        1000⟩ =
      [0x52, 0x49, 0x46, 0x46, 0x0c, 0x04, 0x00, 0x00, 0x57, 0x41, 0x56, 0x45,
       0x66, 0x6d, 0x74, 0x20, 0x10, 0x00, 0x00, 0x00, 0x01, 0x00, 0x02, 0x00,
       0x44, 0xac, 0x00, 0x00, 0x10, 0xb1, 0x02, 0x00, 0x04, 0x00, 0x10, 0x00,
       0x64, 0x61, 0x74, 0x61, 0xe8, 0x03, 0x00, 0x00] ∧
    ∀ (big_endian : Bool) (hdr : wavheader_t),
      hdr.chunkid.length = 4 → hdr.format.length = 4 →
      hdr.subchunk1id.length = 4 → hdr.subchunk2id.length = 4 →
      write_wavheader big_endian big_endian hdr =
        hdr.chunkid ++ lsb_first 4 (to_uint32 hdr.chunksize) ++ hdr.format ++ hdr.subchunk1id
          ++ lsb_first 4 (to_uint32 hdr.subchunk1size)
          ++ lsb_first 2 (to_uint16 hdr.audioformat)
          ++ lsb_first 2 (to_uint16 hdr.nchannels) ++ lsb_first 4 (to_uint32 hdr.srate)
          ++ lsb_first 4 (to_uint32 hdr.byterate) ++ lsb_first 2 (to_uint16 hdr.blockalign)
          ++ lsb_first 2 (to_uint16 hdr.bitdepth) ++ hdr.subchunk2id
          ++ lsb_first 4 (to_uint32 hdr.subchunk2size) :=
  ⟨by decide, by decide, by decide, by decide, by decide, by decide, by decide,
    fun big_endian hdr h1 h2 h3 h4 => write_wavheader_aux big_endian hdr h1 h2 h3 h4⟩

/-- C28. For every value of the `int16_t` parameter, `get_wav_format` returns
`WAVE_FORMAT_PCM` (1) when the value is 8 or 16, `WAVE_FORMAT_IEEE_FLOAT` (3) when it is 32 and
`WAVE_FORMAT_UNKNOWN` (0) for every other value; the arguments 0, 100000000 and -100000000,
the last two converted to `int16_t` by the call, give `WAVE_FORMAT_UNKNOWN`. -/
theorem get_wav_format_cases (bitdepth : Int) :
    (bitdepth = 8 ∨ bitdepth = 16 → get_wav_format bitdepth = 1) ∧
    (bitdepth = 32 → get_wav_format bitdepth = 3) ∧
    (bitdepth ≠ 8 ∧ bitdepth ≠ 16 ∧ bitdepth ≠ 32 → get_wav_format bitdepth = 0) ∧
    (WAVE_FORMAT_PCM = 1 ∧ WAVE_FORMAT_IEEE_FLOAT = 3 ∧ WAVE_FORMAT_UNKNOWN = 0) ∧
    get_wav_format 0 = 0 ∧
    get_wav_format (to_int16 100000000) = 0 ∧
    get_wav_format (to_int16 (-100000000)) = 0 := by
  refine ⟨?_, ?_, ?_, by decide, by decide, by decide, by decide⟩
  · intro h
    simp [get_wav_format, h, WAVE_FORMAT_PCM]
  · intro h
    subst h
    decide
  · rintro ⟨h8, h16, h32⟩
    simp [get_wav_format, h8, h16, h32, WAVE_FORMAT_UNKNOWN]

/-- C29 (evaluation at the failing input). On a big-endian host, `wav_prepare_pcm` with bit
depth 16, one channel and two sample frames turns the buffer `12 34 56 78` (the samples
`0x1234` and `0x5678` in host order) into `00 34 56 78` and returns 0: the one byte
`samplesbuffer[0]` is passed to `le16` and the low byte of the swapped value, which is 0, is
stored back, and the second sample is not reached; the little-endian form of the two samples
is `34 12 78 56`. With bit depth 32 and one sample frame the same buffer also becomes
`00 34 56 78`, not `78 56 34 12`. On a little-endian host both calls return 0 and leave the
buffer unchanged; with bit depth 8 the buffer is unchanged on either host, and bit depth 24
gives status 1. -/
theorem wav_prepare_pcm_big_endian_host :
    wav_prepare_pcm true [0x12, 0x34, 0x56, 0x78] 16 1 2 = some (0, [0x00, 0x34, 0x56, 0x78]) ∧
    lsb_first 2 0x1234 ++ lsb_first 2 0x5678 = [0x34, 0x12, 0x78, 0x56] ∧
    wav_prepare_pcm true [0x12, 0x34, 0x56, 0x78] 32 1 1 = some (0, [0x00, 0x34, 0x56, 0x78]) ∧
    lsb_first 4 0x12345678 = [0x78, 0x56, 0x34, 0x12] ∧
    wav_prepare_pcm false [0x34, 0x12, 0x78, 0x56] 16 1 2 = some (0, [0x34, 0x12, 0x78, 0x56]) ∧
    wav_prepare_pcm false [0x78, 0x56, 0x34, 0x12] 32 1 1 = some (0, [0x78, 0x56, 0x34, 0x12]) ∧
    wav_prepare_pcm true [0x12, 0x34] 8 1 2 = some (0, [0x12, 0x34]) ∧
    wav_prepare_pcm false [0x12, 0x34] 8 1 2 = some (0, [0x12, 0x34]) ∧
    wav_prepare_pcm true [0x12, 0x34, 0x56] 24 1 1 = some (1, [0x12, 0x34, 0x56]) := by
  refine ⟨by decide, by decide, by decide, by decide, by decide, by decide, by decide,
    by decide, by decide⟩

/-- C30 (evaluation at the failing input). On a host that stores the most significant byte
first and whose `<stdint.h>` does not define `__BYTE_ORDER`, `endianness.c` is compiled with
`IS_BIG_ENDIAN` 0: `be16` and `be32` reverse the bytes although the host order is the target
order, so that `be16(0x1234)` lies in memory as `34 12` and `be32(0x12345678)` as
`78 56 34 12`, least significant byte first; `le16` and `le32` are the identity although the
host order differs from the target order, so that `le16(0x1234)` lies in memory as `12 34` and
`le32(0x12345678)` as `12 34 56 78`, most significant byte first. Whenever the macro states
the byte order of the host, for every 16-bit `x` and 32-bit `y`, the memory images of `be16 x`
and `be32 y` are the bytes of the value most significant first and those of `le16 x` and
`le32 y` least significant first; each function is the identity or `byteswap16`, `byteswap32`
according to the macro, and the memory image of a swapped value is the image of the argument
reversed on either host. -/
theorem endian_conversions_big_endian_host :
    IS_BIG_ENDIAN none none = false ∧
    (host_bytes16 true (be16 (IS_BIG_ENDIAN none none) 0x1234) = [0x34, 0x12] ∧
      msb_first 2 0x1234 = [0x12, 0x34] ∧
      host_bytes32 true (be32 (IS_BIG_ENDIAN none none) 0x12345678) = [0x78, 0x56, 0x34, 0x12] ∧
      msb_first 4 0x12345678 = [0x12, 0x34, 0x56, 0x78] ∧
      host_bytes16 true (le16 (IS_BIG_ENDIAN none none) 0x1234) = [0x12, 0x34] ∧
      lsb_first 2 0x1234 = [0x34, 0x12] ∧
      host_bytes32 true (le32 (IS_BIG_ENDIAN none none) 0x12345678) = [0x12, 0x34, 0x56, 0x78] ∧
      lsb_first 4 0x12345678 = [0x78, 0x56, 0x34, 0x12]) ∧
    (be16 (IS_BIG_ENDIAN none none) 0x1234 = byteswap16 0x1234 ∧ byteswap16 0x1234 = 0x3412 ∧
      be32 (IS_BIG_ENDIAN none none) 0x12345678 = byteswap32 0x12345678 ∧
      byteswap32 0x12345678 = 0x78563412 ∧
      le16 (IS_BIG_ENDIAN none none) 0x1234 = 0x1234 ∧
      le32 (IS_BIG_ENDIAN none none) 0x12345678 = 0x12345678) ∧
    ∀ (big_endian : Bool) (x y : Nat), x < 2 ^ 16 → y < 2 ^ 32 →
      host_bytes16 big_endian (be16 big_endian x) = msb_first 2 x ∧
      host_bytes32 big_endian (be32 big_endian y) = msb_first 4 y ∧
      host_bytes16 big_endian (le16 big_endian x) = lsb_first 2 x ∧
      host_bytes32 big_endian (le32 big_endian y) = lsb_first 4 y ∧
      (be16 true x = x ∧ be32 true y = y ∧ le16 false x = x ∧ le32 false y = y) ∧
      (be16 false x = byteswap16 x ∧ be32 false y = byteswap32 y ∧
        le16 true x = byteswap16 x ∧ le32 true y = byteswap32 y) ∧
      host_bytes16 big_endian (byteswap16 x) = (host_bytes16 big_endian x).reverse ∧
      host_bytes32 big_endian (byteswap32 y) = (host_bytes32 big_endian y).reverse :=
  ⟨by decide, by decide, by decide,
    fun big_endian x y hx hy =>
      ⟨host_bytes16_be16_msb big_endian x hx, host_bytes32_be32_msb big_endian y hy,
        host_bytes16_le16 big_endian x hx, host_bytes32_le32 big_endian y hy,
        ⟨rfl, rfl, rfl, rfl⟩, ⟨rfl, rfl, rfl, rfl⟩,
        host_bytes16_byteswap16 big_endian x hx, host_bytes32_byteswap32 big_endian y hy⟩⟩

/-! ## Lemmas on `startswith` -/

theorem isPrefixOf_iff_append (b a : List Char) :
    b.isPrefixOf a = true ↔ ∃ t, a = b ++ t := by
  simp only [List.isPrefixOf_iff_prefix]
  constructor
  · rintro ⟨t, ht⟩
    exact ⟨t, ht.symm⟩
  · rintro ⟨t, ht⟩
    exact ⟨t, ht.symm⟩

theorem strstr_zero_iff (a b : List Char) : strstr a b = some 0 ↔ b.isPrefixOf a = true := by
  cases a with
  | nil =>
    cases b with
    | nil => simp [strstr]
    | cons d b => simp [strstr, List.isPrefixOf]
  | cons c rest =>
    unfold strstr
    by_cases h : b.isPrefixOf (c :: rest) = true
    · simp [h]
    · simp only [h, Bool.false_eq_true, if_false, iff_false]
      cases strstr rest b <;> simp

/-- `startswith a b` is 1 exactly when `a` is `b` followed by some string. -/
theorem startswith_spec (a b : List Char) :
    (startswith a b = 1 ↔ ∃ t, a = b ++ t) ∧ (startswith a b = 0 ↔ ¬ ∃ t, a = b ++ t) := by
  rw [← isPrefixOf_iff_append, ← strstr_zero_iff]
  unfold startswith
  by_cases h : strstr a b = some 0 <;> simp [h]

/-! ## Lemmas on the decoding of `enc_varint32` -/

theorem dec_varint32_snoc (l : List Nat) (hl : l ≠ []) (x : Nat) :
    dec_varint32 (l ++ [x]) = (dec_varint32 l + 1) * 128 + x % 128 := by
  cases l with
  | nil => exact absurd rfl hl
  | cons b rest => simp [dec_varint32, List.foldl_append]

/-- The bytes the loop of `enc_varint32` puts in front of the bytes already written decode,
together with the byte that holds the low seven bits of `val`, to `val`. -/
theorem enc_varint32_loop_decode (fuel : Nat) :
    ∀ (val pos : Nat) (buf : List Nat), pos < fuel → pos < 5 → buf.length = 5 →
      val < 128 ^ (pos + 1) →
      ∃ pos1 buf1 pre, enc_varint32_loop fuel val pos buf = some (pos1, buf1) ∧
        buf1.drop pos1 = pre ++ buf.drop pos ∧
        ∀ x, x % 128 = val % 128 → dec_varint32 (pre ++ [x]) = val := by
  induction fuel with
  | zero => intro val pos buf h; omega
  | succ fuel ih =>
    intro val pos buf hfuel hpos hlen hval
    have hshift : val >>> 7 = val / 128 := by simp [Nat.shiftRight_eq_div_pow]
    unfold enc_varint32_loop
    simp only [hshift]
    by_cases hpos0 : 0 < val / 128
    · have hp : 1 ≤ pos := by
        rcases Nat.eq_zero_or_pos pos with h0 | h0
        · subst h0
          have : val / 128 = 0 := Nat.div_eq_of_lt (by simpa using hval)
          omega
        · exact h0
      have hpos1 : (pos + 2 ^ 32 - 1) % 2 ^ 32 = pos - 1 := by omega
      have hdiv : val / 128 < 128 ^ pos := by
        apply Nat.div_lt_of_lt_mul
        rw [pow_succ] at hval
        rw [Nat.mul_comm]; exact hval
      have hval2 : val / 128 - 1 < 128 ^ (pos - 1 + 1) := by
        have : pos - 1 + 1 = pos := by omega
        rw [this]; omega
      obtain ⟨p1, b1, pre, he, hd, hdec⟩ :=
        ih (val / 128 - 1) (pos - 1)
          (buf.set (pos - 1) ((1 <<< 7) ||| ((val / 128 - 1) &&& ((1 <<< 7) - 1))))
          (by omega) (by omega) (by simpa using hlen) hval2
      refine ⟨p1, b1, pre ++ [128 + (val / 128 - 1) % 128], ?_, ?_, ?_⟩
      · simp only [hpos0, if_true, hpos1, gt_iff_lt, VARINT32_MAXSIZE]
        rw [if_pos (by omega)]
        exact he
      · rw [hd, drop_set_self buf (pos - 1) _ (by omega), varint_group_byte]
        have : pos - 1 + 1 = pos := by omega
        rw [this]; simp
      · intro x hx
        rw [dec_varint32_snoc _ (by simp), hdec _ (by omega), hx]
        omega
    · refine ⟨pos, buf, [], ?_, by simp, ?_⟩
      · simp [hpos0]
      · intro x hx
        have hlt : val < 128 := by
          have := Nat.div_add_mod val 128
          omega
        simp only [List.nil_append, dec_varint32, List.foldl_nil]
        omega

/-- Decoding the bytes of `enc_varint32` gives the value back. -/
theorem dec_varint32_enc (v : Nat) (hv : v < 2 ^ 32) : dec_varint32 (varint_bytes v) = v := by
  obtain ⟨p1, b1, pre, he, hd, hdec⟩ :=
    enc_varint32_loop_decode 32 v 4 ((List.replicate 5 0).set 4 (v &&& ((1 <<< 7) - 1)))
      (by decide) (by decide) (by simp) (by norm_num; omega)
  obtain ⟨q1, c1, pre2, he2, hle, hl, _, hpl, _⟩ :=
    enc_varint32_loop_spec 32 v 4 ((List.replicate 5 0).set 4 (v &&& ((1 <<< 7) - 1)))
      (by decide) (by decide) (by simp) (by norm_num; omega)
  rw [he] at he2
  simp only [Option.some.injEq, Prod.mk.injEq] at he2
  obtain ⟨hq, hc⟩ := he2
  subst hq
  subst hc
  have hdrop : ((List.replicate 5 0).set 4 (v &&& ((1 <<< 7) - 1))).drop 4 = [v % 128] := by
    rw [varint_last_byte]; rfl
  have hbytes : varint_bytes v = pre ++ [v % 128] := by
    simp only [varint_bytes, enc_varint32, VARINT32_MAXSIZE]
    simp only [show (4 + 1 - 1 : Nat) = 4 from rfl, show (4 + 1 : Nat) = 5 from rfl, he]
    rw [hd, hdrop]
    apply List.take_of_length_le
    have : (pre ++ [v % 128]).length = 5 - p1 := by
      rw [← hdrop, ← hd]; simp [hl]
    omega
  rw [hbytes]
  exact hdec _ (Nat.mod_mod _ _)

theorem enc_varint32_injective_aux (v w : Nat) (hv : v < 2 ^ 32) (hw : w < 2 ^ 32)
    (h : enc_varint32 v = enc_varint32 w) : v = w := by
  have hb : varint_bytes v = varint_bytes w := by simp only [varint_bytes, h]
  rw [← dec_varint32_enc v hv, ← dec_varint32_enc w hw, hb]

/-! ## Lemmas on the capacity of the event buffer -/

theorem miditrack_buffer_remaining_eq (trk : miditrack_t)
    (hcur : trk.events.length ≤ trk.events_size) (hsize : trk.events_size < 2 ^ 64) :
    miditrack_buffer_remaining trk = trk.events_size - trk.events.length := by
  unfold miditrack_buffer_remaining
  omega

/-- A successful `miditrack_addevent`: the capacity grows by `MIDIEVENTS_BUFINCR` exactly when
fewer than 263 bytes were free, and the event, of at most 263 bytes, then fits. -/
theorem miditrack_addevent_capacity (trk : miditrack_t) (d s d1 d2 : Nat)
    (extra : Option (List Nat)) (extralen : Nat) (hd : d < 2 ^ 32)
    (hx : ¬ (extra = none ∧ extralen > 0)) (hlen : extralen ≤ 255)
    (hcur : trk.events.length ≤ trk.events_size) (hsize : trk.events_size + 4096 < 2 ^ 64) :
    ∃ trk1, miditrack_addevent trk d s d1 d2 extra extralen = some (0, trk1) ∧
      trk1.events_size =
        (if trk.events_size - trk.events.length < 263 then trk.events_size + 4096
          else trk.events_size) ∧
      263 ≤ trk1.events_size - trk.events.length ∧
      trk1.events = trk.events ++ varint_bytes d ++ [s, d1, d2] ++ (extra.getD []).take extralen ∧
      trk1.events.length ≤ trk.events.length + 263 ∧
      trk1.events.length ≤ trk1.events_size := by
  have hrem := miditrack_buffer_remaining_eq trk hcur (by omega)
  have hv := varint_bytes_length_le d hd
  have hex : ((extra.getD []).take extralen).length ≤ 255 := by
    rw [List.length_take]; omega
  unfold miditrack_addevent
  rw [if_neg hx, varint_bytes_spec d hd, hrem]
  by_cases hr : trk.events_size - trk.events.length < 263
  · have hinc : (((trk.events_size : Int) + (MIDIEVENTS_BUFINCR : Int)) % 2 ^ 64).toNat
        = trk.events_size + 4096 := by
      simp only [MIDIEVENTS_BUFINCR]
      omega
    simp only [if_pos hr, miditrack_buffer_increase, hinc]
    refine ⟨_, rfl, rfl, ?_, rfl, ?_, ?_⟩
    · show 263 ≤ trk.events_size + 4096 - trk.events.length
      omega
    · simp only [List.length_append, List.length_cons, List.length_nil]
      omega
    · simp only [List.length_append, List.length_cons, List.length_nil]
      omega
  · simp only [if_neg hr]
    refine ⟨_, rfl, rfl, ?_, rfl, ?_, ?_⟩
    · show 263 ≤ trk.events_size - trk.events.length
      omega
    · simp only [List.length_append, List.length_cons, List.length_nil]
      omega
    · simp only [List.length_append, List.length_cons, List.length_nil]
      omega

/-- Whatever its status, a call of `miditrack_addevent` keeps the cursor inside the buffer. -/
theorem miditrack_addevent_within (trk : miditrack_t) (d s d1 d2 : Nat)
    (extra : Option (List Nat)) (extralen : Nat) (hd : d < 2 ^ 32) (hlen : extralen ≤ 255)
    (hcur : trk.events.length ≤ trk.events_size) (hsize : trk.events_size + 4096 < 2 ^ 64) :
    ∃ r trk1, miditrack_addevent trk d s d1 d2 extra extralen = some (r, trk1) ∧
      trk1.events.length ≤ trk1.events_size ∧ trk1.events_size ≤ trk.events_size + 4096 := by
  by_cases hx : extra = none ∧ extralen > 0
  · refine ⟨1, trk, ?_, hcur, by omega⟩
    simp only [miditrack_addevent, if_pos hx]
  · obtain ⟨trk1, h1, h2, _, _, _, h6⟩ :=
      miditrack_addevent_capacity trk d s d1 d2 extra extralen hd hx hlen hcur hsize
    refine ⟨0, trk1, h1, h6, ?_⟩
    rw [h2]
    split <;> omega

/-- Every call in range keeps the cursor inside the buffer. -/
theorem do_call_within (trk : miditrack_t) (call : track_call) (hr : call_in_range call)
    (hcur : trk.events.length ≤ trk.events_size) (hsize : trk.events_size + 4096 < 2 ^ 64) :
    ∃ r trk1, do_call trk call = some (r, trk1) ∧
      trk1.events.length ≤ trk1.events_size ∧ trk1.events_size ≤ trk.events_size + 4096 := by
  cases call with
  | noteon d c p v =>
    simp only [call_in_range] at hr
    simp only [do_call, miditrack_noteon]
    by_cases hb : c > MIDI_CHANNEL_MAX ∨ p > MIDI_PITCH_MAX
    · rw [if_pos hb]
      exact ⟨1, trk, rfl, hcur, by omega⟩
    · rw [if_neg hb]
      exact miditrack_addevent_within trk d _ _ _ none 0 hr.1 (by omega) hcur hsize
  | noteoff d c p v =>
    simp only [call_in_range] at hr
    simp only [do_call, miditrack_noteoff]
    by_cases hb : c > MIDI_CHANNEL_MAX ∨ p > MIDI_PITCH_MAX
    · rw [if_pos hb]
      exact ⟨1, trk, rfl, hcur, by omega⟩
    · rw [if_neg hb]
      exact miditrack_addevent_within trk d _ _ _ none 0 hr.1 (by omega) hcur hsize
  | settempo d bpm =>
    simp only [call_in_range] at hr
    simp only [do_call, miditrack_settempo]
    by_cases hb : bpm = 0
    · rw [if_pos hb]
      exact ⟨1, trk, rfl, hcur, by omega⟩
    · rw [if_neg hb]
      exact miditrack_addevent_within trk d _ _ _ _ 3 hr.1 (by omega) hcur hsize
  | endtrack d =>
    simp only [call_in_range] at hr
    simp only [do_call, miditrack_end]
    exact miditrack_addevent_within trk d _ _ _ none 0 hr (by omega) hcur hsize
  | addevent d s d1 d2 extra extralen =>
    simp only [call_in_range] at hr
    simp only [do_call]
    exact miditrack_addevent_within trk d s d1 d2 extra extralen hr.1 hr.2.2.2.2 hcur hsize

/-- A sequence of calls in range keeps the cursor inside the buffer. -/
theorem run_calls_within : ∀ (calls : List track_call) (trk : miditrack_t)
    (last : Option track_call), (∀ c ∈ calls, call_in_range c) →
    trk.events.length ≤ trk.events_size →
    trk.events_size + 4096 * calls.length < 2 ^ 64 →
    ∃ trk1 last1, run_calls trk last calls = some (trk1, last1) ∧
      trk1.events.length ≤ trk1.events_size
  | [], trk, last, _, hcur, _ => ⟨trk, last, rfl, hcur⟩
  | call :: rest, trk, last, hr, hcur, hsize => by
    have hl : (call :: rest).length = rest.length + 1 := rfl
    rw [hl] at hsize
    obtain ⟨r, trk1, h1, h2, h3⟩ :=
      do_call_within trk call (hr call (List.mem_cons_self _ _)) hcur (by omega)
    obtain ⟨trk2, last2, h4, h5⟩ :=
      run_calls_within rest trk1 (if r = 0 then some call else last)
        (fun c hc => hr c (List.mem_cons_of_mem _ hc)) h2 (by omega)
    refine ⟨trk2, last2, ?_, h5⟩
    simp only [run_calls, h1]
    exact h4

/-! ## Lemmas on the last three bytes of a track -/

theorem endtrack_missing_suffix (trk : miditrack_t) (pre : List Nat) (x y z : Nat)
    (h : trk.events = pre ++ [x, y, z]) :
    ¬ endtrack_missing trk ↔ (x = 0xff ∧ y = 0x2f ∧ z = 0x00) := by
  unfold endtrack_missing
  have hl : trk.events.length = pre.length + 3 := by rw [h]; simp
  have e3 : pre.length + 3 - 3 = pre.length := by omega
  have e2 : pre.length + 3 - 2 = pre.length + 1 := by omega
  have e1 : pre.length + 3 - 1 = pre.length + 2 := by omega
  rw [hl, e3, e2, e1, h, List.getD_append_right _ _ _ _ (by omega),
    List.getD_append_right _ _ _ _ (by omega), List.getD_append_right _ _ _ _ (by omega)]
  simp [MIDIEVENT_META, META_1_ENDTRACK, META_2_ENDTRACK]

set_option maxRecDepth 100000 in
theorem noteon_status_not_meta : ∀ c, c ≤ 15 → 0x90 ||| c ≠ 0xff := by decide

set_option maxRecDepth 100000 in
theorem noteoff_status_not_meta : ∀ c, c ≤ 15 → 0x80 ||| c ≠ 0xff := by decide

/-- The three data bytes of a set-tempo event are never `FF 2F 00`. -/
theorem tempo_bytes_not_endtrack (bpm : Nat) (hb : bpm ≠ 0) :
    ¬ (((60000000 / bpm) >>> 16) &&& 0xff = 0xff ∧ ((60000000 / bpm) >>> 8) &&& 0xff = 0x2f ∧
      (60000000 / bpm) &&& 0xff = 0x00) := by
  rintro ⟨h0, h1, h2⟩
  have hv := tempo_24bit_value (60000000 / bpm)
  rw [h0, h1, h2] at hv
  simp only [Nat.reducePow] at hv
  by_cases h4 : 4 ≤ bpm
  · have hle : 60000000 / bpm ≤ 60000000 / 4 := Nat.div_le_div_left h4 (by decide)
    have e : 60000000 / 4 = 15000000 := by norm_num
    rw [e] at hle
    clear h0 h1 h2 e
    generalize 60000000 / bpm = u at hv hle
    omega
  · have hcases : bpm = 1 ∨ bpm = 2 ∨ bpm = 3 := by omega
    rcases hcases with rfl | rfl | rfl
    · norm_num at hv
    · norm_num at hv
    · norm_num at hv

/-- After a wrapper call that returned 0, the track holds at least three bytes and ends with
`FF 2F 00` exactly when the call was `miditrack_end`. -/
theorem do_call_last_bytes (trk trk1 : miditrack_t) (call : track_call)
    (hr : call_in_range call) (hw : is_wrapper_call call)
    (h : do_call trk call = some (0, trk1)) :
    3 ≤ trk1.events.length ∧ (¬ endtrack_missing trk1 ↔ is_endtrack_call call) := by
  cases call with
  | noteon d c p v =>
    simp only [call_in_range] at hr
    simp only [do_call] at h
    by_cases hb : c > 15 ∨ p > 127
    · have hbad : miditrack_noteon trk d c p v = some (1, trk) := by
        simp only [miditrack_noteon, MIDI_CHANNEL_MAX, MIDI_PITCH_MAX, if_pos hb]
      rw [hbad] at h
      simp at h
    · obtain ⟨t, h1, h2⟩ := miditrack_noteon_appends trk d c p v hr.1 (by omega) (by omega)
      rw [h1] at h
      simp only [Option.some.injEq, Prod.mk.injEq, true_and] at h
      subst h
      refine ⟨by rw [h2]; simp; omega, ?_⟩
      rw [endtrack_missing_suffix t _ _ _ _ h2]
      simp only [is_endtrack_call, iff_false]
      rintro ⟨hx, _, _⟩
      exact noteon_status_not_meta c (by omega) hx
  | noteoff d c p v =>
    simp only [call_in_range] at hr
    simp only [do_call] at h
    by_cases hb : c > 15 ∨ p > 127
    · have hbad : miditrack_noteoff trk d c p v = some (1, trk) := by
        simp only [miditrack_noteoff, MIDI_CHANNEL_MAX, MIDI_PITCH_MAX, if_pos hb]
      rw [hbad] at h
      simp at h
    · obtain ⟨t, h1, h2⟩ := miditrack_noteoff_appends trk d c p v hr.1 (by omega) (by omega)
      rw [h1] at h
      simp only [Option.some.injEq, Prod.mk.injEq, true_and] at h
      subst h
      refine ⟨by rw [h2]; simp; omega, ?_⟩
      rw [endtrack_missing_suffix t _ _ _ _ h2]
      simp only [is_endtrack_call, iff_false]
      rintro ⟨hx, _, _⟩
      exact noteoff_status_not_meta c (by omega) hx
  | settempo d bpm =>
    simp only [call_in_range] at hr
    simp only [do_call] at h
    by_cases hb : bpm = 0
    · have hbad : miditrack_settempo trk d bpm = some (1, trk) := by
        simp only [miditrack_settempo, if_pos hb]
      rw [hbad] at h
      simp at h
    · obtain ⟨t, h1, h2, _, _⟩ := miditrack_settempo_ok trk d bpm hr.1 hb
      rw [h1] at h
      simp only [Option.some.injEq, Prod.mk.injEq, true_and] at h
      subst h
      refine ⟨by rw [h2]; simp; omega, ?_⟩
      rw [endtrack_missing_suffix t _ _ _ _ h2]
      simp only [is_endtrack_call, iff_false]
      exact tempo_bytes_not_endtrack bpm hb
  | endtrack d =>
    simp only [call_in_range] at hr
    simp only [do_call, miditrack_end] at h
    obtain ⟨t, h1, h2, _, _⟩ :=
      miditrack_addevent_ok trk d MIDIEVENT_META META_1_ENDTRACK META_2_ENDTRACK none 0 hr
        (by simp)
    rw [h1] at h
    simp only [Option.some.injEq, Prod.mk.injEq, true_and] at h
    subst h
    have h3 : t.events = (trk.events ++ varint_bytes d) ++ [0xff, 0x2f, 0x00] := by
      rw [h2]; simp [MIDIEVENT_META, META_1_ENDTRACK, META_2_ENDTRACK]
    refine ⟨by rw [h3]; simp; omega, ?_⟩
    rw [endtrack_missing_suffix t _ _ _ _ h3]
    simp [is_endtrack_call]
  | addevent d s d1 d2 extra extralen => exact absurd hw (by simp [is_wrapper_call])

/-- Along a sequence of wrapper calls the track ends with `FF 2F 00` exactly when the last
call that appended an event was `miditrack_end`. -/
theorem run_calls_last_bytes : ∀ (calls : List track_call) (trk : miditrack_t)
    (last : Option track_call) (trk1 : miditrack_t) (last1 : Option track_call),
    (∀ c ∈ calls, call_in_range c ∧ is_wrapper_call c) →
    (∀ c, last = some c →
      3 ≤ trk.events.length ∧ (¬ endtrack_missing trk ↔ is_endtrack_call c)) →
    run_calls trk last calls = some (trk1, last1) →
    ∀ c, last1 = some c →
      3 ≤ trk1.events.length ∧ (¬ endtrack_missing trk1 ↔ is_endtrack_call c)
  | [], trk, last, trk1, last1, _, hinv, h => by
    simp only [run_calls, Option.some.injEq, Prod.mk.injEq] at h
    obtain ⟨h1, h2⟩ := h
    subst h1
    subst h2
    exact hinv
  | call :: rest, trk, last, trk1, last1, hr, hinv, h => by
    simp only [run_calls] at h
    cases hc : do_call trk call with
    | none => simp [hc] at h
    | some p =>
      obtain ⟨r, t⟩ := p
      simp only [hc] at h
      refine run_calls_last_bytes rest t (if r = 0 then some call else last) trk1 last1
        (fun c hm => hr c (List.mem_cons_of_mem _ hm)) ?_ h
      intro c hlast
      by_cases hr0 : r = 0
      · subst hr0
        simp only [if_true, Option.some.injEq] at hlast
        subst hlast
        exact do_call_last_bytes trk t call (hr call (List.mem_cons_self _ _)).1
          (hr call (List.mem_cons_self _ _)).2 hc
      · simp only [hr0, if_false] at hlast
        have hsame : t = trk := by
          have hrange := (hr call (List.mem_cons_self _ _)).1
          cases call with
          | noteon d c1 p v =>
            simp only [call_in_range] at hrange
            obtain ⟨r2, t2, e1, _, e3⟩ := miditrack_noteon_status trk d c1 p v hrange.1
            simp only [do_call] at hc
            rw [e1] at hc
            simp only [Option.some.injEq, Prod.mk.injEq] at hc
            rw [← hc.2]
            exact e3 (by rw [hc.1]; exact hr0)
          | noteoff d c1 p v =>
            simp only [call_in_range] at hrange
            obtain ⟨r2, t2, e1, _, e3⟩ := miditrack_noteoff_status trk d c1 p v hrange.1
            simp only [do_call] at hc
            rw [e1] at hc
            simp only [Option.some.injEq, Prod.mk.injEq] at hc
            rw [← hc.2]
            exact e3 (by rw [hc.1]; exact hr0)
          | settempo d bpm =>
            simp only [call_in_range] at hrange
            simp only [do_call] at hc
            by_cases hb : bpm = 0
            · simp only [miditrack_settempo, if_pos hb, Option.some.injEq, Prod.mk.injEq] at hc
              exact hc.2.symm
            · obtain ⟨t2, e1, _⟩ := miditrack_settempo_ok trk d bpm hrange.1 hb
              rw [e1] at hc
              simp only [Option.some.injEq, Prod.mk.injEq] at hc
              exact absurd hc.1.symm hr0
          | endtrack d =>
            simp only [call_in_range] at hrange
            simp only [do_call, miditrack_end] at hc
            obtain ⟨t2, e1, _⟩ :=
              miditrack_addevent_ok trk d MIDIEVENT_META META_1_ENDTRACK META_2_ENDTRACK none 0
                hrange (by simp)
            rw [e1] at hc
            simp only [Option.some.injEq, Prod.mk.injEq] at hc
            exact absurd hc.1.symm hr0
          | addevent d s d1 d2 extra extralen =>
            exact absurd (hr _ (List.mem_cons_self _ _)).2 (by simp [is_wrapper_call])
        rw [hsame]
        exact hinv c hlast

/-! ## Lemmas on `midifile_getsize` -/

theorem midifile_getsize_loop_sum : ∀ (trks : List miditrack_t) (s : Nat),
    (∀ trk ∈ trks, trk.chunksize < 2 ^ 32) → s + trks.length * (8 + 2 ^ 32) < 2 ^ 64 →
    midifile_getsize_loop s trks = s + (trks.map (fun trk => 8 + trk.chunksize)).sum
  | [], s, _, _ => by simp [midifile_getsize_loop]
  | trk :: rest, s, hc, hs => by
    have h1 : trk.chunksize < 2 ^ 32 := hc trk (List.mem_cons_self _ _)
    have hl : (trk :: rest).length = rest.length + 1 := rfl
    rw [hl] at hs
    simp only [Nat.reducePow] at hs h1
    have hstep : (s + miditrack_getsize trk) % 2 ^ 64 = s + (8 + trk.chunksize) := by
      simp only [miditrack_getsize, Nat.reducePow]
      omega
    have ih := midifile_getsize_loop_sum rest (s + (8 + trk.chunksize))
      (fun t ht => hc t (List.mem_cons_of_mem _ ht))
      (by simp only [Nat.reducePow]; omega)
    simp only [midifile_getsize_loop, hstep, ih, List.map_cons, List.sum_cons]
    omega

/-- The number of bytes written for a finalised file is what `midifile_getsize` returns,
whatever the value of the macro `IS_BIG_ENDIAN`, the byte order of the host and the content of
memory outside the payload. -/
theorem write_midifile_length_aux (is_big_endian host_big_endian : Bool)
    (fill : Nat → Nat → Nat) (midif : midifile_t)
    (hhdr : midif.header.chunkid = [0x4d, 0x54, 0x68, 0x64])
    (hn : midif.header.ntracks = midif.tracks.length)
    (hnt : midif.header.ntracks < 2 ^ 16)
    (hfin : ∀ trk ∈ midif.tracks, ∃ trk0, trk0.chunkid = [0x4d, 0x54, 0x72, 0x6b] ∧
      trk0.events.length ≤ trk0.events_size ∧ trk0.events_size < 2 ^ 63 ∧
      trk0.events.length + 4 < 2 ^ 32 ∧ finalise_miditrack trk0 = some (0, trk)) :
    (write_midifile is_big_endian host_big_endian fill midif).length = midifile_getsize midif ∧
    midifile_getsize midif = 14 + (midif.tracks.map (fun trk => 8 + trk.chunksize)).sum := by
  have hfit := fun trk hmem => finalised_track_fitted trk (hfin trk hmem)
  have hc : ∀ trk ∈ midif.tracks, trk.chunksize < 2 ^ 32 := fun trk ht => (hfit trk ht).2.2.2
  have hsize : midifile_getsize midif =
      14 + (midif.tracks.map (fun trk => 8 + trk.chunksize)).sum := by
    unfold midifile_getsize
    rw [hn, List.take_length]
    have e14 : midiheader_getsize = 14 := rfl
    rw [e14]
    apply midifile_getsize_loop_sum _ _ hc
    rw [hn] at hnt
    simp only [Nat.reducePow] at hnt ⊢
    omega
  refine ⟨?_, hsize⟩
  have hlen : ∀ trk ∈ midif.tracks, trk.chunkid.length = 4 ∧ trk.events_size = trk.chunksize := by
    intro trk ht
    obtain ⟨hid, hcs, hs, _⟩ := hfit trk ht
    exact ⟨by rw [hid]; rfl, by rw [hs, hcs]⟩
  rw [hsize]
  simp only [write_midifile, hn, List.take_length, List.length_append,
    write_midiheader_length, hhdr,
    write_tracks_fitted_length is_big_endian host_big_endian fill midif.tracks 0 hlen]
  rfl

/-! ## Lemmas on `get_modal_tempo` -/

theorem tempo_frequency_count (tempo : Nat) : ∀ (l : List note_t) (freq : Nat),
    tempo_frequency tempo l freq = freq + (l.map (fun n => n.tempo)).count tempo
  | [], freq => by simp [tempo_frequency]
  | n :: rest, freq => by
    simp only [tempo_frequency, tempo_frequency_count tempo rest, List.map_cons,
      List.count_cons, beq_iff_eq]
    split <;> omega

/-- The invariant of the outer loop, from the start of any iteration to the result. -/
theorem get_modal_tempo_loop_spec (notes : List note_t) :
    ∀ (todo done : List note_t) (mode maxfreq : Nat), notes = done ++ todo →
      ((done = [] ∧ mode = 0 ∧ maxfreq = 0) ∨
        (mode ∈ done.map (fun n => n.tempo) ∧
          maxfreq = (notes.map (fun n => n.tempo)).count mode ∧
          ∀ t ∈ done.map (fun n => n.tempo),
            (notes.map (fun n => n.tempo)).count t ≤ maxfreq ∧
            ((notes.map (fun n => n.tempo)).count t = maxfreq →
              (notes.map (fun n => n.tempo)).indexOf mode
                ≤ (notes.map (fun n => n.tempo)).indexOf t))) →
      ((notes = [] ∧ get_modal_tempo_loop notes todo mode maxfreq = 0) ∨
        (get_modal_tempo_loop notes todo mode maxfreq ∈ notes.map (fun n => n.tempo) ∧
          ∀ t ∈ notes.map (fun n => n.tempo),
            (notes.map (fun n => n.tempo)).count t
              ≤ (notes.map (fun n => n.tempo)).count
                  (get_modal_tempo_loop notes todo mode maxfreq) ∧
            ((notes.map (fun n => n.tempo)).count t
                = (notes.map (fun n => n.tempo)).count
                    (get_modal_tempo_loop notes todo mode maxfreq) →
              (notes.map (fun n => n.tempo)).indexOf
                  (get_modal_tempo_loop notes todo mode maxfreq)
                ≤ (notes.map (fun n => n.tempo)).indexOf t))) := by
  intro todo
  induction todo with
  | nil =>
    intro done mode maxfreq hsplit hinv
    simp only [List.append_nil] at hsplit
    subst hsplit
    simp only [get_modal_tempo_loop]
    rcases hinv with ⟨h1, h2, _⟩ | ⟨h1, h2, h3⟩
    · exact Or.inl ⟨h1, h2⟩
    · right
      refine ⟨h1, ?_⟩
      intro t ht
      rw [← h2]
      exact h3 t ht
  | cons n todo ih =>
    intro done mode maxfreq hsplit hinv
    have hmem : n.tempo ∈ notes.map (fun n => n.tempo) := by
      rw [hsplit]; simp
    have hpos : 0 < (notes.map (fun n => n.tempo)).count n.tempo := List.count_pos_iff.mpr hmem
    have hfreq : tempo_frequency n.tempo notes 0 = (notes.map (fun n => n.tempo)).count n.tempo := by
      rw [tempo_frequency_count]; omega
    have hsplit2 : notes = (done ++ [n]) ++ todo := by rw [hsplit]; simp
    simp only [get_modal_tempo_loop, hfreq]
    by_cases hgt : (notes.map (fun n => n.tempo)).count n.tempo > maxfreq
    · rw [if_pos hgt]
      apply ih (done ++ [n]) _ _ hsplit2
      right
      refine ⟨by simp, rfl, ?_⟩
      intro t ht
      simp only [List.map_append, List.map_cons, List.map_nil, List.mem_append,
        List.mem_singleton] at ht
      rcases ht with ht | ht
      · rcases hinv with ⟨h1, _, _⟩ | ⟨_, _, h3⟩
        · subst h1; simp at ht
        · have := (h3 t ht).1
          exact ⟨by omega, fun he => by omega⟩
      · subst ht
        exact ⟨le_refl _, fun _ => le_refl _⟩
    · rw [if_neg hgt]
      apply ih (done ++ [n]) _ _ hsplit2
      rcases hinv with ⟨_, _, h0⟩ | ⟨h1, h2, h3⟩
      · omega
      · right
        refine ⟨by simp only [List.map_append, List.mem_append]; exact Or.inl h1, h2, ?_⟩
        intro t ht
        simp only [List.map_append, List.map_cons, List.map_nil, List.mem_append,
          List.mem_singleton] at ht
        rcases ht with ht | ht
        · exact h3 t ht
        · subst ht
          refine ⟨by omega, fun _ => ?_⟩
          by_cases hin : n.tempo ∈ done.map (fun n => n.tempo)
          · exact (h3 _ hin).2 (by omega)
          · have e1 : (notes.map (fun n => n.tempo)).indexOf mode
                = (done.map (fun n => n.tempo)).indexOf mode := by
              rw [hsplit, List.map_append, List.indexOf_append_of_mem h1]
            have e2 : (notes.map (fun n => n.tempo)).indexOf n.tempo
                = (done.map (fun n => n.tempo)).length
                  + ((n :: todo).map (fun n => n.tempo)).indexOf n.tempo := by
              rw [hsplit, List.map_append, List.indexOf_append_of_not_mem hin]
            have e3 := List.indexOf_lt_length.mpr h1
            omega

/-- What `get_modal_tempo` returns for fewer than `2 ^ 31` notes. -/
theorem get_modal_tempo_aux (notes : List note_t) (hlen : notes.length < 2 ^ 31) :
    ∃ m, get_modal_tempo notes = some m ∧
      ((notes = [] ∧ m = 0) ∨
        (m ∈ notes.map (fun n => n.tempo) ∧
          ∀ t ∈ notes.map (fun n => n.tempo),
            (notes.map (fun n => n.tempo)).count t ≤ (notes.map (fun n => n.tempo)).count m ∧
            ((notes.map (fun n => n.tempo)).count t = (notes.map (fun n => n.tempo)).count m →
              (notes.map (fun n => n.tempo)).indexOf m
                ≤ (notes.map (fun n => n.tempo)).indexOf t))) := by
  refine ⟨get_modal_tempo_loop notes notes 0 0, ?_, ?_⟩
  · simp only [get_modal_tempo]
    rw [if_neg (by omega)]
  · exact get_modal_tempo_loop_spec notes notes [] 0 0 rfl (Or.inl ⟨rfl, rfl, rfl⟩)

/-! ## Lemmas on the translator at a constant tempo -/

theorem note_times_append (xs ys : List note_t) :
    note_times (xs ++ ys) = note_times xs ++ note_times ys := by
  induction xs with
  | nil => rfl
  | cons x xs ih => simp [note_times, ih]

theorem floor_cast_le (n : Nat) (x : ℚ) (h : (n : ℤ) = ⌊x⌋) : (n : ℚ) ≤ x := by
  have h1 : ((⌊x⌋ : ℤ) : ℚ) ≤ x := Int.floor_le x
  rw [← h] at h1
  exact_mod_cast h1

/-- One iteration of the loop when the tempo of the note is the tempo already in force, or is
the first known tempo: both deltas are differences of floors and are not negative. -/
theorem gen_midi_body_settled (ppq T tps beff : Nat) (st : gen_state) (note : note_t)
    (tlast : ℚ) (hbeff : beff = if T = 0 then MIDI_BPM_DEFAULT else T)
    (htps : tps = (ppq * beff) % 2 ^ 32 / 60)
    (hT : note.tempo = T) (hp : note.pitch % 256 ≤ 127) (htc : st.tempo_change = 0)
    (hst : (st.bpm = beff ∧ st.ticks_per_sec = tps) ∨ (T ≠ st.bpm ∧ T > 0))
    (htot : (st.total_ticks : ℤ) = ⌊(tps : ℚ) * tlast⌋)
    (h1 : tlast ≤ note.start_sec) (h2 : note.start_sec ≤ note.stop_sec)
    (hfit : (tps : ℚ) * note.stop_sec < 2 ^ 32) :
    ∃ st1 st2 d e, gen_note_begin ppq st note = some (0, st1) ∧
      gen_note_end st1 note = some (0, st2) ∧
      gen_midi_body ppq st note = some (0, st2) ∧
      (gen_update_tempo ppq st note).ticks_per_sec = tps ∧
      0 ≤ delta_value (gen_update_tempo ppq st note) note.start_sec ∧
      double_to_ulong (delta_value (gen_update_tempo ppq st note) note.start_sec) = some d ∧
      d < 2 ^ 32 ∧
      (st1.total_ticks : ℤ) = ⌊(tps : ℚ) * note.start_sec⌋ ∧
      0 ≤ delta_value st1 note.stop_sec ∧
      double_to_ulong (delta_value st1 note.stop_sec) = some e ∧
      e < 2 ^ 32 ∧
      (st2.total_ticks : ℤ) = ⌊(tps : ℚ) * note.stop_sec⌋ ∧
      st2.tempo_change = 0 ∧ st2.bpm = beff ∧ st2.ticks_per_sec = tps := by
  have htps0 : (0 : ℚ) ≤ (tps : ℚ) := Nat.cast_nonneg tps
  have hA : (tps : ℚ) * tlast ≤ (tps : ℚ) * note.start_sec :=
    mul_le_mul_of_nonneg_left h1 htps0
  have hB : (tps : ℚ) * note.start_sec ≤ (tps : ℚ) * note.stop_sec :=
    mul_le_mul_of_nonneg_left h2 htps0
  have htotq : (st.total_ticks : ℚ) ≤ (tps : ℚ) * tlast := floor_cast_le _ _ htot
  have htot0 : (0 : ℚ) ≤ (st.total_ticks : ℚ) := Nat.cast_nonneg _
  -- the state after the tempo update
  have hup : (gen_update_tempo ppq st note).ticks_per_sec = tps ∧
      (gen_update_tempo ppq st note).total_ticks = st.total_ticks := by
    refine ⟨?_, gen_update_tempo_total ppq st note⟩
    by_cases hch : note.tempo ≠ st.bpm ∧ note.tempo > 0
    · have hb : beff = note.tempo := by
        rw [hbeff, hT]; rw [hT] at hch; rw [if_neg (by omega)]
      simp only [gen_update_tempo, if_pos hch, htps, hb]
    · simp only [gen_update_tempo, if_neg hch]
      rcases hst with ⟨_, hs⟩ | hs
      · exact hs
      · rw [hT] at hch; exact absurd hs hch
  have hdv : delta_value (gen_update_tempo ppq st note) note.start_sec
      = (tps : ℚ) * note.start_sec - (st.total_ticks : ℚ) := by
    simp only [delta_value, hup.1, hup.2]
  have hd0 : 0 ≤ delta_value (gen_update_tempo ppq st note) note.start_sec := by
    rw [hdv]; linarith
  have hd1 : delta_value (gen_update_tempo ppq st note) note.start_sec < 2 ^ 64 := by
    rw [hdv]; linarith [show ((2 : ℚ) ^ 32) < 2 ^ 64 by norm_num]
  obtain ⟨d, hd, hdfl⟩ := double_to_ulong_floor _ hd0 hd1
  have hdint : (d : ℤ) = ⌊(tps : ℚ) * note.start_sec⌋ - (st.total_ticks : ℤ) := by
    rw [hdfl, delta_value_floor, hup.1, hup.2]
  have hfl1 : ⌊(tps : ℚ) * note.start_sec⌋ < 2 ^ 32 := by
    apply Int.floor_lt.mpr
    have : (tps : ℚ) * note.start_sec < 2 ^ 32 := lt_of_le_of_lt hB hfit
    exact_mod_cast this
  have hsum1 : ((st.total_ticks + d : Nat) : ℤ) = ⌊(tps : ℚ) * note.start_sec⌋ := by
    push_cast; omega
  have hsum1lt : st.total_ticks + d < 2 ^ 32 := by
    have : ((st.total_ticks + d : Nat) : ℤ) < 2 ^ 32 := by rw [hsum1]; exact hfl1
    exact_mod_cast this
  have hmod1 : (st.total_ticks + d) % 2 ^ 64 = st.total_ticks + d :=
    Nat.mod_eq_of_lt (lt_trans hsum1lt (by norm_num))
  -- the first half of the iteration
  have hbegin : ∃ st1, gen_note_begin ppq st note = some (0, st1) ∧ st1.bpm = beff ∧
      st1.ticks_per_sec = tps ∧ st1.tempo_change = 0 ∧
      st1.total_ticks = st.total_ticks + d := by
    by_cases hch : note.tempo ≠ st.bpm ∧ note.tempo > 0
    · have hb : beff = note.tempo := by
        rw [hbeff, hT]; rw [hT] at hch; rw [if_neg (by omega)]
      obtain ⟨s, hs, b1, b2, b3, b4, _⟩ := gen_note_begin_changed ppq st note d hch hd
      rw [if_pos hp] at hs
      exact ⟨s, hs, by rw [b1, hb], by rw [b2, htps, hb], b3, by rw [b4, hmod1]⟩
    · obtain ⟨s, hs, b1, b2, b3, b4, _⟩ := gen_note_begin_unchanged ppq st note d htc hch hd
      rw [if_pos hp] at hs
      rcases hst with ⟨hs1, hs2⟩ | hs3
      · exact ⟨s, hs, by rw [b1, hs1], by rw [b2, hs2], b3, by rw [b4, hmod1]⟩
      · rw [hT] at hch; exact absurd hs3 hch
  obtain ⟨st1, hbeg, c1, c2, c3, c4⟩ := hbegin
  have htot1 : (st1.total_ticks : ℤ) = ⌊(tps : ℚ) * note.start_sec⌋ := by
    rw [c4]; exact hsum1
  have htot1q : (st1.total_ticks : ℚ) ≤ (tps : ℚ) * note.start_sec := floor_cast_le _ _ htot1
  have htot10 : (0 : ℚ) ≤ (st1.total_ticks : ℚ) := Nat.cast_nonneg _
  have hev : delta_value st1 note.stop_sec
      = (tps : ℚ) * note.stop_sec - (st1.total_ticks : ℚ) := by
    simp only [delta_value, c2]
  have he0 : 0 ≤ delta_value st1 note.stop_sec := by
    rw [hev]; linarith
  have he1 : delta_value st1 note.stop_sec < 2 ^ 64 := by
    rw [hev]; linarith [show ((2 : ℚ) ^ 32) < 2 ^ 64 by norm_num]
  obtain ⟨e, he, hefl⟩ := double_to_ulong_floor _ he0 he1
  have heint : (e : ℤ) = ⌊(tps : ℚ) * note.stop_sec⌋ - (st1.total_ticks : ℤ) := by
    rw [hefl, delta_value_floor, c2]
  have hfl2 : ⌊(tps : ℚ) * note.stop_sec⌋ < 2 ^ 32 := by
    apply Int.floor_lt.mpr
    exact_mod_cast hfit
  have hsum2 : ((st1.total_ticks + e : Nat) : ℤ) = ⌊(tps : ℚ) * note.stop_sec⌋ := by
    push_cast; omega
  have hsum2lt : st1.total_ticks + e < 2 ^ 32 := by
    have : ((st1.total_ticks + e : Nat) : ℤ) < 2 ^ 32 := by rw [hsum2]; exact hfl2
    exact_mod_cast this
  have hmod2 : (st1.total_ticks + e) % 2 ^ 64 = st1.total_ticks + e :=
    Nat.mod_eq_of_lt (lt_trans hsum2lt (by norm_num))
  obtain ⟨st2, hend, e1, e2, e3, e4, _⟩ := gen_note_end_spec st1 note e he
  rw [if_pos hp] at hend
  refine ⟨st1, st2, d, e, hbeg, hend, ?_, hup.1, hd0, hd, by omega, htot1, he0, he,
    by omega, ?_, by rw [e3, c3], by rw [e1, c1], by rw [e2, c2]⟩
  · simp only [gen_midi_body, hbeg, hend, ne_eq, not_true_eq_false, if_false]
  · rw [e4, hmod2]; exact hsum2

/-- The loop over notes of one tempo with non-decreasing times: it completes, and the running
total is the floor of the tick position of the last time used. -/
theorem gen_midi_loop_settled (ppq T tps beff : Nat)
    (hbeff : beff = if T = 0 then MIDI_BPM_DEFAULT else T)
    (htps : tps = (ppq * beff) % 2 ^ 32 / 60) :
    ∀ (notes : List note_t) (st : gen_state) (tlast : ℚ),
      (∀ n ∈ notes, n.tempo = T ∧ n.pitch % 256 ≤ 127) →
      List.Pairwise (fun a b => a ≤ b) (tlast :: note_times notes) →
      (∀ t ∈ note_times notes, (tps : ℚ) * t < 2 ^ 32) →
      st.tempo_change = 0 →
      ((st.bpm = beff ∧ st.ticks_per_sec = tps) ∨ (T ≠ st.bpm ∧ T > 0)) →
      (st.total_ticks : ℤ) = ⌊(tps : ℚ) * tlast⌋ →
      ∃ st1 tlast1, gen_midi_loop ppq st notes = some (0, st1) ∧ st1.tempo_change = 0 ∧
        ((st1.bpm = beff ∧ st1.ticks_per_sec = tps) ∨ (T ≠ st1.bpm ∧ T > 0)) ∧
        (st1.total_ticks : ℤ) = ⌊(tps : ℚ) * tlast1⌋ ∧
        (tlast1 = tlast ∨ tlast1 ∈ note_times notes) := by
  intro notes
  induction notes with
  | nil =>
    intro st tlast _ _ _ htc hst htot
    exact ⟨st, tlast, rfl, htc, hst, htot, Or.inl rfl⟩
  | cons n rest ih =>
    intro st tlast hn hsorted hfit htc hst htot
    simp only [note_times, List.pairwise_cons, List.mem_cons] at hsorted
    obtain ⟨hlast, hstart, hrest⟩ := hsorted
    have h1 : tlast ≤ n.start_sec := hlast _ (Or.inl rfl)
    have h2 : n.start_sec ≤ n.stop_sec := hstart _ (Or.inl rfl)
    have hf : (tps : ℚ) * n.stop_sec < 2 ^ 32 :=
      hfit _ (by simp [note_times])
    obtain ⟨st1, st2, d, e, _, _, hbody, _, _, _, _, _, _, _, _, htot2, htc2, hb2, ht2⟩ :=
      gen_midi_body_settled ppq T tps beff st n tlast hbeff htps
        (hn n (List.mem_cons_self _ _)).1 (hn n (List.mem_cons_self _ _)).2 htc hst htot h1 h2 hf
    obtain ⟨st3, tlast3, hloop, htc3, hst3, htot3, hmem3⟩ :=
      ih st2 n.stop_sec (fun m hm => hn m (List.mem_cons_of_mem _ hm))
        (List.pairwise_cons.mpr hrest)
        (fun t ht => hfit t (by simp only [note_times, List.mem_cons]; exact Or.inr (Or.inr ht)))
        htc2 (Or.inl ⟨hb2, ht2⟩) htot2
    refine ⟨st3, tlast3, ?_, htc3, hst3, htot3, ?_⟩
    · rw [gen_midi_loop_cons_ok ppq st st2 n rest hbody]
      exact hloop
    · right
      simp only [note_times, List.mem_cons]
      rcases hmem3 with h | h
      · exact Or.inr (Or.inl h)
      · exact Or.inr (Or.inr h)

/-- The translator on a sequence of notes of one tempo with non-decreasing, non-negative
times, at the note that follows the notes `earlier`. -/
theorem constant_tempo_aux (ppq T : Nat) (trk : miditrack_t) (earlier : List note_t)
    (note : note_t)
    (htempo : ∀ n ∈ earlier ++ [note], n.tempo = T)
    (hpitch : ∀ n ∈ earlier ++ [note], n.pitch % 256 ≤ 127)
    (hsorted : List.Pairwise (fun a b => a ≤ b) (note_times (earlier ++ [note])))
    (hnonneg : ∀ t ∈ note_times (earlier ++ [note]), 0 ≤ t)
    (hppq : ppq * (if T = 0 then 120 else T) < 2 ^ 32)
    (hfit : ((ppq * (if T = 0 then 120 else T) / 60 : Nat) : ℚ) * note.stop_sec < 2 ^ 32) :
    ∃ st0 st1 st2 d e,
      gen_midi_loop ppq (gen_initial_state ppq trk) earlier = some (0, st0) ∧
      gen_note_begin ppq st0 note = some (0, st1) ∧
      gen_note_end st1 note = some (0, st2) ∧
      gen_midi_loop ppq (gen_initial_state ppq trk) (earlier ++ [note]) = some (0, st2) ∧
      (gen_update_tempo ppq st0 note).ticks_per_sec = ppq * (if T = 0 then 120 else T) / 60 ∧
      st1.ticks_per_sec = ppq * (if T = 0 then 120 else T) / 60 ∧
      0 ≤ delta_value (gen_update_tempo ppq st0 note) note.start_sec ∧
      double_to_ulong (delta_value (gen_update_tempo ppq st0 note) note.start_sec) = some d ∧
      d < 2 ^ 32 ∧
      (st1.total_ticks : ℤ) =
        ⌊((ppq * (if T = 0 then 120 else T) / 60 : Nat) : ℚ) * note.start_sec⌋ ∧
      0 ≤ delta_value st1 note.stop_sec ∧
      double_to_ulong (delta_value st1 note.stop_sec) = some e ∧
      e < 2 ^ 32 ∧
      (st2.total_ticks : ℤ) =
        ⌊((ppq * (if T = 0 then 120 else T) / 60 : Nat) : ℚ) * note.stop_sec⌋ := by
  have htps : ppq * (if T = 0 then 120 else T) / 60
      = (ppq * (if T = 0 then 120 else T)) % 2 ^ 32 / 60 := by
    rw [Nat.mod_eq_of_lt hppq]
  have htps0 : (0 : ℚ) ≤ ((ppq * (if T = 0 then 120 else T) / 60 : Nat) : ℚ) :=
    Nat.cast_nonneg _
  rw [note_times_append] at hsorted hnonneg
  have hs := List.pairwise_append.mp hsorted
  have hnote : note_times [note] = [note.start_sec, note.stop_sec] := rfl
  rw [hnote] at hs hnonneg
  have hss : note.start_sec ≤ note.stop_sec := by
    have := hs.2.1
    simp only [List.pairwise_cons, List.mem_singleton] at this
    exact this.1 _ rfl
  -- the notes before
  have hsorted0 : List.Pairwise (fun a b => a ≤ b) ((0 : ℚ) :: note_times earlier) := by
    refine List.pairwise_cons.mpr ⟨?_, hs.1⟩
    intro t ht
    exact hnonneg t (List.mem_append_left _ ht)
  have hfit0 : ∀ t ∈ note_times earlier,
      ((ppq * (if T = 0 then 120 else T) / 60 : Nat) : ℚ) * t < 2 ^ 32 := by
    intro t ht
    have h1 : t ≤ note.stop_sec := hs.2.2 t ht _ (by simp)
    exact lt_of_le_of_lt (mul_le_mul_of_nonneg_left h1 htps0) hfit
  have hinit : ((gen_initial_state ppq trk).bpm = (if T = 0 then 120 else T) ∧
      (gen_initial_state ppq trk).ticks_per_sec = ppq * (if T = 0 then 120 else T) / 60) ∨
      (T ≠ (gen_initial_state ppq trk).bpm ∧ T > 0) := by
    simp only [gen_initial_state, MIDI_BPM_DEFAULT]
    by_cases h0 : T = 0
    · left
      simp only [h0, if_true] at htps ⊢
      exact ⟨trivial, htps.symm⟩
    · by_cases h120 : T = 120
      · left
        subst h120
        rw [if_neg (by decide)] at htps ⊢
        exact ⟨rfl, htps.symm⟩
      · right; omega
  obtain ⟨st0, tlast0, hloop0, htc0, hst0, htot0, hmem0⟩ :=
    gen_midi_loop_settled ppq T _ _ rfl htps earlier (gen_initial_state ppq trk) 0
      (fun n hn => ⟨htempo n (List.mem_append_left _ hn), hpitch n (List.mem_append_left _ hn)⟩)
      hsorted0 hfit0 rfl hinit (by simp [gen_initial_state])
  have hle : tlast0 ≤ note.start_sec := by
    rcases hmem0 with h | h
    · rw [h]; exact hnonneg _ (by simp)
    · exact hs.2.2 _ h _ (by simp)
  obtain ⟨st1, st2, d, e, g1, g2, g3, g4, g5, g6, g7, g8, g9, g10, g11, g12, _, _, g15⟩ :=
    gen_midi_body_settled ppq T _ _ st0 note tlast0 rfl htps
      (htempo note (by simp)) (hpitch note (by simp)) htc0 hst0 htot0 hle hss hfit
  have hst1 : st1.ticks_per_sec = ppq * (if T = 0 then 120 else T) / 60 := by
    obtain ⟨s, hs2, _, e2, _⟩ := gen_note_end_spec st1 note e g10
    rw [if_pos (hpitch note (by simp))] at hs2
    rw [g2] at hs2
    simp only [Option.some.injEq, Prod.mk.injEq, true_and] at hs2
    rw [← e2, ← hs2, g15]
  refine ⟨st0, st1, st2, d, e, hloop0, g1, g2, ?_, g4, hst1, g5, g6, g7, g8, g9, g10, g11, g12⟩
  rw [gen_midi_loop_append ppq earlier [note] _ st0 hloop0,
    gen_midi_loop_cons_ok ppq st0 st2 note [] g3]
  rfl

/-! ## Lemmas on the time division of the header -/

/-- For a `ppq` that fits the `uint16_t` parameter of `init_midifile`, the header carries the
value the translator uses. -/
theorem header_time_div_small (ppq : Nat) (h : ppq < 2 ^ 16) :
    (init_midiheader 0 1 ((if ppq = 0 then MIDI_PPQ_DEFAULT else ppq) % 2 ^ 16)).2.time_div =
      (if ppq = 0 then MIDI_PPQ_DEFAULT else ppq) := by
  by_cases h0 : ppq = 0
  · simp [h0, init_midiheader, MIDI_PPQ_DEFAULT]
  · have hm : ppq % 2 ^ 16 = ppq := Nat.mod_eq_of_lt h
    rw [if_neg h0, hm]
    simp only [init_midiheader, ne_eq, h0, not_false_eq_true, if_true]

/-- The header of the file `gen_midi_file` writes when the loop completes. -/
theorem gen_midi_file_done_header (is_big_endian host_big_endian : Bool) (fill : Nat → Nat → Nat)
    (raw : Nat → miditrack_t)
    (notes : List note_t) (ppq : Nat) (st : gen_state)
    (hloop : gen_midi_loop (if ppq = 0 then MIDI_PPQ_DEFAULT else ppq)
      (gen_initial_state (if ppq = 0 then MIDI_PPQ_DEFAULT else ppq)
        (init_miditrack (raw 0) 0).2) notes = some (0, st))
    (h3 : 3 ≤ st.track.events.length) :
    ∃ out, gen_midi_file is_big_endian host_big_endian fill raw notes ppq = some out ∧ out.ret = 0 ∧
      out.midif.header =
        (init_midiheader 0 1 ((if ppq = 0 then MIDI_PPQ_DEFAULT else ppq) % 2 ^ 16)).2 ∧
      out.midif.tracks.map (fun t => t.events) = [st.track.events ++
        (if st.track.events.getD (st.track.events.length - 3) 0 ≠ 0xff ∨
            st.track.events.getD (st.track.events.length - 2) 0 ≠ 0x2f ∨
            st.track.events.getD (st.track.events.length - 1) 0 ≠ 0x00
          then [0x00, 0xff, 0x2f, 0x00] else [])] := by
  obtain ⟨trkF, hF, _, hFe⟩ := finalise_miditrack_events st.track h3
  have hfin : finalise_midifile
      { header := (init_midiheader 0 1
          ((if ppq = 0 then MIDI_PPQ_DEFAULT else ppq) % 2 ^ 16)).2,
        tracks := [st.track] } =
      some (0, (⟨(init_midiheader 0 1
          ((if ppq = 0 then MIDI_PPQ_DEFAULT else ppq) % 2 ^ 16)).2, [trkF]⟩ : midifile_t)) := by
    simp [finalise_midifile, finalise_tracks, init_midiheader, hF]
  refine ⟨⟨0, ⟨(init_midiheader 0 1
      ((if ppq = 0 then MIDI_PPQ_DEFAULT else ppq) % 2 ^ 16)).2, [trkF]⟩,
    write_midifile is_big_endian host_big_endian fill ⟨(init_midiheader 0 1
      ((if ppq = 0 then MIDI_PPQ_DEFAULT else ppq) % 2 ^ 16)).2, [trkF]⟩⟩, ?_, rfl, rfl, ?_⟩
  · simp only [gen_midi_file, gen_midi_file_init, hloop, ne_eq, not_true_eq_false, if_false, hfin]
  · simp only [List.map_cons, List.map_nil, hFe]

theorem varint_bytes_65536 : varint_bytes 65536 = [0x82, 0xff, 0x00] := by decide

theorem gen_initial_state_65536 (trk : miditrack_t) :
    gen_initial_state 65536 trk = ⟨120, 131072, 0, 0, trk⟩ := by
  simp [gen_initial_state, MIDI_BPM_DEFAULT]

/-- The translation of one note lasting from 0 to 0.5 s with `ppq = 65536`. -/
theorem wide_ppq_run :
    ∃ out, gen_midi_file false false (fun _ _ => 0) (fun _ => ⟨[], 0, [], 0⟩)
        [⟨60, 100, 120, 0, 1 / 2⟩] 65536
        = some out ∧
      out.ret = 0 ∧ out.midif.header.time_div = 96 ∧
      out.midif.tracks.map (fun t => t.events) =
        [[0x00, 0x90, 60, 100, 0x82, 0xff, 0x00, 0x80, 60, 100, 0x00, 0xff, 0x2f, 0x00]] := by
  obtain ⟨s1, h1, _, _, _, _, _, _, ev1⟩ :=
    gen_midi_body_plain 65536 (gen_initial_state 65536 (init_miditrack ⟨[], 0, [], 0⟩ 0).2)
      ⟨60, 100, 120, 0, 1 / 2⟩ 0 65536 rfl (by simp [gen_initial_state_65536]) (by norm_num)
      (by rw [gen_initial_state_65536]
          exact double_to_ulong_of_floor _ 0 (by norm_num) (by norm_num) (by norm_num))
      (by rw [gen_initial_state_65536]
          exact double_to_ulong_of_floor _ 65536 (by norm_num) (by norm_num) (by norm_num))
  have hst : s1.track.events = [0x00, 0x90, 60, 100, 0x82, 0xff, 0x00, 0x80, 60, 100] := by
    rw [ev1]
    simp [gen_initial_state, init_miditrack, varint_bytes_65536, varint_bytes_zero]
  have hl : gen_midi_loop 65536 (gen_initial_state 65536 (init_miditrack ⟨[], 0, [], 0⟩ 0).2)
      [⟨60, 100, 120, 0, 1 / 2⟩] = some (0, s1) := by
    rw [gen_midi_loop_cons_ok _ _ _ _ _ h1]; rfl
  have hppq : (if (65536 : Nat) = 0 then MIDI_PPQ_DEFAULT else 65536) = 65536 :=
    if_neg (by decide)
  obtain ⟨out, ho, hr, hh, hev⟩ :=
    gen_midi_file_done_header false false (fun _ _ => 0) (fun _ => ⟨[], 0, [], 0⟩) _ 65536 s1
      (by rw [hppq]; exact hl) (by rw [hst]; simp)
  refine ⟨out, ho, hr, ?_, ?_⟩
  · rw [hh]; decide
  · rw [hev, hst]
    simp

/-! ## Definedness of a sequence of calls -/

theorem do_call_defined (trk : miditrack_t) (call : track_call) (hr : call_in_range call) :
    ∃ r trk1, do_call trk call = some (r, trk1) := by
  cases call with
  | noteon d c p v =>
    simp only [call_in_range] at hr
    obtain ⟨r, t, h, _⟩ := miditrack_noteon_status trk d c p v hr.1
    exact ⟨r, t, h⟩
  | noteoff d c p v =>
    simp only [call_in_range] at hr
    obtain ⟨r, t, h, _⟩ := miditrack_noteoff_status trk d c p v hr.1
    exact ⟨r, t, h⟩
  | settempo d bpm =>
    simp only [call_in_range] at hr
    by_cases hb : bpm = 0
    · exact ⟨1, trk, by simp only [do_call, miditrack_settempo, if_pos hb]⟩
    · obtain ⟨t, h, _⟩ := miditrack_settempo_ok trk d bpm hr.1 hb
      exact ⟨0, t, h⟩
  | endtrack d =>
    simp only [call_in_range] at hr
    obtain ⟨r, t, h, _⟩ :=
      miditrack_addevent_status trk d MIDIEVENT_META META_1_ENDTRACK META_2_ENDTRACK none 0 hr
    exact ⟨r, t, h⟩
  | addevent d s d1 d2 extra extralen =>
    simp only [call_in_range] at hr
    obtain ⟨r, t, h, _⟩ := miditrack_addevent_status trk d s d1 d2 extra extralen hr.1
    exact ⟨r, t, h⟩

theorem run_calls_defined : ∀ (calls : List track_call) (trk : miditrack_t)
    (last : Option track_call), (∀ c ∈ calls, call_in_range c) →
    ∃ trk1 last1, run_calls trk last calls = some (trk1, last1)
  | [], trk, last, _ => ⟨trk, last, rfl⟩
  | call :: rest, trk, last, hr => by
    obtain ⟨r, trk1, h1⟩ := do_call_defined trk call (hr call (List.mem_cons_self _ _))
    obtain ⟨trk2, last2, h2⟩ :=
      run_calls_defined rest trk1 (if r = 0 then some call else last)
        (fun c hc => hr c (List.mem_cons_of_mem _ hc))
    refine ⟨trk2, last2, ?_⟩
    simp only [run_calls, h1]
    exact h2

/-- A track built by wrapper calls ends with `FF 2F 00` exactly when the last event appended
is an end-of-track event, and `finalise_miditrack` adds the event exactly when it is not. -/
theorem last_call_aux (raw : miditrack_t) (bufsize : Nat) (calls : List track_call)
    (hcalls : ∀ c ∈ calls, call_in_range c ∧ is_wrapper_call c) :
    ∃ trk last, run_calls (init_miditrack raw bufsize).2 none calls = some (trk, last) ∧
      ∀ c, last = some c →
        3 ≤ trk.events.length ∧
        ((∃ pre, trk.events = pre ++ [0xff, 0x2f, 0x00]) ↔ is_endtrack_call c) ∧
        ∃ trk1, finalise_miditrack trk = some (0, trk1) ∧
          (is_endtrack_call c → trk1.events = trk.events) ∧
          (¬ is_endtrack_call c → trk1.events = trk.events ++ [0x00, 0xff, 0x2f, 0x00]) := by
  obtain ⟨trk, last, hrun⟩ :=
    run_calls_defined calls (init_miditrack raw bufsize).2 none (fun c hc => (hcalls c hc).1)
  refine ⟨trk, last, hrun, ?_⟩
  intro c hc
  obtain ⟨h3, hiff⟩ :=
    run_calls_last_bytes calls (init_miditrack raw bufsize).2 none trk last hcalls
      (fun c h => by simp at h) hrun c hc
  refine ⟨h3, ?_, ?_⟩
  · rw [← hiff]
    constructor
    · rintro ⟨pre, hp⟩
      exact endtrack_present_of_suffix trk pre hp
    · intro h
      exact suffix_of_endtrack_present trk h3 h
  · obtain ⟨trk0, hf, _, _, _, hev, _⟩ := finalise_miditrack_result trk h3
    refine ⟨finalise_shrink trk0, hf, ?_, ?_⟩
    · intro he
      have hnm : ¬ endtrack_missing trk := hiff.mpr he
      rw [(finalise_shrink_events trk0).1, hev, if_neg hnm, List.append_nil]
    · intro he
      have hm : endtrack_missing trk := by
        by_contra hn
        exact he (hiff.mp hn)
      rw [(finalise_shrink_events trk0).1, hev, if_pos hm]

/-! ## Claims on `startswith`, buffer growth, the encoding and the end-of-track test -/

/-- C31. For all strings `a` and `b`, `startswith(a, b)` returns 1 when `b` is a leading part
of `a` (`a` is `b` followed by some string, which includes `b` empty and `b` equal to `a`) and
0 otherwise; `startswith("abc", "ab") = 1`, `startswith("abc", "abcde") = 0` and
`startswith("blue", "lu") = 0`. -/
theorem startswith_iff_leading (a b : List Char) :
    (startswith a b = 1 ↔ ∃ t, a = b ++ t) ∧
    (startswith a b = 0 ↔ ¬ ∃ t, a = b ++ t) ∧
    startswith a [] = 1 ∧ startswith a a = 1 ∧
    startswith ['a', 'b', 'c'] ['a', 'b'] = 1 ∧
    startswith ['a', 'b', 'c'] ['a', 'b', 'c', 'd', 'e'] = 0 ∧
    startswith ['b', 'l', 'u', 'e'] ['l', 'u'] = 0 :=
  ⟨(startswith_spec a b).1, (startswith_spec a b).2,
    (startswith_spec a []).1.mpr ⟨a, rfl⟩, (startswith_spec a a).1.mpr ⟨[], by simp⟩,
    by decide, by decide, by decide⟩

/-- C32. For every track with the cursor inside the buffer (and a capacity to which 4096 can be
added within `size_t`), every delta time (a `uint32_t`) and every event with at most 255 extra
bytes for which the call is not rejected: `miditrack_addevent` returns 0, the capacity
`events_size` grows by exactly 4096 when fewer than 263 bytes were free before the call and is
unchanged otherwise, and in both cases at least 263 bytes are free from the cursor at the
moment the event bytes are written, which are at most 263. -/
theorem miditrack_addevent_growth (trk : miditrack_t) (d s d1 d2 : Nat)
    (extra : Option (List Nat)) (extralen : Nat) (hd : d < 2 ^ 32)
    (hx : ¬ (extra = none ∧ extralen > 0)) (hlen : extralen ≤ 255)
    (hcur : trk.events.length ≤ trk.events_size) (hsize : trk.events_size + 4096 < 2 ^ 64) :
    miditrack_buffer_remaining trk = trk.events_size - trk.events.length ∧
    ∃ trk1, miditrack_addevent trk d s d1 d2 extra extralen = some (0, trk1) ∧
      (miditrack_buffer_remaining trk < 263 → trk1.events_size = trk.events_size + 4096) ∧
      (263 ≤ miditrack_buffer_remaining trk → trk1.events_size = trk.events_size) ∧
      263 ≤ trk1.events_size - trk.events.length ∧
      trk1.events.length ≤ trk.events.length + 263 ∧
      trk1.events.length ≤ trk1.events_size := by
  have hrem := miditrack_buffer_remaining_eq trk hcur (by omega)
  obtain ⟨trk1, h1, h2, h3, _, h5, h6⟩ :=
    miditrack_addevent_capacity trk d s d1 d2 extra extralen hd hx hlen hcur hsize
  refine ⟨hrem, trk1, h1, ?_, ?_, h3, h5, h6⟩
  · intro h
    rw [hrem] at h
    rw [h2, if_pos h]
  · intro h
    rw [hrem] at h
    rw [h2, if_neg (by omega)]

/-- C32 (witness). A track initialised with a buffer of 200 bytes, all of them free: the first
note-on event grows the capacity to 4296; the following one finds 4292 bytes free and leaves
the capacity unchanged. -/
theorem miditrack_addevent_growth_witness :
    (96 < 2 ^ 32 ∧ ¬ ((none : Option (List Nat)) = none ∧ 0 > 0) ∧ 0 ≤ 255 ∧
      (⟨[0x4d, 0x54, 0x72, 0x6b], 0, [], 200⟩ : miditrack_t).events.length
        ≤ (⟨[0x4d, 0x54, 0x72, 0x6b], 0, [], 200⟩ : miditrack_t).events_size ∧
      (⟨[0x4d, 0x54, 0x72, 0x6b], 0, [], 200⟩ : miditrack_t).events_size + 4096 < 2 ^ 64) ∧
    (∃ trk1, miditrack_addevent ⟨[0x4d, 0x54, 0x72, 0x6b], 0, [], 200⟩
        96 0x90 60 100 none 0 = some (0, trk1) ∧
      (miditrack_buffer_remaining ⟨[0x4d, 0x54, 0x72, 0x6b], 0, [], 200⟩ < 263 →
        trk1.events_size = (⟨[0x4d, 0x54, 0x72, 0x6b], 0, [], 200⟩ : miditrack_t).events_size
          + 4096) ∧
      (263 ≤ miditrack_buffer_remaining ⟨[0x4d, 0x54, 0x72, 0x6b], 0, [], 200⟩ →
        trk1.events_size = (⟨[0x4d, 0x54, 0x72, 0x6b], 0, [], 200⟩ : miditrack_t).events_size) ∧
      263 ≤ trk1.events_size
        - (⟨[0x4d, 0x54, 0x72, 0x6b], 0, [], 200⟩ : miditrack_t).events.length ∧
      trk1.events.length
        ≤ (⟨[0x4d, 0x54, 0x72, 0x6b], 0, [], 200⟩ : miditrack_t).events.length + 263 ∧
      trk1.events.length ≤ trk1.events_size) ∧
    miditrack_addevent ⟨[0x4d, 0x54, 0x72, 0x6b], 0, [], 200⟩ 96 0x90 60 100 none 0 =
      some (0, ⟨[0x4d, 0x54, 0x72, 0x6b], 0, [0x60, 0x90, 60, 100], 4296⟩) ∧
    miditrack_addevent ⟨[0x4d, 0x54, 0x72, 0x6b], 0, [0x60, 0x90, 60, 100], 4296⟩
        96 0x80 60 100 none 0 =
      some (0, ⟨[0x4d, 0x54, 0x72, 0x6b], 0, [0x60, 0x90, 60, 100, 0x60, 0x80, 60, 100],
        4296⟩) :=
  ⟨by decide,
    (miditrack_addevent_growth ⟨[0x4d, 0x54, 0x72, 0x6b], 0, [], 200⟩ 96 0x90 60 100 none 0
      (by decide) (by decide) (by decide) (by decide) (by decide)).2,
    by decide, by decide⟩

/-- C33. `enc_varint32` is injective on the 32-bit unsigned values: two values with the same
result are equal; and the decoder `dec_varint32` recovers every value from the bytes that
`enc_varint32` produces for it. -/
theorem enc_varint32_injective (v w : Nat) (hv : v < 2 ^ 32) (hw : w < 2 ^ 32) :
    (enc_varint32 v = enc_varint32 w → v = w) ∧
    (varint_bytes v = varint_bytes w → v = w) ∧
    enc_varint32 v = some ((varint_bytes v).length, varint_bytes v) ∧
    dec_varint32 (varint_bytes v) = v :=
  ⟨enc_varint32_injective_aux v w hv hw,
    fun h => by rw [← dec_varint32_enc v hv, ← dec_varint32_enc w hw, h],
    varint_bytes_spec v hv, dec_varint32_enc v hv⟩

/-- C33 (witness). The values 128 and 16511, encoded as `80 00` and `FF 7F`. -/
theorem enc_varint32_injective_witness :
    (128 < 2 ^ 32 ∧ 16511 < 2 ^ 32) ∧
    (enc_varint32 128 = enc_varint32 16511 → 128 = 16511) ∧
    dec_varint32 (varint_bytes 128) = 128 ∧
    varint_bytes 128 = [0x80, 0x00] ∧ varint_bytes 16511 = [0xff, 0x7f] :=
  ⟨by decide, (enc_varint32_injective 128 16511 (by decide) (by decide)).1,
    (enc_varint32_injective 128 16511 (by decide) (by decide)).2.2.2, by decide, by decide⟩

/-- C34. For every track created by `init_miditrack` with any buffer size, and every sequence
of calls of `miditrack_noteon`, `miditrack_noteoff`, `miditrack_settempo`, `miditrack_end` and
`miditrack_addevent` whose arguments are values of the parameter types with `extralen` at most
255 (the capacity staying within `size_t`): after each of the calls, that is after the first
`k` calls for every `k`, the track is defined and its cursor offset is at most the capacity
`events_size`. -/
theorem cursor_within_capacity (raw : miditrack_t) (bufsize : Nat) (calls : List track_call)
    (k : Nat) (hcalls : ∀ c ∈ calls, call_in_range c)
    (hsize : (if bufsize = 0 then 16384 else bufsize) + 4096 * calls.length < 2 ^ 64) :
    ∃ trk last, run_calls (init_miditrack raw bufsize).2 none (calls.take k) = some (trk, last) ∧
      trk.events.length ≤ trk.events_size := by
  apply run_calls_within
  · intro c hc
    exact hcalls c (List.mem_of_mem_take hc)
  · simp [init_miditrack]
  · have hk : (calls.take k).length ≤ calls.length := by
      rw [List.length_take]; omega
    have hinit : (init_miditrack raw bufsize).2.events_size
        = if bufsize = 0 then 16384 else bufsize := by
      simp only [init_miditrack, MIDIEVENTS_BUFSIZE]
      split <;> simp_all
    rw [hinit]
    omega

/-- C34 (witness). A buffer of a single byte and the calls note-on, set-tempo, a raw event with
two extra bytes, note-off and end-of-track. -/
theorem cursor_within_capacity_witness :
    ((∀ c ∈ [track_call.noteon 0 0 60 100, track_call.settempo 0 120,
        track_call.addevent 0 0xff 0x01 0x02 (some [0x41, 0x42]) 2,
        track_call.noteoff 96 0 60 100, track_call.endtrack 0], call_in_range c) ∧
      (if (1 : Nat) = 0 then 16384 else 1) + 4096 *
        [track_call.noteon 0 0 60 100, track_call.settempo 0 120,
          track_call.addevent 0 0xff 0x01 0x02 (some [0x41, 0x42]) 2,
          track_call.noteoff 96 0 60 100, track_call.endtrack 0].length < 2 ^ 64) ∧
    ∃ trk last, run_calls (init_miditrack ⟨[], 0, [], 0⟩ 1).2 none
        ([track_call.noteon 0 0 60 100, track_call.settempo 0 120,
          track_call.addevent 0 0xff 0x01 0x02 (some [0x41, 0x42]) 2,
          track_call.noteoff 96 0 60 100, track_call.endtrack 0].take 5) = some (trk, last) ∧
      trk.events.length ≤ trk.events_size :=
  ⟨⟨by decide, by decide⟩,
    cursor_within_capacity ⟨[], 0, [], 0⟩ 1 _ 5 (by decide) (by decide)⟩

/-- C35 (evaluation at the failing input). On a freshly initialised track, whose cursor is at
offset 0, the first byte the end-of-track test of `finalise_miditrack` reads is at offset -3,
before the start of the event buffer, whatever the memory holds; so the result of
`finalise_miditrack` is not defined there. With two payload bytes `2F 00` and the byte `FF` in
front of the buffer the test reads the offsets -1, 0 and 1. -/
theorem endtrack_test_reads_before_buffer (mem : Int → Nat) (raw : miditrack_t)
    (bufsize : Nat) :
    ((init_miditrack raw bufsize).2.events.length : Int) = 0 ∧
    (endtrack_test_reads mem ((init_miditrack raw bufsize).2.events.length : Int)).head?
      = some (-3) ∧
    finalise_miditrack (init_miditrack raw bufsize).2 = none ∧
    endtrack_test_reads (fun i => if i = -1 then 0xff else if i = 0 then 0x2f else 0x00)
      ((⟨[0x4d, 0x54, 0x72, 0x6b], 0, [0x2f, 0x00], 16384⟩ : miditrack_t).events.length : Int)
      = [-1, 0, 1] ∧
    finalise_miditrack ⟨[0x4d, 0x54, 0x72, 0x6b], 0, [0x2f, 0x00], 16384⟩ = none := by
  have h0 : (init_miditrack raw bufsize).2.events = [] := rfl
  refine ⟨by rw [h0]; rfl, ?_, ?_, by decide, by decide⟩
  · rw [h0]
    simp only [List.length_nil, Nat.cast_zero, endtrack_test_reads]
    split
    · rfl
    · split <;> rfl
  · simp [finalise_miditrack, h0]

/-! ## Claims on end-of-track detection, sizes, the translator and the modal tempo -/

/-- C36. For every track created by `init_miditrack` and every sequence of calls of
`miditrack_noteon`, `miditrack_noteoff`, `miditrack_settempo` and `miditrack_end` whose
arguments are values of the parameter types: when some call has appended an event, the track
holds at least three bytes and its last three payload bytes are `FF 2F 00` if and only if the
last event appended is an end-of-track event; and `finalise_miditrack` leaves the payload as it
is in that case and appends `00 FF 2F 00` in the other. -/
theorem endtrack_bytes_iff_last_event (raw : miditrack_t) (bufsize : Nat)
    (calls : List track_call)
    (hcalls : ∀ c ∈ calls, call_in_range c ∧ is_wrapper_call c) :
    ∃ trk last, run_calls (init_miditrack raw bufsize).2 none calls = some (trk, last) ∧
      ∀ c, last = some c →
        3 ≤ trk.events.length ∧
        ((∃ pre, trk.events = pre ++ [0xff, 0x2f, 0x00]) ↔ is_endtrack_call c) ∧
        ∃ trk1, finalise_miditrack trk = some (0, trk1) ∧
          (is_endtrack_call c → trk1.events = trk.events) ∧
          (¬ is_endtrack_call c → trk1.events = trk.events ++ [0x00, 0xff, 0x2f, 0x00]) :=
  last_call_aux raw bufsize calls hcalls

/-- C36 (witness). The calls set-tempo (255 beats per minute), note-on and note-off with pitch
47 and velocity 0, whose last event is `80 2F 00`, and the same calls followed by
`miditrack_end`. -/
theorem endtrack_bytes_iff_last_event_witness :
    (∀ c ∈ [track_call.settempo 0 255, track_call.noteon 0 0 47 0, track_call.noteoff 96 0 47 0],
      call_in_range c ∧ is_wrapper_call c) ∧
    (∃ trk last, run_calls (init_miditrack ⟨[], 0, [], 0⟩ 0).2 none
        [track_call.settempo 0 255, track_call.noteon 0 0 47 0, track_call.noteoff 96 0 47 0]
        = some (trk, last) ∧
      ∀ c, last = some c →
        3 ≤ trk.events.length ∧
        ((∃ pre, trk.events = pre ++ [0xff, 0x2f, 0x00]) ↔ is_endtrack_call c) ∧
        ∃ trk1, finalise_miditrack trk = some (0, trk1) ∧
          (is_endtrack_call c → trk1.events = trk.events) ∧
          (¬ is_endtrack_call c → trk1.events = trk.events ++ [0x00, 0xff, 0x2f, 0x00])) ∧
    run_calls (init_miditrack ⟨[], 0, [], 0⟩ 0).2 none
        [track_call.settempo 0 255, track_call.noteon 0 0 47 0, track_call.noteoff 96 0 47 0]
      = some (⟨[0x4d, 0x54, 0x72, 0x6b], 0,
          [0x00, 0xff, 0x51, 0x03, 0x03, 0x97, 0x1e, 0x00, 0x90, 47, 0, 0x60, 0x80, 47, 0],
          16384⟩, some (track_call.noteoff 96 0 47 0)) ∧
    run_calls (init_miditrack ⟨[], 0, [], 0⟩ 0).2 none
        [track_call.settempo 0 255, track_call.noteon 0 0 47 0, track_call.noteoff 96 0 47 0,
          track_call.endtrack 0]
      = some (⟨[0x4d, 0x54, 0x72, 0x6b], 0,
          [0x00, 0xff, 0x51, 0x03, 0x03, 0x97, 0x1e, 0x00, 0x90, 47, 0, 0x60, 0x80, 47, 0,
            0x00, 0xff, 0x2f, 0x00],
          16384⟩, some (track_call.endtrack 0)) :=
  ⟨by decide,
    endtrack_bytes_iff_last_event ⟨[], 0, [], 0⟩ 0
      [track_call.settempo 0 255, track_call.noteon 0 0 47 0, track_call.noteoff 96 0 47 0]
      (by decide),
    by decide, by decide⟩

/-- C37. For every finalised MIDI file (header with the chunk id `MThd` and the number of its
tracks, a `uint16_t`; every track the result of `finalise_miditrack` on an initialised track
with the cursor inside the buffer and a payload below `2 ^ 32` bytes), on either host, whatever
the value of the macro `IS_BIG_ENDIAN` and whatever the memory outside the payloads holds, the
number of bytes `write_midifile` emits equals `midifile_getsize`, which is 14 plus, for each
track, 8 plus the track's `chunksize`. -/
theorem write_midifile_length (is_big_endian host_big_endian : Bool) (fill : Nat → Nat → Nat)
    (midif : midifile_t)
    (hhdr : midif.header.chunkid = [0x4d, 0x54, 0x68, 0x64])
    (hn : midif.header.ntracks = midif.tracks.length)
    (hnt : midif.header.ntracks < 2 ^ 16)
    (hfin : ∀ trk ∈ midif.tracks, ∃ trk0, trk0.chunkid = [0x4d, 0x54, 0x72, 0x6b] ∧
      trk0.events.length ≤ trk0.events_size ∧ trk0.events_size < 2 ^ 63 ∧
      trk0.events.length + 4 < 2 ^ 32 ∧ finalise_miditrack trk0 = some (0, trk)) :
    (write_midifile is_big_endian host_big_endian fill midif).length = midifile_getsize midif ∧
    midifile_getsize midif = 14 + (midif.tracks.map (fun trk => 8 + trk.chunksize)).sum :=
  write_midifile_length_aux is_big_endian host_big_endian fill midif hhdr hn hnt hfin

/-- C37 (witness). A file of one track holding a note-on and the end-of-track event: 30 bytes
are written, 14 for the header and 8 + 8 for the track. -/
theorem write_midifile_length_witness :
    ((⟨(init_midiheader 0 1 96).2,
        [⟨[0x4d, 0x54, 0x72, 0x6b], 8, [0x00, 0x90, 60, 100, 0x00, 0xff, 0x2f, 0x00], 8⟩]⟩
          : midifile_t).header.chunkid = [0x4d, 0x54, 0x68, 0x64] ∧
     (⟨(init_midiheader 0 1 96).2,
        [⟨[0x4d, 0x54, 0x72, 0x6b], 8, [0x00, 0x90, 60, 100, 0x00, 0xff, 0x2f, 0x00], 8⟩]⟩
          : midifile_t).header.ntracks =
       (⟨(init_midiheader 0 1 96).2,
        [⟨[0x4d, 0x54, 0x72, 0x6b], 8, [0x00, 0x90, 60, 100, 0x00, 0xff, 0x2f, 0x00], 8⟩]⟩
          : midifile_t).tracks.length ∧
     (⟨(init_midiheader 0 1 96).2,
        [⟨[0x4d, 0x54, 0x72, 0x6b], 8, [0x00, 0x90, 60, 100, 0x00, 0xff, 0x2f, 0x00], 8⟩]⟩
          : midifile_t).header.ntracks < 2 ^ 16 ∧
     (∀ trk ∈ (⟨(init_midiheader 0 1 96).2,
        [⟨[0x4d, 0x54, 0x72, 0x6b], 8, [0x00, 0x90, 60, 100, 0x00, 0xff, 0x2f, 0x00], 8⟩]⟩
          : midifile_t).tracks,
       ∃ trk0, trk0.chunkid = [0x4d, 0x54, 0x72, 0x6b] ∧
        trk0.events.length ≤ trk0.events_size ∧ trk0.events_size < 2 ^ 63 ∧
        trk0.events.length + 4 < 2 ^ 32 ∧ finalise_miditrack trk0 = some (0, trk))) ∧
    ((write_midifile true true (fun _ _ => 0) ⟨(init_midiheader 0 1 96).2,
        [⟨[0x4d, 0x54, 0x72, 0x6b], 8, [0x00, 0x90, 60, 100, 0x00, 0xff, 0x2f, 0x00], 8⟩]⟩).length
      = midifile_getsize ⟨(init_midiheader 0 1 96).2,
        [⟨[0x4d, 0x54, 0x72, 0x6b], 8, [0x00, 0x90, 60, 100, 0x00, 0xff, 0x2f, 0x00], 8⟩]⟩) ∧
    midifile_getsize ⟨(init_midiheader 0 1 96).2,
        [⟨[0x4d, 0x54, 0x72, 0x6b], 8, [0x00, 0x90, 60, 100, 0x00, 0xff, 0x2f, 0x00], 8⟩]⟩ = 30 := by
  have hfin : ∀ trk ∈ (⟨(init_midiheader 0 1 96).2,
        [⟨[0x4d, 0x54, 0x72, 0x6b], 8, [0x00, 0x90, 60, 100, 0x00, 0xff, 0x2f, 0x00], 8⟩]⟩
          : midifile_t).tracks,
       ∃ trk0, trk0.chunkid = [0x4d, 0x54, 0x72, 0x6b] ∧
        trk0.events.length ≤ trk0.events_size ∧ trk0.events_size < 2 ^ 63 ∧
        trk0.events.length + 4 < 2 ^ 32 ∧ finalise_miditrack trk0 = some (0, trk) := by
    intro trk hmem
    simp only [List.mem_singleton] at hmem
    subst hmem
    exact ⟨⟨[0x4d, 0x54, 0x72, 0x6b], 0, [0x00, 0x90, 60, 100], 16384⟩,
      rfl, by decide, by decide, by decide, by decide⟩
  exact ⟨⟨rfl, rfl, by decide, hfin⟩,
    (write_midifile_length true true (fun _ _ => 0) _ rfl rfl (by decide) hfin).1, by decide⟩

/-- C38. For every sequence of notes that all carry the tempo `T`, with valid pitches and with
non-negative, non-decreasing times (exact rationals), translated at `ppq` pulses per quarter
note with `ppq * bpm` below `2 ^ 32` and the tick position of the last time below `2 ^ 32`,
where `bpm` is `T`, or 120 when `T` is 0, and `ticks_per_sec = ppq * bpm / 60` by integer
division: at every note of the sequence, `earlier` being the notes before it, the loop of
`gen_midi_file` reaches the note, the value of the start delta and of the stop delta before
conversion is not negative, both deltas are defined and below `2 ^ 32`, and the running total
of ticks is `floor(ticks_per_sec * start_sec)` after the start delta and
`floor(ticks_per_sec * stop_sec)` after the stop delta. -/
theorem gen_midi_file_constant_tempo (ppq T : Nat) (trk : miditrack_t)
    (earlier : List note_t) (note : note_t)
    (htempo : ∀ n ∈ earlier ++ [note], n.tempo = T)
    (hpitch : ∀ n ∈ earlier ++ [note], n.pitch % 256 ≤ 127)
    (hsorted : List.Pairwise (fun a b => a ≤ b) (note_times (earlier ++ [note])))
    (hnonneg : ∀ t ∈ note_times (earlier ++ [note]), 0 ≤ t)
    (hppq : ppq * (if T = 0 then 120 else T) < 2 ^ 32)
    (hfit : ((ppq * (if T = 0 then 120 else T) / 60 : Nat) : ℚ) * note.stop_sec < 2 ^ 32) :
    ∃ st0 st1 st2 d e,
      gen_midi_loop ppq (gen_initial_state ppq trk) earlier = some (0, st0) ∧
      gen_note_begin ppq st0 note = some (0, st1) ∧
      gen_note_end st1 note = some (0, st2) ∧
      gen_midi_loop ppq (gen_initial_state ppq trk) (earlier ++ [note]) = some (0, st2) ∧
      (gen_update_tempo ppq st0 note).ticks_per_sec = ppq * (if T = 0 then 120 else T) / 60 ∧
      st1.ticks_per_sec = ppq * (if T = 0 then 120 else T) / 60 ∧
      0 ≤ delta_value (gen_update_tempo ppq st0 note) note.start_sec ∧
      double_to_ulong (delta_value (gen_update_tempo ppq st0 note) note.start_sec) = some d ∧
      d < 2 ^ 32 ∧
      (st1.total_ticks : ℤ) =
        ⌊((ppq * (if T = 0 then 120 else T) / 60 : Nat) : ℚ) * note.start_sec⌋ ∧
      0 ≤ delta_value st1 note.stop_sec ∧
      double_to_ulong (delta_value st1 note.stop_sec) = some e ∧
      e < 2 ^ 32 ∧
      (st2.total_ticks : ℤ) =
        ⌊((ppq * (if T = 0 then 120 else T) / 60 : Nat) : ℚ) * note.stop_sec⌋ :=
  constant_tempo_aux ppq T trk earlier note htempo hpitch hsorted hnonneg hppq hfit

/-- C38 (witness). Two notes of tempo 90 at 96 pulses per quarter note, that is 144 ticks per
second, the second one lasting from 0.51 s to 1 s: the running total is 73 after its start and
144 after its stop. -/
theorem gen_midi_file_constant_tempo_witness :
    ((∀ n ∈ [(⟨60, 100, 90, 0, 1 / 2⟩ : note_t)] ++ [⟨64, 100, 90, 51 / 100, 1⟩], n.tempo = 90) ∧
      (∀ n ∈ [(⟨60, 100, 90, 0, 1 / 2⟩ : note_t)] ++ [⟨64, 100, 90, 51 / 100, 1⟩],
        n.pitch % 256 ≤ 127) ∧
      List.Pairwise (fun a b => a ≤ b)
        (note_times ([(⟨60, 100, 90, 0, 1 / 2⟩ : note_t)] ++ [⟨64, 100, 90, 51 / 100, 1⟩])) ∧
      (∀ t ∈ note_times ([(⟨60, 100, 90, 0, 1 / 2⟩ : note_t)] ++ [⟨64, 100, 90, 51 / 100, 1⟩]),
        0 ≤ t) ∧
      96 * (if 90 = 0 then 120 else 90) < 2 ^ 32 ∧
      ((96 * (if 90 = 0 then 120 else 90) / 60 : Nat) : ℚ)
        * (⟨64, 100, 90, 51 / 100, 1⟩ : note_t).stop_sec < 2 ^ 32) ∧
    ∃ st0 st1 st2 d e,
      gen_midi_loop 96 (gen_initial_state 96 ⟨[0x4d, 0x54, 0x72, 0x6b], 0, [], 16384⟩)
        [⟨60, 100, 90, 0, 1 / 2⟩] = some (0, st0) ∧
      gen_note_begin 96 st0 ⟨64, 100, 90, 51 / 100, 1⟩ = some (0, st1) ∧
      gen_note_end st1 ⟨64, 100, 90, 51 / 100, 1⟩ = some (0, st2) ∧
      0 ≤ delta_value (gen_update_tempo 96 st0 ⟨64, 100, 90, 51 / 100, 1⟩)
        (⟨64, 100, 90, 51 / 100, 1⟩ : note_t).start_sec ∧
      double_to_ulong (delta_value (gen_update_tempo 96 st0 ⟨64, 100, 90, 51 / 100, 1⟩)
        (⟨64, 100, 90, 51 / 100, 1⟩ : note_t).start_sec) = some d ∧
      (st1.total_ticks : ℤ) = 73 ∧
      0 ≤ delta_value st1 (⟨64, 100, 90, 51 / 100, 1⟩ : note_t).stop_sec ∧
      double_to_ulong (delta_value st1 (⟨64, 100, 90, 51 / 100, 1⟩ : note_t).stop_sec)
        = some e ∧
      (st2.total_ticks : ℤ) = 144 := by
  have h1 : ∀ n ∈ [(⟨60, 100, 90, 0, 1 / 2⟩ : note_t)] ++ [⟨64, 100, 90, 51 / 100, 1⟩],
      n.tempo = 90 := by
    intro n hn
    simp only [List.cons_append, List.nil_append, List.mem_cons, List.mem_singleton,
      List.not_mem_nil, or_false] at hn
    rcases hn with rfl | rfl <;> rfl
  have h2 : ∀ n ∈ [(⟨60, 100, 90, 0, 1 / 2⟩ : note_t)] ++ [⟨64, 100, 90, 51 / 100, 1⟩],
      n.pitch % 256 ≤ 127 := by
    intro n hn
    simp only [List.cons_append, List.nil_append, List.mem_cons, List.mem_singleton,
      List.not_mem_nil, or_false] at hn
    rcases hn with rfl | rfl <;> decide
  have h3 : List.Pairwise (fun a b => a ≤ b)
      (note_times ([(⟨60, 100, 90, 0, 1 / 2⟩ : note_t)] ++ [⟨64, 100, 90, 51 / 100, 1⟩])) := by
    simp only [List.cons_append, List.nil_append, note_times, List.pairwise_cons,
      List.mem_cons, List.mem_singleton, List.not_mem_nil, or_false, List.Pairwise.nil,
      and_true, forall_eq_or_imp, forall_eq, IsEmpty.forall_iff, implies_true]
    norm_num
  have h4 : ∀ t ∈ note_times
      ([(⟨60, 100, 90, 0, 1 / 2⟩ : note_t)] ++ [⟨64, 100, 90, 51 / 100, 1⟩]), 0 ≤ t := by
    intro t ht
    simp only [List.cons_append, List.nil_append, note_times, List.mem_cons,
      List.not_mem_nil, or_false] at ht
    rcases ht with rfl | rfl | rfl | rfl <;> norm_num
  have h5 : 96 * (if 90 = 0 then 120 else 90) < 2 ^ 32 := by decide
  have h6 : ((96 * (if 90 = 0 then 120 else 90) / 60 : Nat) : ℚ)
      * (⟨64, 100, 90, 51 / 100, 1⟩ : note_t).stop_sec < 2 ^ 32 := by norm_num
  obtain ⟨st0, st1, st2, d, e, g1, g2, g3, _, _, _, g7, g8, _, g10, g11, g12, _, g14⟩ :=
    gen_midi_file_constant_tempo 96 90 ⟨[0x4d, 0x54, 0x72, 0x6b], 0, [], 16384⟩
      [⟨60, 100, 90, 0, 1 / 2⟩] ⟨64, 100, 90, 51 / 100, 1⟩ h1 h2 h3 h4 h5 h6
  refine ⟨⟨h1, h2, h3, h4, h5, h6⟩, st0, st1, st2, d, e, g1, g2, g3, g7, g8, ?_, g11, g12, ?_⟩
  · rw [g10]
    norm_num
  · rw [g14]
    norm_num

/-- C39 (evaluation at the failing input). With `ppq = 65536`, as given on the command line by
`--ppq 65536`, the one note lasting from 0 to 0.5 s at tempo 120 is translated with
`ticks_per_sec = 65536 * 120 / 60 = 131072`: its note-off has the delta bytes `82 FF 00`, which
encode 65536 ticks, while the header of the file declares a time division of 96, the default
that `init_midifile` takes for its `uint16_t` argument `65536 mod 2 ^ 16 = 0`. -/
theorem gen_midi_file_ppq_truncated :
    (∃ out, gen_midi_file false false (fun _ _ => 0) (fun _ => ⟨[], 0, [], 0⟩)
        [⟨60, 100, 120, 0, 1 / 2⟩] 65536
        = some out ∧
      out.ret = 0 ∧ out.midif.header.time_div = 96 ∧
      out.midif.tracks.map (fun t => t.events) =
        [[0x00, 0x90, 60, 100, 0x82, 0xff, 0x00, 0x80, 60, 100, 0x00, 0xff, 0x2f, 0x00]]) ∧
    (gen_initial_state 65536 (init_miditrack ⟨[], 0, [], 0⟩ 0).2).ticks_per_sec
      = 65536 * 120 / 60 ∧
    varint_bytes 65536 = [0x82, 0xff, 0x00] ∧ dec_varint32 [0x82, 0xff, 0x00] = 65536 ∧
    65536 % 2 ^ 16 = 0 ∧ (init_midiheader 0 1 (65536 % 2 ^ 16)).2.time_div = 96 :=
  ⟨wide_ppq_run, by decide, by decide, by decide, by decide, by decide⟩

/-- C40. For every list of fewer than `2 ^ 31` notes, `get_modal_tempo` returns 0 when the
list is empty and otherwise the tempo `m` of one of the notes, such that every tempo value of
the list occurs at most as often as `m`, and every tempo value that occurs as often as `m` has
its first occurrence at or after the first occurrence of `m`. -/
theorem get_modal_tempo_mode (notes : List note_t) (hlen : notes.length < 2 ^ 31) :
    ∃ m, get_modal_tempo notes = some m ∧
      (notes = [] → m = 0) ∧
      (notes ≠ [] →
        m ∈ notes.map (fun n => n.tempo) ∧
        ∀ t ∈ notes.map (fun n => n.tempo),
          (notes.map (fun n => n.tempo)).count t ≤ (notes.map (fun n => n.tempo)).count m ∧
          ((notes.map (fun n => n.tempo)).count t = (notes.map (fun n => n.tempo)).count m →
            (notes.map (fun n => n.tempo)).indexOf m
              ≤ (notes.map (fun n => n.tempo)).indexOf t)) := by
  obtain ⟨m, h1, h2⟩ := get_modal_tempo_aux notes hlen
  refine ⟨m, h1, ?_, ?_⟩
  · intro he
    rcases h2 with ⟨_, h0⟩ | ⟨hm, _⟩
    · exact h0
    · rw [he] at hm
      simp at hm
  · intro hne
    rcases h2 with ⟨he, _⟩ | h
    · exact absurd he hne
    · exact h

/-- C40 (witness). The tempos 100, 120, 120, 100, 90: the values 100 and 120 both occur twice
and 100 occurs first, so the result is 100; the empty list gives 0. -/
theorem get_modal_tempo_mode_witness :
    ([(⟨60, 100, 100, 0, 1⟩ : note_t), ⟨60, 100, 120, 1, 2⟩, ⟨60, 100, 120, 2, 3⟩,
        ⟨60, 100, 100, 3, 4⟩, ⟨60, 100, 90, 4, 5⟩].length < 2 ^ 31) ∧
    (∃ m, get_modal_tempo [(⟨60, 100, 100, 0, 1⟩ : note_t), ⟨60, 100, 120, 1, 2⟩,
        ⟨60, 100, 120, 2, 3⟩, ⟨60, 100, 100, 3, 4⟩, ⟨60, 100, 90, 4, 5⟩] = some m ∧
      ([(⟨60, 100, 100, 0, 1⟩ : note_t), ⟨60, 100, 120, 1, 2⟩, ⟨60, 100, 120, 2, 3⟩,
        ⟨60, 100, 100, 3, 4⟩, ⟨60, 100, 90, 4, 5⟩] = [] → m = 0) ∧
      ([(⟨60, 100, 100, 0, 1⟩ : note_t), ⟨60, 100, 120, 1, 2⟩, ⟨60, 100, 120, 2, 3⟩,
        ⟨60, 100, 100, 3, 4⟩, ⟨60, 100, 90, 4, 5⟩] ≠ [] →
        m ∈ [(⟨60, 100, 100, 0, 1⟩ : note_t), ⟨60, 100, 120, 1, 2⟩, ⟨60, 100, 120, 2, 3⟩,
          ⟨60, 100, 100, 3, 4⟩, ⟨60, 100, 90, 4, 5⟩].map (fun n => n.tempo) ∧
        ∀ t ∈ [(⟨60, 100, 100, 0, 1⟩ : note_t), ⟨60, 100, 120, 1, 2⟩, ⟨60, 100, 120, 2, 3⟩,
            ⟨60, 100, 100, 3, 4⟩, ⟨60, 100, 90, 4, 5⟩].map (fun n => n.tempo),
          ([(⟨60, 100, 100, 0, 1⟩ : note_t), ⟨60, 100, 120, 1, 2⟩, ⟨60, 100, 120, 2, 3⟩,
            ⟨60, 100, 100, 3, 4⟩, ⟨60, 100, 90, 4, 5⟩].map (fun n => n.tempo)).count t
            ≤ ([(⟨60, 100, 100, 0, 1⟩ : note_t), ⟨60, 100, 120, 1, 2⟩, ⟨60, 100, 120, 2, 3⟩,
              ⟨60, 100, 100, 3, 4⟩, ⟨60, 100, 90, 4, 5⟩].map (fun n => n.tempo)).count m ∧
          (([(⟨60, 100, 100, 0, 1⟩ : note_t), ⟨60, 100, 120, 1, 2⟩, ⟨60, 100, 120, 2, 3⟩,
            ⟨60, 100, 100, 3, 4⟩, ⟨60, 100, 90, 4, 5⟩].map (fun n => n.tempo)).count t
            = ([(⟨60, 100, 100, 0, 1⟩ : note_t), ⟨60, 100, 120, 1, 2⟩, ⟨60, 100, 120, 2, 3⟩,
              ⟨60, 100, 100, 3, 4⟩, ⟨60, 100, 90, 4, 5⟩].map (fun n => n.tempo)).count m →
            ([(⟨60, 100, 100, 0, 1⟩ : note_t), ⟨60, 100, 120, 1, 2⟩, ⟨60, 100, 120, 2, 3⟩,
              ⟨60, 100, 100, 3, 4⟩, ⟨60, 100, 90, 4, 5⟩].map (fun n => n.tempo)).indexOf m
              ≤ ([(⟨60, 100, 100, 0, 1⟩ : note_t), ⟨60, 100, 120, 1, 2⟩, ⟨60, 100, 120, 2, 3⟩,
                ⟨60, 100, 100, 3, 4⟩, ⟨60, 100, 90, 4, 5⟩].map (fun n => n.tempo)).indexOf t))) ∧
    get_modal_tempo [(⟨60, 100, 100, 0, 1⟩ : note_t), ⟨60, 100, 120, 1, 2⟩,
      ⟨60, 100, 120, 2, 3⟩, ⟨60, 100, 100, 3, 4⟩, ⟨60, 100, 90, 4, 5⟩] = some 100 ∧
    get_modal_tempo [] = some 0 :=
  ⟨by decide,
    get_modal_tempo_mode [⟨60, 100, 100, 0, 1⟩, ⟨60, 100, 120, 1, 2⟩, ⟨60, 100, 120, 2, 3⟩,
      ⟨60, 100, 100, 3, 4⟩, ⟨60, 100, 90, 4, 5⟩] (by decide),
    by decide, by decide⟩

end Sound2Score
